import Mathlib

/-!
SIONlib-dispatch: the AB-format reader.

A shallow embedding of `src/sionvar.c` (the binary array reader and the
coordinate accessor) and `src/sionfile.c` (the `.b` text parser and the
descriptor builder), with the properties of the specification stated over it.

Conventions of the embedding

* A C `float` is the four bytes it occupies, in memory order (`F32`); no
  floating-point arithmetic is performed anywhere in the modelled code.
* `int` is 32-bit two's complement, `size_t` is 64-bit unsigned and `long` is
  64-bit two's complement (LP64).  Arithmetic is done on `Int`/`Nat` and wrapped
  explicitly where the C expression is evaluated in a machine type.
* Loop counters (`rec`, `j`, `n`, `a`) are natural numbers.
* Library routines that are not part of the repository (`malloc`, `sscanf`,
  `nc4_convert_type`) are parameters of the functions that call them.
-/

namespace SION

/-! ## Machine types and netCDF constants -/

/-- One byte of memory or of a file. -/
abbrev Byte := Fin 256

/-- A C `float` object, given by its four bytes in memory order. -/
structure F32 where
  b0 : Byte
  b1 : Byte
  b2 : Byte
  b3 : Byte
deriving DecidableEq, Repr

/-- The byte `in[b]` of a float viewed as `char *`. -/
def F32.byte (x : F32) : Nat → Byte
  | 0 => x.b0
  | 1 => x.b1
  | 2 => x.b2
  | _ => x.b3

/-- The 32-bit pattern of a float held in little-endian (native) memory
order. -/
def F32.bits_le (x : F32) : Nat :=
  x.b0.val + 2 ^ 8 * x.b1.val + 2 ^ 16 * x.b2.val + 2 ^ 24 * x.b3.val

/-- The value `sizeof(float)`. -/
def sizeof_float : Nat := 4

/-- Largest value of an `int`. -/
def INT_MAX : Int := 2147483647

/-- Result of an `int` operation whose mathematical value is `x`
(two's-complement wrap-around to 32 bits). -/
def wrap_int (x : Int) : Int := (x + 2 ^ 31) % 2 ^ 32 - 2 ^ 31

/-- Number of values of a `size_t`. -/
def SIZE_MOD : Nat := 2 ^ 64

/-- Conversion of an `int` (or `long`) value to `size_t`. -/
def to_size_t (x : Int) : Nat := (x % 2 ^ 64).toNat

/-- Conversion of a `size_t` value to `long`. -/
def to_long (n : Nat) : Int :=
  if n % SIZE_MOD < 2 ^ 63 then ((n % SIZE_MOD : Nat) : Int)
  else ((n % SIZE_MOD : Nat) : Int) - 2 ^ 64

/-- Code `NC_NOERR` of netcdf.h. -/
def NC_NOERR : Int := 0
/-- Code `NC_EBADID` of netcdf.h. -/
def NC_EBADID : Int := -33
/-- Code `NC_EINVAL` of netcdf.h. -/
def NC_EINVAL : Int := -36
/-- Code `NC_EMAXNAME` of netcdf.h. -/
def NC_EMAXNAME : Int := -53
/-- Code `NC_ERANGE` of netcdf.h. -/
def NC_ERANGE : Int := -60
/-- Code `NC_ENOMEM` of netcdf.h. -/
def NC_ENOMEM : Int := -61
/-- Code `NC_EIO` of netcdf.h. -/
def NC_EIO : Int := -68
/-- Type code `NC_CHAR` of netcdf.h. -/
def NC_CHAR : Int := 2
/-- Type code `NC_FLOAT` of netcdf.h. -/
def NC_FLOAT : Int := 5
/-- Type code `NC_DOUBLE` of netcdf.h. -/
def NC_DOUBLE : Int := 6
/-- Limit `NC_MAX_NAME` of netcdf.h. -/
def NC_MAX_NAME : Nat := 256

/-! ## sionvar.c: the binary array reader -/

/-- `round_up(num, multiple)` of sionvar.c; `%` is C remainder (truncating)
and the sum is evaluated in `int`. -/
def round_up (num multiple : Int) : Int :=
  if multiple = 0 then num
  else
    let remainder := Int.tmod num multiple
    if remainder = 0 then num
    else wrap_int (wrap_int (num + multiple) - remainder)

/-- `reverse_float(fin)` of sionvar.c: `out[b] = in[sizeof(float) - b - 1]`
for `b = 0, 1, 2, 3`. -/
def reverse_float (fin : F32) : F32 :=
  { b0 := fin.byte (sizeof_float - 0 - 1)
    b1 := fin.byte (sizeof_float - 1 - 1)
    b2 := fin.byte (sizeof_float - 2 - 1)
    b3 := fin.byte (sizeof_float - 3 - 1) }

/-- `reverse_floats(bufr_in, bufr_out, num)` of sionvar.c: the floats written
through `out`, one per iteration, while `in` advances over `bufr_in`. -/
def reverse_floats : List F32 → Nat → List F32
  | _, 0 => []
  | [], _ + 1 => []
  | x :: bufr_in, num + 1 => reverse_float x :: reverse_floats bufr_in num

/-- The `.a` file behind `ab_file->a_file`: its size in bytes and its bytes. -/
structure AFile where
  size : Nat
  byte : Nat → Byte

/-- The float stored in the four file bytes starting at `pos`. -/
def AFile.float_at (f : AFile) (pos : Nat) : F32 :=
  { b0 := f.byte pos, b1 := f.byte (pos + 1), b2 := f.byte (pos + 2), b3 := f.byte (pos + 3) }

/-- `fread(bufr, sizeof(float), nmemb, a_file)` with the stream positioned at
`pos`: the complete items read (their number is fread's return value). -/
def fread (f : AFile) (pos nmemb : Nat) : List F32 :=
  (List.range (min nmemb ((f.size - pos) / sizeof_float))).map
    (fun k => f.float_at (pos + sizeof_float * k))

/-- Return code of `SION_get_vara`, the floats written through `ip`, and the
offsets passed to `fseek`, in call order. -/
structure VaraResult where
  ret : Int
  data : List F32
  seeks : List Int
deriving DecidableEq, Repr

/-- The loop `for (j = 0; j < countp[1]; j++)` of `SION_get_vara`, with `n`
iterations left, for one value of `rec`.  `rec_pos` is kept as the `size_t`
value to which `long rec_pos` converts; `st` holds what has been written
through `ip` and the seeks made so far. -/
def get_vara_rows (malloc_ok : Nat → Bool) (a_file : AFile) (i_len : Int)
    (startp countp : Fin 3 → Nat) : Nat → Nat → Nat → VaraResult → VaraResult
  | 0, _, _, st => { st with ret := NC_NOERR }
  | n + 1, j, rec_pos, st =>
    let rec_pos := (rec_pos + to_size_t i_len * ((startp 1 + j) % SIZE_MOD) % SIZE_MOD
                      * sizeof_float) % SIZE_MOD
    if !malloc_ok (countp 2 * sizeof_float % SIZE_MOD) then { st with ret := NC_ENOMEM }
    else
      let st := { st with seeks := st.seeks ++ [to_long rec_pos] }
      if to_long rec_pos < 0 then { st with ret := NC_EIO }
      else
        let bufr := fread a_file rec_pos (countp 2)
        if bufr.length ≠ countp 2 then { st with ret := NC_EIO }
        else get_vara_rows malloc_ok a_file i_len startp countp n (j + 1) rec_pos
               { st with data := st.data ++ reverse_floats bufr (countp 2) }

/-- The loop `for (rec = 0; rec < countp[0]; rec++)` of `SION_get_vara`, with
`n` iterations left. -/
def get_vara_recs (malloc_ok : Nat → Bool) (a_file : AFile) (i_len : Int) (rec_len : Nat)
    (startp countp : Fin 3 → Nat) : Nat → VaraResult → VaraResult
  | 0, st => { st with ret := NC_NOERR }
  | n + 1, st =>
    let rec_pos := startp 0 * rec_len % SIZE_MOD
    let r := get_vara_rows malloc_ok a_file i_len startp countp (countp 1) 0 rec_pos st
    if r.ret ≠ NC_NOERR then r
    else get_vara_recs malloc_ok a_file i_len rec_len startp countp n r

/-- The record length `rec_len` computed by `SION_get_vara`, in bytes:
`round_up(j_len * i_len, 4096) * sizeof(float)` as a `size_t`. -/
def rec_len (j_len i_len : Int) : Nat :=
  to_size_t (round_up (wrap_int (j_len * i_len)) 4096) * sizeof_float % SIZE_MOD

/-- `SION_get_vara` of sionvar.c on the data variable (a variable whose name
is not `TIME_NAME`), whose dimensions 1 and 2 have lengths `j_len`, `i_len`. -/
def SION_get_vara (malloc_ok : Nat → Bool) (a_file : AFile) (j_len i_len : Int)
    (startp countp : Fin 3 → Nat) : VaraResult :=
  get_vara_recs malloc_ok a_file i_len (rec_len j_len i_len) startp countp (countp 0)
    { ret := NC_NOERR, data := [], seeks := [] }

/-! ### The region read as the specification words it -/

/-- Least multiple of `multiple` that is at least `num` (specification of the
record padding). -/
def spec_round_up (num multiple : Nat) : Nat := (num + multiple - 1) / multiple * multiple

/-- Byte offset of element `(t, j, i)` in the `.a` file, as the specification
gives it: `t * R * 4 + (j * i_len + i) * 4`. -/
def spec_offset (j_len i_len t j i : Nat) : Nat :=
  t * spec_round_up (j_len * i_len) 4096 * 4 + (j * i_len + i) * 4

/-- The output the specification prescribes for a region read: for each
requested timestep, each requested row and each requested column, the decoded
float of that file element, in (time, j, i) row-major order. -/
def spec_read_region (a_file : AFile) (j_len i_len : Nat) (startp countp : Fin 3 → Nat) :
    List F32 :=
  (List.range (countp 0)).flatMap fun r =>
    (List.range (countp 1)).flatMap fun k =>
      (List.range (countp 2)).map fun m =>
        reverse_float (a_file.float_at
          (spec_offset j_len i_len (startp 0 + r) (startp 1 + k) (startp 2 + m)))

/-! ### The seeks and reads of `SION_get_vara`, row by row -/

/-- The value of `rec_pos`, as a `size_t`, after the statement
`rec_pos += i_len * (startp[1] + j) * sizeof(float)` of row `j`, from its
value `rec_pos` before. -/
def row_step (i_len : Int) (startp : Fin 3 → Nat) (rec_pos j : Nat) : Nat :=
  (rec_pos + to_size_t i_len * ((startp 1 + j) % SIZE_MOD) % SIZE_MOD * sizeof_float) % SIZE_MOD

/-- The value of `rec_pos` at the seek of row `j + k`, from its value
`rec_pos` before row `j`. -/
def row_seek (i_len : Int) (startp : Fin 3 → Nat) : Nat → Nat → Nat → Nat
  | rec_pos, j, 0 => row_step i_len startp rec_pos j
  | rec_pos, j, k + 1 => row_seek i_len startp (row_step i_len startp rec_pos j) (j + 1) k

/-- The value of `rec_pos` at the seek of row `k` of a record: `rec_pos` is
set to `startp[0] * rec_len` when the record begins. -/
def seek_pos (j_len i_len : Int) (startp : Fin 3 → Nat) (k : Nat) : Nat :=
  row_seek i_len startp (startp 0 * rec_len j_len i_len % SIZE_MOD) 0 k

/-- The seek and the read of a row go through: `fseek` takes the offset (it
is not negative as a `long`) and `fread` returns `nmemb` items. -/
def row_ok (a_file : AFile) (nmemb pos : Nat) : Bool :=
  decide (0 ≤ to_long pos) && decide ((fread a_file pos nmemb).length = nmemb)

/-- The floats written through `ip` for a row read at `pos`: the `nmemb`
floats stored in the file from `pos` on, each with its bytes reversed. -/
def row_data (a_file : AFile) (nmemb pos : Nat) : List F32 :=
  (List.range nmemb).map fun m => reverse_float (a_file.float_at (pos + sizeof_float * m))

/-- An all-permitting allocator: every `malloc` succeeds. -/
def malloc_always : Nat → Bool := fun _ => true

/-- A two-timestep `.a` file for a grid with `j_len = 3`, `i_len = 2`: two
records of 4096 floats; the 24 data bytes of record `t` are `1 + 100 t + k`
(`k` the byte index in the record), the padding is zero. -/
def demo_a_file : AFile :=
  { size := 2 * 4096 * 4
    byte := fun p =>
      if p < 2 * 4096 * 4 ∧ p % 16384 < 24 then Fin.ofNat (1 + 100 * (p / 16384) + p % 16384)
      else 0 }

/-! ## sionvar.c: the coordinate accessor -/

/-- The data of an attribute: `NC_CHAR` text or `NC_FLOAT` values. -/
inductive AttData where
  | chars (s : List Char)
  | floats (xs : List F32)
deriving DecidableEq, Repr

/-- The first `len` elements of attribute data (what `memcpy` of
`len * type_size` bytes copies). -/
def AttData.take (len : Nat) : AttData → AttData
  | .chars s => .chars (s.take len)
  | .floats xs => .floats (xs.take len)

/-- The fields of `NC_ATT_INFO_T` that the reader sets. -/
structure NC_ATT_INFO_T where
  name : List Char
  attnum : Int
  nc_typeid : Int
  len : Nat
  data : AttData
deriving DecidableEq, Repr

/-- Name `TIME_NAME` of siondispatch.h. -/
def TIME_NAME : List Char := "day".toList
/-- Name `SPAN_NAME` of siondispatch.h. -/
def SPAN_NAME : List Char := "span".toList
/-- Name `MIN_NAME` of siondispatch.h. -/
def MIN_NAME : List Char := "min".toList
/-- Name `MAX_NAME` of siondispatch.h. -/
def MAX_NAME : List Char := "max".toList

/-- Code `NC_ENOTATT` of netcdf.h. -/
def NC_ENOTATT : Int := -43

/-- What `get_ab_coord_vara` leaves in the caller's buffer: floats copied by
`memcpy`, or values of the requested type written by `nc4_convert_type`. -/
inductive MemData (V : Type) where
  | floats (xs : List F32)
  | converted (xs : List V)
  | nothing
deriving DecidableEq, Repr

/-- Number of elements delivered into the caller's buffer. -/
def MemData.count {V : Type} : MemData V → Nat
  | .floats xs => xs.length
  | .converted xs => xs.length
  | .nothing => 0

/-- Return code of `get_ab_coord_vara` and the delivered data. -/
structure CoordResult (V : Type) where
  ret : Int
  data : MemData V

/-- The float array held by an attribute (`att->data` read as `float *`). -/
def NC_ATT_INFO_T.floats (att : NC_ATT_INFO_T) : List F32 :=
  match att.data with
  | .floats xs => xs
  | .chars _ => []

/-- `get_ab_coord_vara` of sionvar.c.  `atts` is the attribute list of
variable 1 (the data variable), in which `nc4_find_grp_att` looks `TIME_NAME`
up; `cvt memtype x` is the value and range flag that `nc4_convert_type`
produces for one source float.  Elements past the end of the attribute are not
modelled (the lists are cut at the attribute length). -/
def get_ab_coord_vara {V : Type} (cvt : Int → F32 → V × Bool) (atts : List NC_ATT_INFO_T)
    (startp countp : Fin 1 → Nat) (memtype : Int) : CoordResult V :=
  match atts.find? (fun att => att.name = TIME_NAME) with
  | none => { ret := NC_ENOTATT, data := .nothing }
  | some att =>
    if memtype = NC_FLOAT then
      { ret := NC_NOERR, data := .floats ((att.floats.drop (startp 0)).take (countp 0)) }
    else
      let len := (countp 0 + SIZE_MOD - startp 0 % SIZE_MOD) % SIZE_MOD
      let src := (att.floats.drop (startp 0)).take len
      let range_error := src.any fun x => (cvt memtype x).2
      { ret := if range_error then NC_ERANGE else NC_NOERR
        data := .converted (src.map fun x => (cvt memtype x).1) }

/-! ## sionfile.c: attributes of the data variable -/

/-- An attribute list with its counter: `var->att` and `var->natts`, or
`h5->root_grp->att` and `h5->root_grp->natts`. -/
structure AttList where
  att : List NC_ATT_INFO_T
  natts : Int
deriving DecidableEq, Repr

/-- Size in bytes of an atomic netCDF type, as `nc4_get_typelen_mem` gives
it; `none` for a type code that is not atomic. -/
def nc4_get_typelen_mem (xtype : Int) : Option Nat :=
  if xtype = 1 ∨ xtype = 2 ∨ xtype = 7 then some 1
  else if xtype = 3 ∨ xtype = 8 then some 2
  else if xtype = 4 ∨ xtype = 5 ∨ xtype = 9 then some 4
  else if xtype = 6 ∨ xtype = 10 ∨ xtype = 11 then some 8
  else none

/-- Code `NC_EBADTYPE` of netcdf.h. -/
def NC_EBADTYPE : Int := -45

/-- `nc4_put_att` of sionfile.c: the return code and the attribute list
after the call.  The new attribute is appended and numbered before its data
are allocated, so it stays in the list (without data) when a later step
fails. -/
def nc4_put_att (malloc_ok : Nat → Bool) (tgt : AttList) (name : List Char) (xtype : Int)
    (len : Nat) (op : AttData) : Int × AttList :=
  if name.length > NC_MAX_NAME then (NC_EMAXNAME, tgt)
  else
    let att : NC_ATT_INFO_T :=
      { name := name.take NC_MAX_NAME, attnum := tgt.natts, nc_typeid := xtype, len := len,
        data := op.take 0 }
    match nc4_get_typelen_mem xtype with
    | none => (NC_EBADTYPE, { att := tgt.att ++ [att], natts := tgt.natts + 1 })
    | some type_size =>
      if !malloc_ok (type_size * len % SIZE_MOD) then
        (NC_ENOMEM, { att := tgt.att ++ [att], natts := tgt.natts + 1 })
      else
        (NC_NOERR, { att := tgt.att ++ [{ att with data := op.take len }],
                     natts := tgt.natts + 1 })

/-- One entry of the dictionary `dict` of `ab_find_var_atts`. -/
structure ab_att where
  var_name : List Char
  pname : List Char
  sname : List Char
  units : List Char
deriving DecidableEq, Repr

/-- The table `dict[NUM_ENTRIES]` of `ab_find_var_atts`. -/
def dict : List ab_att :=
  [ ⟨"radflx".toList, " surf. rad. flux ".toList,
      "surface_net_downward_radiation_flux".toList, "w/m2".toList⟩,
    ⟨"shwflx".toList, " surf. shw. flux  ".toList,
      "surface_net_downward_shortwave_flux".toList, "w/m2".toList⟩,
    ⟨"vapmix".toList, " vapor mix. ratio ".toList, "specific_humidity".toList,
      "kg/kg".toList⟩,
    ⟨"airtmp".toList, " air temperature  ".toList, "air_temperature".toList,
      "degC".toList⟩,
    ⟨"surtmp".toList, " sea surf. temp.  ".toList, "sea_surface_temperature".toList,
      "degC".toList⟩,
    ⟨"seatmp".toList, " sea surf. temp.  ".toList, "sea_surface_temperature".toList,
      "degC".toList⟩,
    ⟨"precip".toList, " precipitation    ".toList, "lwe_precipitation_rate".toList,
      "m/s".toList⟩,
    ⟨"wndspd".toList, " 10m wind speed   ".toList, "wind_speed".toList, "m/s".toList⟩,
    ⟨"tauewd".toList, " Ewd wind stress  ".toList, "eastward_wind_stress".toList,
      "N/m^2".toList⟩,
    ⟨"taunwd".toList, " Nwd wind stress  ".toList, "northward_wind_stress".toList,
      "N/m^2".toList⟩ ]

/-- The three output strings of `ab_find_var_atts`. -/
structure VarAtts where
  pname : List Char
  sname : List Char
  units : List Char
deriving DecidableEq, Repr

/-- The loop of `ab_find_var_atts` over the entries still to visit: an entry
whose key `strcmp` finds equal to `var_name` overwrites the three outputs
(`strncpy` of at most `NC_MAX_NAME` characters). -/
def ab_find_var_atts_loop (var_name : List Char) : List ab_att → VarAtts → VarAtts
  | [], out => out
  | e :: rest, out =>
    if var_name = e.var_name then
      ab_find_var_atts_loop var_name rest
        { pname := e.pname.take NC_MAX_NAME, sname := e.sname.take NC_MAX_NAME,
          units := e.units.take NC_MAX_NAME }
    else ab_find_var_atts_loop var_name rest out

/-- `ab_find_var_atts` of sionfile.c: the return code and the outputs. -/
def ab_find_var_atts (var_name : List Char) (out : VarAtts) : Int × VarAtts :=
  (NC_NOERR, ab_find_var_atts_loop var_name dict out)

/-- Name `PNAME_NAME` of sionfile.c. -/
def PNAME_NAME : List Char := "long_name".toList
/-- Name `SNAME_NAME` of sionfile.c. -/
def SNAME_NAME : List Char := "standard_name".toList
/-- Name `UNITS_NAME` of sionfile.c. -/
def UNITS_NAME : List Char := "units".toList

/-- The loop of `add_ab_var_atts` that puts the float array attributes
`att_name[a]`, `att_data[a]` still to be written. -/
def put_float_atts (malloc_ok : Nat → Bool) (t_len : Int) :
    List (List Char × List F32) → AttList → Int × AttList
  | [], tgt => (NC_NOERR, tgt)
  | (name, data) :: rest, tgt =>
    let r := nc4_put_att malloc_ok tgt name NC_FLOAT (to_size_t t_len) (.floats data)
    if r.1 ≠ NC_NOERR then r else put_float_atts malloc_ok t_len rest r.2

/-- One of the three optional text attributes of `add_ab_var_atts`:
`if (strlen(s)) nc4_put_att(h5, var, name, NC_CHAR, strlen(s), s)`. -/
def put_text_att (malloc_ok : Nat → Bool) (name s : List Char) (tgt : AttList) :
    Int × AttList :=
  if s.length ≠ 0 then nc4_put_att malloc_ok tgt name NC_CHAR s.length (.chars s)
  else (NC_NOERR, tgt)

/-- `add_ab_var_atts` of sionfile.c for the variable named `var_name` whose
attribute list is `tgt`: the return code and the list afterwards, or `none`
when the assertion `t_len > 0` fails. -/
def add_ab_var_atts (malloc_ok : Nat → Bool) (tgt : AttList) (var_name : List Char)
    (t_len : Int) (time span min max : List F32) : Option (Int × AttList) :=
  if ¬ t_len > 0 then none
  else
    let r := put_float_atts malloc_ok t_len
      [(TIME_NAME, time), (SPAN_NAME, span), (MIN_NAME, min), (MAX_NAME, max)] tgt
    if r.1 ≠ NC_NOERR then some r
    else
      let found := ab_find_var_atts var_name { pname := [], sname := [], units := [] }
      if found.1 ≠ NC_NOERR then some (found.1, r.2)
      else
        let r := put_text_att malloc_ok PNAME_NAME found.2.pname r.2
        if r.1 ≠ NC_NOERR then some r
        else
          let r := put_text_att malloc_ok SNAME_NAME found.2.sname r.2
          if r.1 ≠ NC_NOERR then some r
          else
            let r := put_text_att malloc_ok UNITS_NAME found.2.units r.2
            if r.1 ≠ NC_NOERR then some r
            else some (NC_NOERR, r.2)

/-! ## sionfile.c: the `.b` text parser

The text of a `.b` file is a list of characters.  A line is what `fgets`
stores; the C string `line` that the code inspects is its part before the
first NUL (`cstr`).  Line counters and stream offsets are not wrapped to
`int`: a `.b` file is far shorter than 2^31 characters.  The contents of
arrays that the code reads before writing them (`hdr`, `i_val`, `j_val`,
`var_name`) are inputs of the model (`Uninit`).  The array `hdr` keeps its
storage from one header line to the next, so after the first header line it
holds what the store of the previous one left in it. -/

/-- Length `MAX_B_LINE_LEN` of siondispatch.h. -/
def MAX_B_LINE_LEN : Nat := 80
/-- Count `MAX_HEADER_ATTS` of siondispatch.h. -/
def MAX_HEADER_ATTS : Nat := 10
/-- Literal `SION_DIMSIZE_STRING` of sionfile.c. -/
def SION_DIMSIZE_STRING : List Char := "i/jdm =".toList
/-- Count `SION_MAX_DIM_DIGITS` of sionfile.c. -/
def SION_MAX_DIM_DIGITS : Nat := 10

/-- The terminator of a C string. -/
def NUL : Char := Char.ofNat 0

/-- `isspace` in the "C" locale: space, `\t`, `\n`, `\v`, `\f`, `\r`. -/
def isspace (c : Char) : Bool :=
  c = ' ' || c = '\t' || c = '\n' || c = Char.ofNat 11 || c = Char.ofNat 12 || c = '\r'

/-- The C string held in a character buffer: the characters before the first
NUL. -/
def cstr (buf : List Char) : List Char := buf.takeWhile fun c => c != NUL

/-- Reading of `fgets`: at most `n` characters of the unread stream, stopping
after a newline; the characters stored and the stream left unread. -/
def fgets_aux : Nat → List Char → List Char × List Char
  | 0, rest => ([], rest)
  | _ + 1, [] => ([], [])
  | n + 1, c :: rest =>
    if c = '\n' then ([c], rest)
    else (c :: (fgets_aux n rest).1, (fgets_aux n rest).2)

/-- `fgets(line, size, b_file)` on the unread part of the stream: `none` (a
NULL return) at end of file, else the line stored and what is left unread. -/
def fgets (size : Nat) (rest : List Char) : Option (List Char × List Char) :=
  match rest with
  | [] => none
  | _ :: _ => some (fgets_aux (size - 1) rest)

/-- The lines that successive calls `fgets(line, sizeof(line), b_file)` return
until the NULL return, `sizeof(line)` being `MAX_B_LINE_LEN + 1`; `fuel` bounds
the number of calls (every call consumes a character, so the length of the
unread stream is enough). -/
def fgets_all : Nat → List Char → List (List Char)
  | 0, _ => []
  | fuel + 1, rest =>
    match fgets (MAX_B_LINE_LEN + 1) rest with
    | none => []
    | some (line, rest) => line :: fgets_all fuel rest

/-- The flag `blank` of `parse_b_file`: no character of the line fails
`isspace`. -/
def is_blank (line : List Char) : Bool := line.all isspace

/-- The tokens that the loop `while ((tok = strtok(tok, " ")) != NULL)`
visits, in order: the maximal runs of characters other than the space
character.  `cur` is the token being collected. -/
def strtok_go : List Char → List Char → List (List Char)
  | cur, [] => if cur = [] then [] else [cur]
  | cur, c :: cs =>
    if c = ' ' then (if cur = [] then strtok_go [] cs else cur :: strtok_go [] cs)
    else strtok_go (cur ++ [c]) cs

/-- The successive results of `strtok(line, " ")`, `strtok(NULL, " ")`, ... -/
def strtok_all (line : List Char) : List (List Char) := strtok_go [] line

/-- `trim(s)` of sionfile.c on the C string `s`: trailing white space is cut,
then leading white space is skipped.  `none` when the first loop reaches
`l = 0` and reads `p[-1]`, which is outside the string (a string that is
empty or all white space). -/
def trim (s : List Char) : Option (List Char) :=
  let t := (s.reverse.dropWhile isspace).reverse
  if t = [] then none else some (t.dropWhile isspace)

/-- The library routines that `parse_b_file` calls: whether `malloc(size)`
returns a block, and the value that the `%d` and the `%f` conversion of
`sscanf` store for a string (`none`: nothing matches, nothing is stored). -/
structure Libc where
  malloc_ok : Nat → Bool
  scan_d : List Char → Option Int
  scan_f : List Char → Option F32

/-- The bytes of the array `s` after `trim(s)`, `buf` being its bytes before
the call: the first loop overwrites the trailing white space of the string
with NUL, and `memmove(s, p, l + 1)` moves the rest of the string and its
terminator to the front; the bytes behind are left as they are.  (A buffer
without NUL is read as if a NUL followed it.) -/
def trim_mem (buf : List Char) : List Char :=
  let s := cstr buf
  let t := (s.reverse.dropWhile isspace).reverse
  let zeroed := t ++ List.replicate (s.length - t.length) NUL ++ buf.drop s.length
  let r := t.dropWhile isspace
  r ++ NUL :: zeroed.drop (r.length + 1)

/-- The bytes found in the arrays that are read before they are written:
`hdr` (before the first header line is stored), `i_val`, `j_val`, and the
caller's `var_name`. -/
structure Uninit where
  hdr : List Char
  i_val : List Char
  j_val : List Char
  var_name : List Char

/-- The C string in `i_val` (or `j_val`) after the token loop of the
dimension line: `strncpy(i_val, tok, SION_MAX_DIM_DIGITS)` copies a token
shorter than 10 characters with its terminator, and 10 characters without
one; with no token at that position the array keeps its old bytes `mem`. -/
def dim_val (mem : List Char) (tok : Option (List Char)) : List Char :=
  match tok with
  | none => cstr mem
  | some tok =>
    if tok.length < SION_MAX_DIM_DIGITS then tok
    else cstr (tok.take SION_MAX_DIM_DIGITS ++ mem.drop SION_MAX_DIM_DIGITS)

/-- The value of `*out` after `sscanf(buf, fmt, out)`: the scanned value, or
the old value when nothing matches. -/
def sscanf_store {α : Type} (scan : List Char → Option α) (buf : List Char)
    (old : Option α) : Option α :=
  match scan buf with
  | some v => some v
  | none => old

/-- The variables of the first loop of `parse_b_file`; `pos` is the offset
of the stream (what `ftell` returns), and `hdr` the bytes of the array `hdr`
once a header line has been stored (`none` before: the array then holds the
bytes `Uninit.hdr`). -/
structure Pass1 where
  hdr : Option (List Char)
  header : Bool
  time_start_pos : Nat
  num_header_atts : Nat
  header_att : List (List Char)
  t_len : Int
  i_len : Option Int
  j_len : Option Int
  pos : Nat
deriving DecidableEq, Repr

/-- The body of the first `while (fgets(...))` loop of `parse_b_file` for
the line `raw` that `fgets` stored.  The integers are `none` while the
caller's variable has not been assigned.  Result `none`: the call to `trim`
reads outside `hdr`. -/
def pass1_line (libc : Libc) (mem : Uninit) (st : Pass1) (raw : List Char) : Option Pass1 :=
  let st := { st with pos := st.pos + raw.length }
  let line := cstr raw
  if is_blank line then some st
  else
    let st :=
      if line.take SION_DIMSIZE_STRING.length = SION_DIMSIZE_STRING then
        let toks := strtok_all line
        let i_val := dim_val mem.i_val (toks.get? 2)
        let j_val := dim_val mem.j_val (toks.get? 3)
        { st with
          i_len := sscanf_store libc.scan_d i_val st.i_len
          j_len := sscanf_store libc.scan_d j_val st.j_len
          header := false }
      else st
    if st.header then
      if st.num_header_atts < MAX_HEADER_ATTS then
        let n := line.length - 1
        let buf := line.take n ++ (st.hdr.getD mem.hdr).drop n
        match trim (cstr buf) with
        | none => none
        | some hdr =>
          some { st with
            hdr := some (trim_mem buf)
            header_att := st.header_att ++ [hdr.take MAX_B_LINE_LEN]
            num_header_atts := st.num_header_atts + 1 }
      else some st
    else
      some { st with
        time_start_pos := if st.time_start_pos = 0 then st.pos else st.time_start_pos
        t_len := st.t_len + 1 }

/-- The first loop of `parse_b_file` over the lines `fgets` returns. -/
def pass1 (libc : Libc) (mem : Uninit) : List (List Char) → Pass1 → Option Pass1
  | [], st => some st
  | raw :: rest, st =>
    match pass1_line libc mem st raw with
    | none => none
    | some st => pass1 libc mem rest st

/-- The variables of the second loop of `parse_b_file`: the caller's buffer
`var_name`, the four allocated arrays (an element is `none` until it is
written) and `time_count`. -/
structure Pass2 where
  var_name : List Char
  time : List (Option F32)
  span : List (Option F32)
  min : List (Option F32)
  max : List (Option F32)
  time_count : Nat
deriving DecidableEq, Repr

/-- The array after `sscanf(tok, "%f", &array[idx])`: unchanged when the token
does not scan; `none` when the write falls outside the allocation. -/
def store_f (scan_f : List Char → Option F32) (array : List (Option F32)) (idx : Nat)
    (tok : List Char) : Option (List (Option F32)) :=
  match scan_f tok with
  | none => some array
  | some v => if idx < array.length then some (array.set idx (some v)) else none

/-- The body of the token loop of the second pass for the token `tok`
numbered `tok_count`; the result carries the flag `var_named`.  `none`:
`index(tok, ':')` is NULL and `strlen` is applied to it, or a store falls
outside its array. -/
def tok_step (scan_f : List Char → Option F32) (st : Pass2) (tok_count var_named : Nat)
    (tok : List Char) : Option (Pass2 × Nat) :=
  if tok_count = 0 ∧ var_named = 0 then
    if ':' ∈ tok then
      let n := tok.length - (tok.dropWhile fun c => c != ':').length
      some ({ st with var_name := tok.take n ++ st.var_name.drop n }, var_named + 1)
    else none
  else if tok_count = 3 then
    (store_f scan_f st.time st.time_count tok).map fun a => ({ st with time := a }, var_named)
  else if tok_count = 4 then
    (store_f scan_f st.span st.time_count tok).map fun a => ({ st with span := a }, var_named)
  else if tok_count = 5 then
    (store_f scan_f st.min st.time_count tok).map fun a => ({ st with min := a }, var_named)
  else if tok_count = 6 then
    (store_f scan_f st.max st.time_count tok).map fun a => ({ st with max := a }, var_named)
  else some (st, var_named)

/-- The token loop of the second pass over the tokens still to come. -/
def tok_loop (scan_f : List Char → Option F32) :
    List (List Char) → Nat → Nat → Pass2 → Option Pass2
  | [], _, _, st => some st
  | tok :: rest, tok_count, var_named, st =>
    match tok_step scan_f st tok_count var_named tok with
    | none => none
    | some (st, var_named) => tok_loop scan_f rest (tok_count + 1) var_named st

/-- The body of the second `while (fgets(...))` loop for one line:
`tok_count` and `var_named` start at 0 for every line. -/
def pass2_line (scan_f : List Char → Option F32) (st : Pass2) (raw : List Char) :
    Option Pass2 :=
  if is_blank (cstr raw) then some st
  else
    match tok_loop scan_f (strtok_all (cstr raw)) 0 0 st with
    | none => none
    | some st => some { st with time_count := st.time_count + 1 }

/-- The second loop of `parse_b_file` over the lines `fgets` returns. -/
def pass2 (scan_f : List Char → Option F32) : List (List Char) → Pass2 → Option Pass2
  | [], st => some st
  | raw :: rest, st =>
    match pass2_line scan_f st raw with
    | none => none
    | some st => pass2 scan_f rest st

/-- What `parse_b_file` returns and leaves in its output parameters.  The
arrays are empty when the function returns before allocating them. -/
structure BParse where
  ret : Int
  num_header_atts : Nat
  header_att : List (List Char)
  var_name : List Char
  t_len : Int
  i_len : Option Int
  j_len : Option Int
  time : List (Option F32)
  span : List (Option F32)
  min : List (Option F32)
  max : List (Option F32)
deriving DecidableEq, Repr

/-- `parse_b_file` of sionfile.c on the text `b_file`.  Result `none`: the
run has no defined result (see `pass1_line`, `tok_step`). -/
def parse_b_file (libc : Libc) (mem : Uninit) (b_file : List Char) : Option BParse :=
  match pass1 libc mem (fgets_all b_file.length b_file)
      { hdr := none, header := true, time_start_pos := 0, num_header_atts := 0,
        header_att := [], t_len := 0, i_len := none, j_len := none, pos := 0 } with
  | none => none
  | some p1 =>
    let t_len := p1.t_len - 1
    let size := to_size_t t_len * sizeof_float % SIZE_MOD
    if !libc.malloc_ok size then
      some { ret := NC_ENOMEM, num_header_atts := p1.num_header_atts,
             header_att := p1.header_att, var_name := mem.var_name, t_len := t_len,
             i_len := p1.i_len, j_len := p1.j_len, time := [], span := [], min := [],
             max := [] }
    else
      let array : List (Option F32) := List.replicate (size / sizeof_float) none
      let rest := b_file.drop p1.time_start_pos
      match pass2 libc.scan_f (fgets_all rest.length rest)
          { var_name := mem.var_name, time := array, span := array, min := array,
            max := array, time_count := 0 } with
      | none => none
      | some p2 =>
        some { ret := NC_NOERR, num_header_atts := p1.num_header_atts,
               header_att := p1.header_att, var_name := p2.var_name, t_len := t_len,
               i_len := p1.i_len, j_len := p1.j_len, time := p2.time, span := p2.span,
               min := p2.min, max := p2.max }

/-! ## Library conversions and sample data used in the worked examples -/

/-- The decimal value of a string of digits. -/
def digits_value (ds : List Char) : Nat := ds.foldl (fun a c => 10 * a + (c.toNat - 48)) 0

/-- The `%d` conversion of `sscanf` as the C standard describes it: leading
white space is skipped, then an optional sign and a non-empty run of decimal
digits are converted; the result is stored in an `int`. -/
def sscanf_d (s : List Char) : Option Int :=
  let s := s.dropWhile isspace
  let neg := s.head? = some '-'
  let s := if s.head? = some '-' ∨ s.head? = some '+' then s.tail else s
  let ds := s.takeWhile Char.isDigit
  if ds = [] then none
  else some (wrap_int (if neg then -(digits_value ds : Int) else (digits_value ds : Int)))

/-- The IEEE-754 single-precision encoding, in little-endian memory order, of
an integer below 2^24 (such an integer is represented exactly). -/
def f32_of_nat (n : Nat) : F32 :=
  if n = 0 then ⟨0, 0, 0, 0⟩
  else
    let e := (List.range 24).foldl (fun e k => if 2 ^ k ≤ n then k else e) 0
    let bits := (e + 127) * 2 ^ 23 + (n - 2 ^ e) * 2 ^ (23 - e)
    ⟨Fin.ofNat (bits % 256), Fin.ofNat (bits / 2 ^ 8 % 256), Fin.ofNat (bits / 2 ^ 16 % 256),
      Fin.ofNat (bits / 2 ^ 24 % 256)⟩

/-- A `%f` conversion for the worked examples: it agrees with `sscanf` on a
token that is an unsigned decimal integer below 2^24, possibly between white
space, and scans nothing else. -/
def demo_scan_f (s : List Char) : Option F32 :=
  let s := s.dropWhile isspace
  let ds := s.takeWhile Char.isDigit
  if ds ≠ [] ∧ digits_value ds < 2 ^ 24 ∧ (s.dropWhile Char.isDigit).all isspace then
    some (f32_of_nat (digits_value ds))
  else none

/-- The library of the worked examples: every allocation succeeds and the
conversions are `sscanf_d` and `demo_scan_f`. -/
def demo_libc : Libc := { malloc_ok := malloc_always, scan_d := sscanf_d, scan_f := demo_scan_f }

/-- Memory that happens to be zero-filled: every array read before it is
written holds NUL characters only. -/
def zero_mem : Uninit :=
  { hdr := List.replicate 81 NUL
    i_val := List.replicate 11 NUL
    j_val := List.replicate 11 NUL
    var_name := List.replicate 257 NUL }

/-! ## Expected attribute lists -/

/-- The four float array attributes `day`, `span`, `min`, `max` of `len`
elements, numbered from `natts`. -/
def series_atts (natts : Int) (len : Nat) (time span min max : List F32) :
    List NC_ATT_INFO_T :=
  [ { name := TIME_NAME, attnum := natts, nc_typeid := NC_FLOAT, len := len,
      data := .floats (time.take len) },
    { name := SPAN_NAME, attnum := natts + 1, nc_typeid := NC_FLOAT, len := len,
      data := .floats (span.take len) },
    { name := MIN_NAME, attnum := natts + 2, nc_typeid := NC_FLOAT, len := len,
      data := .floats (min.take len) },
    { name := MAX_NAME, attnum := natts + 3, nc_typeid := NC_FLOAT, len := len,
      data := .floats (max.take len) } ]

/-- The three text attributes `long_name`, `standard_name`, `units` with the
values of the dictionary entry `e`, numbered from `natts`. -/
def name_atts (natts : Int) (e : ab_att) : List NC_ATT_INFO_T :=
  [ { name := PNAME_NAME, attnum := natts, nc_typeid := NC_CHAR, len := e.pname.length,
      data := .chars e.pname },
    { name := SNAME_NAME, attnum := natts + 1, nc_typeid := NC_CHAR, len := e.sname.length,
      data := .chars e.sname },
    { name := UNITS_NAME, attnum := natts + 2, nc_typeid := NC_CHAR, len := e.units.length,
      data := .chars e.units } ]

/-! ## Well-formed `.b` texts and the values expected from them -/

/-- The text made of the given lines, each closed by a newline. -/
def unlines (ls : List (List Char)) : List Char := (ls.map fun l => l ++ ['\n']).flatten

/-- A line (given without its newline) that fits the line buffer with its
newline, that is at most 79 characters, and holds neither a newline nor a
NUL. -/
def line_ok (l : List Char) : Bool :=
  decide (l.length < MAX_B_LINE_LEN) && l.all fun c => c != '\n' && c != NUL

/-- A line that begins with the literal `i/jdm =`. -/
def is_dim_line (l : List Char) : Bool :=
  l.take SION_DIMSIZE_STRING.length == SION_DIMSIZE_STRING

/-- The space-delimited tokens of a line as the token loops see them: the
line is tokenised with its newline, which stays in the last token. -/
def line_toks (l : List Char) : List (List Char) := strtok_all (l ++ ['\n'])

/-- The first token of the line holds a colon. -/
def names_var (l : List Char) : Bool :=
  match line_toks l with
  | [] => false
  | tok :: _ => decide (':' ∈ tok)

/-- Leading and trailing white space removed. -/
def strip (s : List Char) : List Char :=
  ((s.dropWhile isspace).reverse.dropWhile isspace).reverse

/-- The lines of `ls` that are not blank. -/
def non_blank (ls : List (List Char)) : List (List Char) := ls.filter fun l => !is_blank l

/-- The value that the second pass leaves in a series element for a data
line: what `sscanf` with `%f` stores for the token at position `k`, nothing
(`none`) when the line has no such token or the token does not scan. -/
def scanned (scan_f : List Char → Option F32) (k : Nat) (l : List Char) : Option F32 :=
  ((line_toks l).get? k).bind scan_f

/-- What the first pass stores for the non-blank header line `l` when the
array `hdr` holds `junk` beforehand. -/
def header_text (junk l : List Char) : List Char :=
  match trim (cstr (l ++ junk.drop l.length)) with
  | some h => h.take MAX_B_LINE_LEN
  | none => []

/-- The bytes of the array `hdr` after the non-blank header line `l` is
stored when it holds `junk` beforehand. -/
def header_mem (junk l : List Char) : List Char := trim_mem (l ++ junk.drop l.length)

/-- The header entries stored for the lines `ls` that precede the dimension
line when `k` entries are stored already and the array `hdr` holds `junk`:
blank lines are skipped and nothing is stored beyond `MAX_HEADER_ATTS`
entries; every line stored finds in `hdr` what the line before left. -/
def header_texts : List Char → Nat → List (List Char) → List (List Char)
  | _, _, [] => []
  | junk, k, l :: rest =>
    if is_blank l then header_texts junk k rest
    else if k < MAX_HEADER_ATTS then
      header_text junk l :: header_texts (header_mem junk l) (k + 1) rest
    else header_texts junk k rest

/-- The field `hdr` of the first loop after the lines `ls` that precede the
dimension line (see `header_texts`). -/
def header_hdr (junk : List Char) : Option (List Char) → Nat → List (List Char) →
    Option (List Char)
  | h, _, [] => h
  | h, k, l :: rest =>
    if is_blank l then header_hdr junk h k rest
    else if k < MAX_HEADER_ATTS then
      header_hdr junk (some (header_mem (h.getD junk) l)) (k + 1) rest
    else header_hdr junk h k rest

/-- The array after the store made for one token position of a data line:
element `idx` receives the scanned value when there is one. -/
def stored (scan_f : List Char → Option F32) (array : List (Option F32)) (idx : Nat)
    (tok : Option (List Char)) : List (Option F32) :=
  match tok.bind scan_f with
  | none => array
  | some v => array.set idx (some v)

/-- The white-space-delimited tokens of a line (the reading of the
specification): the maximal runs of characters that are not white space.
`cur` is the token being collected. -/
def spec_ws_go : List Char → List Char → List (List Char)
  | cur, [] => if cur = [] then [] else [cur]
  | cur, c :: cs =>
    if isspace c then (if cur = [] then spec_ws_go [] cs else cur :: spec_ws_go [] cs)
    else spec_ws_go (cur ++ [c]) cs

/-- The white-space-delimited tokens of a line. -/
def spec_ws_tokens (l : List Char) : List (List Char) := spec_ws_go [] l

/-! ## Sample texts -/

/-- The two header lines of the sample `.b` text. -/
def demo_headers : List (List Char) := ["ATMOSPHERIC FORCING".toList, "  sample grid  ".toList]

/-- The dimension line of the sample `.b` text. -/
def demo_dim : List Char := "i/jdm = 4 3".toList

/-- The three data lines of the sample `.b` text: variable `airtmp`, with
time, span, min and max (0,1,2,3), (1,1,2,3), (2,1,2,3). -/
def demo_data : List (List Char) :=
  [ "airtmp: date,span,range = 0 1 2 3".toList,
    "airtmp: date,span,range = 1 1 2 3".toList,
    "airtmp: date,span,range = 2 1 2 3".toList ]

/-- The sample `.b` text of the specification: two header lines, the
dimension line `i/jdm = 4 3` and three `airtmp:` data lines. -/
def demo_b_file : List Char := unlines (demo_headers ++ demo_dim :: demo_data)

/-- A `.b` text whose dimension line separates the extents by a tab and has
a further number: `i/jdm = 4<TAB>3 7`. -/
def tab_dim_b_file : List Char :=
  unlines ["i/jdm = 4\t3 7".toList, "airtmp: date,span,range = 0 1 2 3".toList]

/-- A `.b` text whose dimension line gives the i-extent with 11 characters:
`i/jdm = 00000000042 3`. -/
def long_dim_b_file : List Char :=
  unlines ["i/jdm = 00000000042 3".toList, "airtmp: date,span,range = 0 1 2 3".toList]

/-- A `.b` text whose data line separates its fields by tabs. -/
def tab_data_b_file : List Char :=
  unlines ["i/jdm = 4 3".toList, "airtmp:\tdate,span,range\t=\t0\t1\t2\t3".toList]

/-- A `.b` text whose data line has no colon in its first token. -/
def no_colon_b_file : List Char :=
  unlines ["i/jdm = 4 3".toList, "airtmp date,span,range = 0 1 2 3".toList]

/-- A `.b` text with the header lines `abcdefgh` and `xy`. -/
def two_header_b_file : List Char :=
  unlines ["abcdefgh".toList, "xy".toList, "i/jdm = 4 3".toList,
    "airtmp: date,span,range = 0 1 2 3".toList]

/-! ## sionfile.c: global attributes, dimensions, variables and `ab_open_file` -/

/-- Name `CONVENTIONS` of sionfile.c. -/
def CONVENTIONS : List Char := "Conventions".toList
/-- Value `CF_VERSION` of sionfile.c. -/
def CF_VERSION : List Char := "CF-1.0".toList
/-- Name `I_NAME` of siondispatch.h. -/
def I_NAME : List Char := "i".toList
/-- Name `J_NAME` of siondispatch.h. -/
def J_NAME : List Char := "j".toList
/-- Code `NC_EEDGE` of netcdf.h (start + count exceeds a dimension bound). -/
def NC_EEDGE : Int := -57
/-- Code `NC_EINVALCOORDS` of netcdf.h (index exceeds a dimension bound). -/
def NC_EINVALCOORDS : Int := -40
/-- Code `NC_EBADDIM` of netcdf.h. -/
def NC_EBADDIM : Int := -46

/-- The bytes of row `a` of the caller's array
`header_att[MAX_HEADER_ATTS][MAX_B_LINE_LEN]` that holds the entry `e`:
`strncpy(header_att[a], hdr, MAX_B_LINE_LEN)` copies at most 80 characters and
pads a shorter string with NUL. -/
def header_row (e : List Char) : List Char :=
  e.take MAX_B_LINE_LEN ++ List.replicate (MAX_B_LINE_LEN - e.length) NUL

/-- The C string `header_att[a]` as `strlen` and `memcpy` see it: the bytes
from row `a` on, up to the first NUL (the rows are adjacent in memory; rows
that were never written are not modelled). -/
def header_string (header_att : List (List Char)) (a : Nat) : List Char :=
  cstr ((header_att.drop a).map header_row).flatten

/-- The name that `sprintf(att_name, "att_%d", a)` writes. -/
def att_name (a : Nat) : List Char := "att_".toList ++ (Nat.repr a).toList

/-- The loop `for (a = 0; a < num_header_atts; a++)` of `add_ab_global_atts`
with `n` iterations left. -/
def add_ab_global_atts_loop (malloc_ok : Nat → Bool) (header_att : List (List Char)) :
    Nat → Nat → AttList → Int × AttList
  | 0, _, tgt => (NC_NOERR, tgt)
  | n + 1, a, tgt =>
    let r := nc4_put_att malloc_ok tgt (att_name a) NC_CHAR (header_string header_att a).length
      (.chars (header_string header_att a))
    if r.1 ≠ NC_NOERR then r
    else add_ab_global_atts_loop malloc_ok header_att n (a + 1) r.2

/-- `add_ab_global_atts` of sionfile.c on the global attribute list `tgt`:
the return code and the list afterwards. -/
def add_ab_global_atts (malloc_ok : Nat → Bool) (tgt : AttList) (num_header_atts : Nat)
    (header_att : List (List Char)) : Int × AttList :=
  let r := add_ab_global_atts_loop malloc_ok header_att num_header_atts 0 tgt
  if r.1 ≠ NC_NOERR then r
  else
    let r := nc4_put_att malloc_ok r.2 CONVENTIONS NC_CHAR CF_VERSION.length (.chars CF_VERSION)
    if r.1 ≠ NC_NOERR then r else (NC_NOERR, r.2)

/-- The fields of `NC_DIM_INFO_T` that the reader sets; `len` is `none` when
it is copied from an `int` that was never assigned. -/
structure NC_DIM_INFO_T where
  name : List Char
  dimid : Int
  len : Option Int
deriving DecidableEq, Repr

/-- The fields of `NC_VAR_INFO_T` that the reader sets. -/
structure NC_VAR_INFO_T where
  name : List Char
  varid : Int
  nc_typeid : Int
  dimids : List Int
  fill_value : Option F32
  att : AttList
deriving DecidableEq, Repr

/-- The value `powf(2, 100)` as a float in native (little-endian) memory
order: bit pattern `0x71800000`. -/
def fill_2_100 : F32 := ⟨0x00, 0x00, 0x80, 0x71⟩

/-- The metadata of the open file that the reader fills: the global
attributes, the dimensions and the variables of the root group, in the order
of registration, with the counter `next_dimid`. -/
structure FileMeta where
  gatts : AttList
  dims : List NC_DIM_INFO_T
  next_dimid : Int
  vars : List NC_VAR_INFO_T
deriving DecidableEq, Repr

/-- `add_ab_dims` of sionfile.c: the dimensions `day`, `j`, `i` with the
lengths `dim_len`, numbered from `next_dimid`. -/
def add_ab_dims (m : FileMeta) (dim_len : List (Option Int)) : Int × FileMeta :=
  let names := [TIME_NAME, J_NAME, I_NAME]
  let dims := (names.zip dim_len).enum.map fun p =>
    ({ name := p.2.1.take NC_MAX_NAME, dimid := m.next_dimid + p.1, len := p.2.2 } :
      NC_DIM_INFO_T)
  (NC_NOERR, { m with dims := m.dims ++ dims, next_dimid := m.next_dimid + 3 })

/-- `add_ab_var` of sionfile.c: a variable named by the C string `var_name`,
of type `xtype`, over the dimensions `dimids`, with the fill value 2^100 when
`use_fill_value` is set.  `NC_EINVAL`: `ndims` is non-zero without `dimids`
(not reachable from `ab_open_file`); `NC_EBADDIM`: a dimension id is not
registered. -/
def add_ab_var (m : FileMeta) (var_name : List Char) (xtype : Int) (dimids : List Int)
    (use_fill_value : Bool) : Int × FileMeta :=
  match nc4_get_typelen_mem xtype with
  | none => (NC_EBADTYPE, m)
  | some _ =>
    let var : NC_VAR_INFO_T :=
      { name := var_name.take NC_MAX_NAME, varid := m.vars.length, nc_typeid := xtype,
        dimids := dimids, fill_value := if use_fill_value then some fill_2_100 else none,
        att := { att := [], natts := 0 } }
    if dimids.all fun id => m.dims.any fun dim => dim.dimid = id then
      (NC_NOERR, { m with vars := m.vars ++ [var] })
    else (NC_EBADDIM, { m with vars := m.vars ++ [var] })

/-- `rindex(s, c)`: the part of the string that starts at the last
occurrence of `c`, or `none` (NULL) when `c` does not occur. -/
def rindex : List Char → Char → Option (List Char)
  | [], _ => none
  | x :: xs, c =>
    match rindex xs c with
    | some r => some r
    | none => if x = c then some (x :: xs) else none

/-- What `ab_open_file` needs from outside: the library, the bytes of the
uninitialised arrays, the return code of `nc4_nc4f_list_add`, and the files
that `fopen` finds for a path (the `.a` file as bytes, the `.b` file as
text). -/
structure OpenEnv where
  libc : Libc
  mem : Uninit
  list_add : Int
  fopen_a : List Char → Option AFile
  fopen_b : List Char → Option (List Char)

/-- The outcome of `ab_open_file`: its return code, the derived path `a_path`
once it exists, whether `nc4_nc4f_list_add` has registered the file, the paths
given to `fopen` in call order, and the metadata built. -/
structure OpenResult where
  ret : Int
  a_path : Option (List Char)
  registered : Bool
  opened : List (List Char)
  meta : FileMeta
deriving DecidableEq, Repr

/-- No metadata. -/
def FileMeta.empty : FileMeta :=
  { gatts := { att := [], natts := 0 }, dims := [], next_dimid := 0, vars := [] }

/-- The series as passed on by `ab_open_file` to `add_ab_var_atts`: the
floats of the allocated array (an element that was never written is shown as
the zero pattern). -/
def series_floats (a : List (Option F32)) : List F32 := a.map fun x => x.getD ⟨0, 0, 0, 0⟩

/-- The part of `ab_open_file` after a successful `parse_b_file`: global
attributes, dimensions, the coordinate variable, the data variable and its
attributes.  `none`: the assertion of `add_ab_var_atts` fails. -/
def ab_build (env : OpenEnv) (p : BParse) : Option (Int × FileMeta) :=
  let m := FileMeta.empty
  let g := add_ab_global_atts env.libc.malloc_ok m.gatts p.num_header_atts p.header_att
  let m := { m with gatts := g.2 }
  if g.1 ≠ NC_NOERR then some (g.1, m)
  else
    let r := add_ab_dims m [some p.t_len, p.j_len, p.i_len]
    if r.1 ≠ NC_NOERR then some r
    else
      let r := add_ab_var r.2 TIME_NAME NC_FLOAT [0] false
      if r.1 ≠ NC_NOERR then some r
      else
        let r := add_ab_var r.2 (cstr p.var_name) NC_FLOAT [0, 1, 2] true
        if r.1 ≠ NC_NOERR then some r
        else
          match add_ab_var_atts env.libc.malloc_ok { att := [], natts := 0 }
              (cstr p.var_name |>.take NC_MAX_NAME) p.t_len (series_floats p.time)
              (series_floats p.span) (series_floats p.min) (series_floats p.max) with
          | none => none
          | some a =>
            some (a.1, { r.2 with vars := r.2.vars.dropLast ++
              (r.2.vars.getLast?.map fun v => { v with att := a.2 }).toList })

/-- `ab_open_file` of sionfile.c on the C string `path`.  `none`: the run has
no defined result (`parse_b_file` has none, or an assertion fails). -/
def ab_open_file (env : OpenEnv) (path : List Char) : Option OpenResult :=
  let r0 : OpenResult :=
    { ret := NC_NOERR, a_path := none, registered := false, opened := [],
      meta := FileMeta.empty }
  match rindex path '.' with
  | none => some { r0 with ret := NC_EINVAL }
  | some dot_loc =>
    if dot_loc ≠ ".b".toList then some { r0 with ret := NC_EINVAL }
    else if !env.libc.malloc_ok ((path.length + 1) % SIZE_MOD) then
      some { r0 with ret := NC_ENOMEM }
    else
      let a_path := path.set (path.length - 1) 'a'
      let r1 := { r0 with a_path := some a_path, registered := true }
      if env.list_add ≠ NC_NOERR then some { r1 with ret := env.list_add }
      else if !env.libc.malloc_ok 16 then some { r1 with ret := NC_ENOMEM }
      else
        let r2 := { r1 with opened := [a_path] }
        match env.fopen_a a_path with
        | none => some { r2 with ret := NC_EIO }
        | some _ =>
          let r3 := { r2 with opened := [a_path, path] }
          match env.fopen_b path with
          | none => some { r3 with ret := NC_EIO }
          | some b_file =>
            match parse_b_file env.libc env.mem b_file with
            | none => none
            | some p =>
              if p.ret ≠ NC_NOERR then some { r3 with ret := p.ret }
              else
                match ab_build env p with
                | none => none
                | some b => some { r3 with ret := b.1, meta := b.2 }

/-- An environment in which nothing can be opened: allocations succeed,
`nc4_nc4f_list_add` succeeds, and `fopen` finds no file. -/
def no_files_env : OpenEnv :=
  { libc := demo_libc, mem := zero_mem, list_add := NC_NOERR, fopen_a := fun _ => none,
    fopen_b := fun _ => none }

/-- The global attribute expected for header line `k`: named `att_k`, of
character type, holding the line, numbered `natts + k`. -/
def header_global_att (natts : Int) (header_att : List (List Char)) (k : Nat) :
    NC_ATT_INFO_T :=
  { name := att_name k, attnum := natts + k, nc_typeid := NC_CHAR,
    len := (header_att.getD k []).length, data := .chars (header_att.getD k []) }

/-- The attribute `Conventions = "CF-1.0"` numbered `attnum`. -/
def conventions_att (attnum : Int) : NC_ATT_INFO_T :=
  { name := CONVENTIONS, attnum := attnum, nc_typeid := NC_CHAR, len := 6,
    data := .chars CF_VERSION }

/-! ## Further sample texts -/

/-- The lines of a text as the specification reads them: the pieces between
newlines.  `cur` is the line being collected. -/
def spec_lines_go : List Char → List Char → List (List Char)
  | cur, [] => [cur]
  | cur, c :: cs =>
    if c = '\n' then cur :: spec_lines_go [] cs else spec_lines_go (cur ++ [c]) cs

/-- The text has a line that begins with `i/jdm =`. -/
def spec_has_dim_line (text : List Char) : Bool := (spec_lines_go [] text).any is_dim_line

/-- An allocator that refuses requests of 2^48 bytes or more. -/
def bounded_malloc : Nat → Bool := fun size => decide (size < 2 ^ 48)

/-- The library of the worked examples with the bounded allocator. -/
def bounded_libc : Libc := { demo_libc with malloc_ok := bounded_malloc }

/-- A `.b` text without a dimension line. -/
def no_dim_b_file : List Char :=
  unlines ["ATMOSPHERIC FORCING".toList, "airtmp: date,span,range = 0 1 2 3".toList]

/-- A `.b` text whose first line has 80 characters `x` followed by
`i/jdm = 4 3`: no line begins with `i/jdm =`. -/
def split_dim_b_file : List Char :=
  List.replicate 80 'x' ++ unlines ["i/jdm = 4 3".toList,
    "airtmp: date,span,range = 0 1 2 3".toList]

/-- A `.b` text with a header line and a dimension line and no data line. -/
def no_data_b_file : List Char := unlines ["ATMOSPHERIC FORCING".toList, "i/jdm = 4 3".toList]

/-- An environment in which every path opens the sample `.a` file and the
text `no_data_b_file`. -/
def no_data_env : OpenEnv :=
  { libc := demo_libc, mem := zero_mem, list_add := NC_NOERR,
    fopen_a := fun _ => some demo_a_file, fopen_b := fun _ => some no_data_b_file }

/-- A `.b` text whose two data lines name the variables `airtmp` and `ab`. -/
def two_names_b_file : List Char :=
  unlines ["i/jdm = 4 3".toList, "airtmp: date,span,range = 0 1 2 3".toList,
    "ab: date,span,range = 1 1 2 3".toList]

/-! ## Lines of arbitrary texts -/

/-- The lines returned by `fgets` that the loops do not skip: those that are
not blank as C strings. -/
def raw_non_blank (cs : List (List Char)) : List (List Char) :=
  cs.filter fun raw => !is_blank (cstr raw)

/-- The first token of the line returned by `fgets` holds a colon. -/
def raw_names (raw : List Char) : Bool :=
  match strtok_all (cstr raw) with
  | [] => false
  | tok :: _ => decide (':' ∈ tok)

/-- The variables of the first loop at its start. -/
def pass1_init : Pass1 :=
  { hdr := none, header := true, time_start_pos := 0, num_header_atts := 0, header_att := [],
    t_len := 0, i_len := none, j_len := none, pos := 0 }

/-- The variables of the second loop at its start, with arrays of `n`
unwritten elements. -/
def pass2_init (var_name : List Char) (n : Nat) : Pass2 :=
  { var_name := var_name, time := List.replicate n none, span := List.replicate n none,
    min := List.replicate n none, max := List.replicate n none, time_count := 0 }

/-- The variables of the first loop after the sample `.b` text read with
zero-filled arrays: the dimension line and the three data lines are counted,
the offset remembered is that of the first data line, and the second header
entry ends with what the first left in `hdr`. -/
def demo_pass1 : Pass1 :=
  { hdr := some ("sample grid  CING".toList ++ NUL :: 'G' :: List.replicate 62 NUL),
    header := false, time_start_pos := 48, num_header_atts := 2,
    header_att := ["ATMOSPHERIC FORCING".toList, "sample grid  CING".toList], t_len := 4,
    i_len := some 4, j_len := some 3, pos := 150 }

/-! Properties of the embedding. -/

/-! ## Machine arithmetic -/

theorem wrap_int_of_range (x : Int) (h1 : -(2 ^ 31) ≤ x) (h2 : x < 2 ^ 31) : wrap_int x = x := by
  unfold wrap_int; omega

theorem to_long_of_lt (n : Nat) (h : n < 2 ^ 63) : to_long n = (n : Int) := by
  unfold to_long SIZE_MOD
  have : n % 2 ^ 64 = n := Nat.mod_eq_of_lt (by omega)
  rw [this, if_pos h]

/-! ## Byte order -/

theorem reverse_floats_eq_map (bufr : List F32) (num : Nat) :
    reverse_floats bufr num = (bufr.take num).map reverse_float := by
  induction bufr generalizing num with
  | nil => cases num <;> simp [reverse_floats]
  | cons x xs ih => cases num <;> simp [reverse_floats, ih]

/-- C5: `reverse_float` maps the bytes `[b0, b1, b2, b3]` to `[b3, b2, b1, b0]` for
every byte pattern (no pattern is rejected or changed otherwise), so applying it twice
gives the float back; `reverse_floats` applies it element by element, keeping length and
order; the big-endian bytes `3F 80 00 00` decode to the native bytes `00 00 80 3F`, the
pattern `0x3F800000` of 1.0. -/
theorem reverse_float_reverses_bytes :
    (∀ b0 b1 b2 b3 : Byte, reverse_float ⟨b0, b1, b2, b3⟩ = ⟨b3, b2, b1, b0⟩)
    ∧ (∀ x : F32, reverse_float (reverse_float x) = x)
    ∧ (∀ bufr : List F32, reverse_floats bufr bufr.length = bufr.map reverse_float)
    ∧ (∀ bufr : List F32, (reverse_floats bufr bufr.length).length = bufr.length)
    ∧ (∀ (bufr : List F32) (n : Nat),
        (reverse_floats bufr bufr.length).get? n = (bufr.get? n).map reverse_float)
    ∧ reverse_float ⟨0x3F, 0x80, 0x00, 0x00⟩ = ⟨0x00, 0x00, 0x80, 0x3F⟩
    ∧ (reverse_float ⟨0x3F, 0x80, 0x00, 0x00⟩).bits_le = 0x3F800000 := by
  refine ⟨fun _ _ _ _ => rfl, fun x => by cases x; rfl, ?_, ?_, ?_, by decide, by decide⟩
  · intro bufr; simp [reverse_floats_eq_map]
  · intro bufr; simp [reverse_floats_eq_map]
  · intro bufr n; simp [reverse_floats_eq_map]

/-! ## Record padding and the first seek -/

theorem round_up_4096 (p : Int) (h1 : 0 ≤ p) (h2 : p ≤ 2 ^ 31 - 4096) :
    round_up p 4096 = if p % 4096 = 0 then p else p + 4096 - p % 4096 := by
  unfold round_up
  have ht : Int.tmod p 4096 = p % 4096 := Int.tmod_eq_emod h1 (by decide)
  have h0 : ¬ ((4096 : Int) = 0) := by decide
  simp only [ht, h0, if_false]
  split_ifs with h
  · rfl
  · rw [wrap_int_of_range (p + 4096) (by omega) (by omega)]
    rw [wrap_int_of_range _ (by omega) (by omega)]

theorem seeks_single (malloc_ok : Nat → Bool) (a_file : AFile) (j_len i_len : Int) (t : Nat) :
    (SION_get_vara malloc_ok a_file j_len i_len ![t, 0, 0] ![1, 1, 1]).seeks =
      if malloc_ok 4 then [to_long (t * rec_len j_len i_len % SIZE_MOD)] else [] := by
  simp only [SION_get_vara, get_vara_recs, get_vara_rows, Matrix.cons_val_zero,
    Matrix.cons_val_one, Matrix.head_cons, Matrix.cons_val_two, Matrix.tail_cons]
  simp [sizeof_float, SIZE_MOD]
  cases hm : malloc_ok 4 <;> simp [NC_ENOMEM, NC_NOERR, get_vara_recs]
  split_ifs <;> simp [get_vara_recs, NC_EIO, NC_NOERR]

/-- C4 (amended): for `j_len, i_len ≥ 1` whose product is at most `2^31 - 4096` (so that
the rounded value fits an `int`), the record size `R = round_up(j_len * i_len, 4096)` is
the least multiple of 4096 that is at least the product (the product itself when that is
a multiple), `rec_len` is `R * 4` bytes, and the read of the single element `(t, 0, 0)`
seeks to byte `t * R * 4` whenever that offset fits a `long`. -/
theorem record_size_and_single_element_seek (malloc_ok : Nat → Bool) (a_file : AFile)
    (j_len i_len : Int) (t : Nat)
    (hj : 1 ≤ j_len) (hi : 1 ≤ i_len) (hp : j_len * i_len ≤ 2 ^ 31 - 4096)
    (ht : (t : Int) * round_up (wrap_int (j_len * i_len)) 4096 * 4 < 2 ^ 63)
    (hm : malloc_ok 4 = true) :
    (4096 ∣ round_up (wrap_int (j_len * i_len)) 4096
      ∧ j_len * i_len ≤ round_up (wrap_int (j_len * i_len)) 4096
      ∧ (∀ m : Int, 4096 ∣ m → j_len * i_len ≤ m →
          round_up (wrap_int (j_len * i_len)) 4096 ≤ m)
      ∧ (4096 ∣ j_len * i_len → round_up (wrap_int (j_len * i_len)) 4096 = j_len * i_len))
    ∧ (rec_len j_len i_len : Int) = round_up (wrap_int (j_len * i_len)) 4096 * 4
    ∧ (SION_get_vara malloc_ok a_file j_len i_len ![t, 0, 0] ![1, 1, 1]).seeks
        = [(t : Int) * round_up (wrap_int (j_len * i_len)) 4096 * 4] := by
  have hp1 : 1 ≤ j_len * i_len := by nlinarith
  generalize hpe : j_len * i_len = p at *
  have hw : wrap_int p = p := wrap_int_of_range p (by omega) (by omega)
  have hR := round_up_4096 p (by omega) hp
  rw [hw] at ht ⊢
  have hrec : (rec_len j_len i_len : Int) = round_up p 4096 * 4 := by
    unfold rec_len
    rw [hpe, hw]
    unfold to_size_t sizeof_float SIZE_MOD
    have hb : 0 ≤ round_up p 4096 ∧ round_up p 4096 < 2 ^ 31 := by
      rw [hR]; split_ifs <;> omega
    omega
  refine ⟨⟨?_, ?_, ?_, ?_⟩, hrec, ?_⟩
  · rw [hR]; split_ifs <;> omega
  · rw [hR]; split_ifs <;> omega
  · intro m hm1 hm2
    rw [hR]; split_ifs <;> omega
  · intro hd
    rw [hR]; split_ifs <;> omega
  · rw [seeks_single, hm, if_pos rfl]
    have h3 : ((t * rec_len j_len i_len : Nat) : Int) = (t : Int) * round_up p 4096 * 4 := by
      push_cast; rw [hrec]; ring
    have h4 : t * rec_len j_len i_len < 2 ^ 63 := by
      have : ((t * rec_len j_len i_len : Nat) : Int) < 2 ^ 63 := by rw [h3]; exact ht
      exact_mod_cast this
    have h5 : t * rec_len j_len i_len % SIZE_MOD = t * rec_len j_len i_len :=
      Nat.mod_eq_of_lt (by unfold SIZE_MOD; omega)
    rw [h5, to_long_of_lt _ h4, h3]

/-- C4, the sample of the specification: for `i_len = j_len = 3` the record is 4096
elements and the read of `(t = 1, j = 0, i = 0)` seeks to byte 16384. -/
theorem record_size_witness :
    round_up (wrap_int (3 * 3)) 4096 = 4096
    ∧ (SION_get_vara malloc_always demo_a_file 3 3 ![1, 0, 0] ![1, 1, 1]).seeks = [16384] := by
  have h := record_size_and_single_element_seek malloc_always demo_a_file 3 3 1
    (by decide) (by decide) (by decide) (by decide) rfl
  refine ⟨by decide, ?_⟩
  rw [h.2.2]; decide

/-- C4 as stated fails at the edge of the `int` range: for `j_len = 2147483647`,
`i_len = 1` the product is an `int` but `round_up` yields `-2147483648`, which is below
the product; and for `t = 2^62` on a 3 x 3 grid the offset `t * R * 4` wraps, the seek
going to byte 0. -/
theorem round_up_int_range_counterexample :
    ((1 : Int) ≤ 2147483647 ∧ (2147483647 : Int) * 1 ≤ INT_MAX
      ∧ round_up (wrap_int (2147483647 * 1)) 4096 = -2147483648
      ∧ ¬ ((2147483647 : Int) * 1 ≤ round_up (wrap_int (2147483647 * 1)) 4096))
    ∧ ((SION_get_vara malloc_always demo_a_file 3 3 ![2 ^ 62, 0, 0] ![1, 1, 1]).seeks = [0]
      ∧ ((2 ^ 62 : Nat) : Int) * round_up (wrap_int (3 * 3)) 4096 * 4 ≠ 0) := by
  decide

/-! ## The region read -/

/-- C1 (code defect): on a two-timestep file in the padded layout (grid 3 x 2), the read
of the full array returns success but seeks to bytes 0, 8, 24, 0, 8, 24 where the claimed
offsets are 0, 8, 16, 16384, 16392, 16400 (the record counter is never added and the row
offset accumulates), so the output differs from the claimed one; and a read that starts
at column 1 seeks to byte 0 instead of 4 (`start[2]` is never added). -/
theorem SION_get_vara_full_read_misplaced :
    (SION_get_vara malloc_always demo_a_file 3 2 ![0, 0, 0] ![2, 3, 2]).ret = NC_NOERR
    ∧ (SION_get_vara malloc_always demo_a_file 3 2 ![0, 0, 0] ![2, 3, 2]).seeks
        = [0, 8, 24, 0, 8, 24]
    ∧ ((List.range 2).flatMap fun r => (List.range 3).map fun k =>
        spec_offset 3 2 (0 + r) (0 + k) 0) = [0, 8, 16, 16384, 16392, 16400]
    ∧ (SION_get_vara malloc_always demo_a_file 3 2 ![0, 0, 0] ![2, 3, 2]).data
        ≠ spec_read_region demo_a_file 3 2 ![0, 0, 0] ![2, 3, 2]
    ∧ (SION_get_vara malloc_always demo_a_file 3 2 ![0, 0, 1] ![1, 1, 1]).ret = NC_NOERR
    ∧ (SION_get_vara malloc_always demo_a_file 3 2 ![0, 0, 1] ![1, 1, 1]).seeks = [0]
    ∧ spec_offset 3 2 0 0 1 = 4
    ∧ (SION_get_vara malloc_always demo_a_file 3 2 ![0, 0, 1] ![1, 1, 1]).data
        ≠ spec_read_region demo_a_file 3 2 ![0, 0, 1] ![1, 1, 1] := by
  decide

/-- C3 (code defect): on the grid 3 x 2 at timestep 0, the read of all three rows seeks
to bytes 0, 8, 24, while the reads of rows 0..1 and of row 2 seek to 0, 8 and to 16; the
one-call output differs from the concatenation of the two partial outputs. -/
theorem SION_get_vara_row_split_differs :
    (SION_get_vara malloc_always demo_a_file 3 2 ![0, 0, 0] ![1, 3, 2]).ret = NC_NOERR
    ∧ (SION_get_vara malloc_always demo_a_file 3 2 ![0, 0, 0] ![1, 2, 2]).ret = NC_NOERR
    ∧ (SION_get_vara malloc_always demo_a_file 3 2 ![0, 2, 0] ![1, 1, 2]).ret = NC_NOERR
    ∧ (SION_get_vara malloc_always demo_a_file 3 2 ![0, 0, 0] ![1, 3, 2]).seeks = [0, 8, 24]
    ∧ (SION_get_vara malloc_always demo_a_file 3 2 ![0, 0, 0] ![1, 2, 2]).seeks = [0, 8]
    ∧ (SION_get_vara malloc_always demo_a_file 3 2 ![0, 2, 0] ![1, 1, 2]).seeks = [16]
    ∧ (SION_get_vara malloc_always demo_a_file 3 2 ![0, 0, 0] ![1, 3, 2]).data
        ≠ (SION_get_vara malloc_always demo_a_file 3 2 ![0, 0, 0] ![1, 2, 2]).data
          ++ (SION_get_vara malloc_always demo_a_file 3 2 ![0, 2, 0] ![1, 1, 2]).data := by
  decide

/-! ## The coordinate accessor -/

/-- C6 (code defect): with a `day` attribute of two values and the in-range request
`start = 1`, `count = 1`, the float path delivers the one value `time_series[1]`, while
the conversion path (here `NC_DOUBLE`) returns success and delivers no element: it
converts `count - start` elements instead of `count`. -/
theorem get_ab_coord_vara_conversion_count {V : Type} (cvt : Int → F32 → V × Bool)
    (x0 x1 : F32) :
    (get_ab_coord_vara cvt
        [{ name := TIME_NAME, attnum := 0, nc_typeid := NC_FLOAT, len := 2,
           data := .floats [x0, x1] }] ![1] ![1] NC_FLOAT).data = .floats [x1]
    ∧ (get_ab_coord_vara cvt
        [{ name := TIME_NAME, attnum := 0, nc_typeid := NC_FLOAT, len := 2,
           data := .floats [x0, x1] }] ![1] ![1] NC_DOUBLE).ret = NC_NOERR
    ∧ (get_ab_coord_vara cvt
        [{ name := TIME_NAME, attnum := 0, nc_typeid := NC_FLOAT, len := 2,
           data := .floats [x0, x1] }] ![1] ![1] NC_DOUBLE).data = .converted []
    ∧ (get_ab_coord_vara cvt
        [{ name := TIME_NAME, attnum := 0, nc_typeid := NC_FLOAT, len := 2,
           data := .floats [x0, x1] }] ![1] ![1] NC_DOUBLE).data.count = 0 := by
  refine ⟨?_, ?_, ?_, ?_⟩ <;>
  simp [get_ab_coord_vara, NC_ATT_INFO_T.floats, NC_FLOAT, NC_DOUBLE, SIZE_MOD, MemData.count,
    NC_NOERR]

/-! ## Attributes of the data variable -/

theorem ab_find_var_atts_loop_miss (var_name : List Char) (out : VarAtts) :
    ∀ l : List ab_att, (∀ e ∈ l, var_name ≠ e.var_name) →
      ab_find_var_atts_loop var_name l out = out := by
  intro l
  induction l with
  | nil => intro _; rfl
  | cons e rest ih =>
    intro h
    have h1 : var_name ≠ e.var_name := h e (List.mem_cons_self _ _)
    simp only [ab_find_var_atts_loop, if_neg h1]
    exact ih fun e he => h e (List.mem_cons_of_mem _ he)

theorem ab_find_var_atts_loop_hit (e : ab_att) (he : e ∈ dict) (out : VarAtts) :
    ab_find_var_atts_loop e.var_name dict out
      = { pname := e.pname, sname := e.sname, units := e.units } := by
  simp only [dict, List.mem_cons, List.mem_singleton, List.not_mem_nil, or_false] at he
  rcases he with rfl | rfl | rfl | rfl | rfl | rfl | rfl | rfl | rfl | rfl <;> rfl

theorem dict_entry_nonempty (e : ab_att) (he : e ∈ dict) :
    e.pname.length ≠ 0 ∧ e.sname.length ≠ 0 ∧ e.units.length ≠ 0 := by
  simp only [dict, List.mem_cons, List.mem_singleton, List.not_mem_nil, or_false] at he
  rcases he with rfl | rfl | rfl | rfl | rfl | rfl | rfl | rfl | rfl | rfl <;> decide

theorem to_size_t_of_int (x : Int) (h0 : 0 ≤ x) (h1 : x ≤ INT_MAX) : to_size_t x = x.toNat := by
  unfold to_size_t
  unfold INT_MAX at h1
  congr 1
  omega

theorem put_series (malloc_ok : Nat → Bool) (hm : ∀ n, malloc_ok n = true) (tgt : AttList)
    (t_len : Int) (time span min max : List F32) :
    put_float_atts malloc_ok t_len
        [(TIME_NAME, time), (SPAN_NAME, span), (MIN_NAME, min), (MAX_NAME, max)] tgt
      = (NC_NOERR,
          { att := tgt.att ++ series_atts tgt.natts (to_size_t t_len) time span min max,
            natts := tgt.natts + 4 }) := by
  simp [put_float_atts, nc4_put_att, hm, TIME_NAME, SPAN_NAME, MIN_NAME, MAX_NAME, NC_MAX_NAME,
    nc4_get_typelen_mem, NC_FLOAT, NC_NOERR, series_atts, AttData.take]
  omega

theorem put_text (malloc_ok : Nat → Bool) (hm : ∀ n, malloc_ok n = true) (tgt : AttList)
    (name s : List Char) (hn : name.length ≤ NC_MAX_NAME) (hs : s.length ≠ 0) :
    put_text_att malloc_ok name s tgt
      = (NC_NOERR,
          { att := tgt.att ++ [{ name := name, attnum := tgt.natts, nc_typeid := NC_CHAR,
                                 len := s.length, data := .chars s }],
            natts := tgt.natts + 1 }) := by
  have hn2 : ¬ name.length > NC_MAX_NAME := by omega
  simp [put_text_att, hs, nc4_put_att, hn2, nc4_get_typelen_mem, NC_CHAR, hm, AttData.take,
    List.take_of_length_le hn]

/-- C10: the dictionary has the ten keys radflx, shwflx, vapmix, airtmp, surtmp, seatmp,
precip, wndspd, tauewd, taunwd.  For a variable name equal to the key of an entry,
`add_ab_var_atts` succeeds and appends to the variable's attributes the four float
series `day`, `span`, `min`, `max` followed by exactly `long_name`, `standard_name` and
`units` with that entry's values; for a name equal to no key it succeeds and appends the
four series only.  The entry of `airtmp` is `" air temperature  "`, `air_temperature`,
`degC`.  (`t_len` is a positive `int` and allocations succeed.) -/
theorem add_ab_var_atts_by_name (malloc_ok : Nat → Bool) (hm : ∀ n, malloc_ok n = true)
    (tgt : AttList) (var_name : List Char) (t_len : Int) (ht : 0 < t_len)
    (ht2 : t_len ≤ INT_MAX) (time span min max : List F32) :
    dict.map (fun e => e.var_name)
        = ["radflx", "shwflx", "vapmix", "airtmp", "surtmp", "seatmp", "precip", "wndspd",
            "tauewd", "taunwd"].map String.toList
    ∧ (∀ e ∈ dict, var_name = e.var_name →
        add_ab_var_atts malloc_ok tgt var_name t_len time span min max
          = some (NC_NOERR,
              { att := tgt.att ++ series_atts tgt.natts t_len.toNat time span min max
                        ++ name_atts (tgt.natts + 4) e,
                natts := tgt.natts + 7 }))
    ∧ ((∀ e ∈ dict, var_name ≠ e.var_name) →
        add_ab_var_atts malloc_ok tgt var_name t_len time span min max
          = some (NC_NOERR,
              { att := tgt.att ++ series_atts tgt.natts t_len.toNat time span min max,
                natts := tgt.natts + 4 }))
    ∧ (∀ e ∈ dict, e.var_name = "airtmp".toList → e.pname = " air temperature  ".toList
        ∧ e.sname = "air_temperature".toList ∧ e.units = "degC".toList) := by
  have hgt : t_len > 0 := ht
  rw [← to_size_t_of_int t_len (le_of_lt ht) ht2]
  refine ⟨by decide, ?_, ?_, by decide⟩
  · intro e he hv
    subst hv
    obtain ⟨h1, h2, h3⟩ := dict_entry_nonempty e he
    simp only [add_ab_var_atts, hgt, not_true_eq_false, if_false, put_series malloc_ok hm,
      ab_find_var_atts, ab_find_var_atts_loop_hit e he, ne_eq]
    rw [put_text malloc_ok hm _ PNAME_NAME e.pname (by decide) h1]
    simp only [ne_eq, not_true_eq_false, if_false]
    rw [put_text malloc_ok hm _ SNAME_NAME e.sname (by decide) h2]
    simp only [ne_eq, not_true_eq_false, if_false]
    rw [put_text malloc_ok hm _ UNITS_NAME e.units (by decide) h3]
    simp [name_atts]
    omega
  · intro hv
    simp only [add_ab_var_atts, hgt, not_true_eq_false, if_false, put_series malloc_ok hm,
      ab_find_var_atts, ab_find_var_atts_loop_miss var_name _ dict hv, ne_eq]
    simp [put_text_att]

/-- C10 on the sample: the variable `airtmp` with one timestep gets `day`, `span`, `min`,
`max`, then `long_name = " air temperature  "`, `standard_name = "air_temperature"`,
`units = "degC"`. -/
theorem add_ab_var_atts_airtmp_witness :
    add_ab_var_atts malloc_always { att := [], natts := 0 } "airtmp".toList 1
        [f32_of_nat 0] [f32_of_nat 1] [f32_of_nat 2] [f32_of_nat 3]
      = some (NC_NOERR,
          { att := [ ⟨"day".toList, 0, NC_FLOAT, 1, .floats [f32_of_nat 0]⟩,
                     ⟨"span".toList, 1, NC_FLOAT, 1, .floats [f32_of_nat 1]⟩,
                     ⟨"min".toList, 2, NC_FLOAT, 1, .floats [f32_of_nat 2]⟩,
                     ⟨"max".toList, 3, NC_FLOAT, 1, .floats [f32_of_nat 3]⟩,
                     ⟨"long_name".toList, 4, NC_CHAR, 18, .chars " air temperature  ".toList⟩,
                     ⟨"standard_name".toList, 5, NC_CHAR, 15, .chars "air_temperature".toList⟩,
                     ⟨"units".toList, 6, NC_CHAR, 4, .chars "degC".toList⟩ ],
            natts := 7 }) := by
  have h := (add_ab_var_atts_by_name malloc_always (fun _ => rfl) { att := [], natts := 0 }
    "airtmp".toList 1 (by decide) (by decide)
    [f32_of_nat 0] [f32_of_nat 1] [f32_of_nat 2] [f32_of_nat 3]).2.1
      ⟨"airtmp".toList, " air temperature  ".toList, "air_temperature".toList, "degC".toList⟩
      (by decide) rfl
  rw [h]; decide

/-! ## The `.b` parser: lines -/

theorem cstr_append_of_no_nul (s t : List Char) (h : ∀ c ∈ s, c ≠ NUL) :
    cstr (s ++ t) = s ++ cstr t := by
  induction s with
  | nil => rfl
  | cons c s ih =>
    have hc : c ≠ NUL := h c (List.mem_cons_self _ _)
    have ih2 := ih fun x hx => h x (List.mem_cons_of_mem _ hx)
    simp only [cstr] at ih2 ⊢
    simp only [List.cons_append, List.takeWhile_cons, bne_iff_ne, ne_eq, hc, not_false_eq_true,
      decide_True, if_true, ih2]

theorem cstr_of_no_nul (s : List Char) (h : ∀ c ∈ s, c ≠ NUL) : cstr s = s := by
  have := cstr_append_of_no_nul s [] h
  simpa [cstr] using this

theorem line_ok_iff (l : List Char) :
    line_ok l = true ↔ l.length < MAX_B_LINE_LEN ∧ (∀ c ∈ l, c ≠ '\n') ∧ (∀ c ∈ l, c ≠ NUL) := by
  simp only [line_ok, Bool.and_eq_true, decide_eq_true_eq, List.all_eq_true, bne_iff_ne, ne_eq]
  constructor
  · rintro ⟨h1, h2⟩
    exact ⟨h1, fun c hc => (h2 c hc).1, fun c hc => (h2 c hc).2⟩
  · rintro ⟨h1, h2, h3⟩
    exact ⟨h1, fun c hc => ⟨h2 c hc, h3 c hc⟩⟩

theorem fgets_aux_line (l rest : List Char) (n : Nat) (hn : l.length < n)
    (h : ∀ c ∈ l, c ≠ '\n') : fgets_aux n (l ++ '\n' :: rest) = (l ++ ['\n'], rest) := by
  induction l generalizing n with
  | nil =>
    cases n with
    | zero => simp at hn
    | succ n => simp [fgets_aux]
  | cons c l ih =>
    cases n with
    | zero => simp at hn
    | succ n =>
      have hc : c ≠ '\n' := h c (List.mem_cons_self _ _)
      have ih2 := ih n (by simpa using hn) fun x hx => h x (List.mem_cons_of_mem _ hx)
      simp [fgets_aux, hc, ih2]

theorem fgets_all_unlines (ls : List (List Char)) (h : ∀ l ∈ ls, line_ok l = true)
    (fuel : Nat) (hf : ls.length ≤ fuel) :
    fgets_all fuel (unlines ls) = ls.map fun l => l ++ ['\n'] := by
  induction ls generalizing fuel with
  | nil =>
    cases fuel <;> simp [fgets_all, unlines, fgets]
  | cons l ls ih =>
    cases fuel with
    | zero => simp at hf
    | succ fuel =>
      obtain ⟨h1, h2, _⟩ := (line_ok_iff l).1 (h l (List.mem_cons_self _ _))
      have ih2 := ih (fun x hx => h x (List.mem_cons_of_mem _ hx)) fuel (by simpa using hf)
      have hu : unlines (l :: ls) = l ++ '\n' :: unlines ls := by simp [unlines]
      have hne : ∃ c r, l ++ '\n' :: unlines ls = c :: r := by
        cases l with
        | nil => exact ⟨_, _, rfl⟩
        | cons c l => exact ⟨_, _, rfl⟩
      obtain ⟨c, r, hcr⟩ := hne
      have hg : fgets (MAX_B_LINE_LEN + 1) (l ++ '\n' :: unlines ls)
          = some (l ++ ['\n'], unlines ls) := by
        rw [hcr]
        simp only [fgets]
        rw [← hcr]
        rw [fgets_aux_line l (unlines ls) _ (by simpa [MAX_B_LINE_LEN] using h1) h2]
      rw [hu]
      simp only [fgets_all, hg, ih2, List.map_cons]

theorem length_le_unlines (ls : List (List Char)) : ls.length ≤ (unlines ls).length := by
  induction ls with
  | nil => simp [unlines]
  | cons l ls ih =>
    have hu : unlines (l :: ls) = l ++ '\n' :: unlines ls := by simp [unlines]
    rw [hu]
    simp only [List.length_cons, List.length_append]
    omega

theorem unlines_append (xs ys : List (List Char)) :
    unlines (xs ++ ys) = unlines xs ++ unlines ys := by
  simp [unlines]

/-! ## The `.b` parser: the first pass -/

theorem isspace_newline : isspace '\n' = true := by decide

theorem is_blank_raw (l : List Char) : is_blank (l ++ ['\n']) = is_blank l := by
  simp [is_blank, isspace_newline]

theorem cstr_raw (l : List Char) (h : line_ok l = true) : cstr (l ++ ['\n']) = l ++ ['\n'] := by
  obtain ⟨_, _, h3⟩ := (line_ok_iff l).1 h
  apply cstr_of_no_nul
  intro c hc
  rcases List.mem_append.1 hc with hc | hc
  · exact h3 c hc
  · have : c = '\n' := by simpa using hc
    subst this; decide

theorem take_dim_raw (l : List Char) (h : line_ok l = true) :
    ((l ++ ['\n']).take SION_DIMSIZE_STRING.length = SION_DIMSIZE_STRING)
      ↔ is_dim_line l = true := by
  obtain ⟨_, h2, _⟩ := (line_ok_iff l).1 h
  unfold is_dim_line
  rw [beq_iff_eq]
  by_cases hl : SION_DIMSIZE_STRING.length ≤ l.length
  · rw [List.take_append_of_le_length hl]
  · have hlen : l.length < 7 := by
      have : SION_DIMSIZE_STRING.length = 7 := by decide
      omega
    constructor
    · intro h7
      exfalso
      have hmem : '\n' ∈ (l ++ ['\n']).take SION_DIMSIZE_STRING.length := by
        have : (l ++ ['\n']).take SION_DIMSIZE_STRING.length = l ++ ['\n'] := by
          apply List.take_of_length_le
          have : SION_DIMSIZE_STRING.length = 7 := by decide
          simp; omega
        rw [this]; simp
      rw [h7] at hmem
      revert hmem; decide
    · intro h7
      exfalso
      have : (l.take SION_DIMSIZE_STRING.length).length = 7 := by rw [h7]; decide
      rw [List.length_take] at this
      omega

theorem dropWhile_eq_nil_of_all (p : Char → Bool) (s : List Char)
    (h : s.dropWhile p = []) : ∀ c ∈ s, p c = true := by
  induction s with
  | nil => intro c hc; simp at hc
  | cons x s ih =>
    intro c hc
    by_cases hx : p x = true
    · rw [List.dropWhile_cons_of_pos hx] at h
      rcases List.mem_cons.1 hc with rfl | hc
      · exact hx
      · exact ih h c hc
    · rw [List.dropWhile_cons_of_neg hx] at h
      simp at h

theorem trim_isSome (s : List Char) (h : is_blank s = false) :
    trim s = some (((s.reverse.dropWhile isspace).reverse).dropWhile isspace) := by
  unfold trim
  have hne : (s.reverse.dropWhile isspace).reverse ≠ [] := by
    intro h0
    have h1 : s.reverse.dropWhile isspace = [] := by simpa using h0
    have h2 := dropWhile_eq_nil_of_all isspace s.reverse h1
    have : is_blank s = true := by
      simp only [is_blank, List.all_eq_true]
      intro c hc
      exact h2 c (List.mem_reverse.2 hc)
    rw [this] at h
    exact Bool.noConfusion h
  simp only [hne, if_false]

theorem is_blank_append_left (s t : List Char) (h : is_blank s = false) :
    is_blank (s ++ t) = false := by
  simp only [is_blank, List.all_append, Bool.and_eq_false_iff] at h ⊢
  exact Or.inl h

theorem header_text_eq (junk l : List Char) (hl : line_ok l = true)
    (hb : is_blank l = false) :
    trim (cstr (l ++ junk.drop l.length)) = some (((cstr (l ++ junk.drop l.length)).reverse.dropWhile
      isspace).reverse.dropWhile isspace)
    ∧ header_text junk l = (((cstr (l ++ junk.drop l.length)).reverse.dropWhile
      isspace).reverse.dropWhile isspace).take MAX_B_LINE_LEN := by
  obtain ⟨_, _, h3⟩ := (line_ok_iff l).1 hl
  have hc : cstr (l ++ junk.drop l.length) = l ++ cstr (junk.drop l.length) :=
    cstr_append_of_no_nul _ _ h3
  have hnb : is_blank (cstr (l ++ junk.drop l.length)) = false := by
    rw [hc]; exact is_blank_append_left _ _ hb
  have ht := trim_isSome _ hnb
  refine ⟨ht, ?_⟩
  unfold header_text
  rw [ht]

theorem pass1_line_header (libc : Libc) (mem : Uninit) (st : Pass1) (l : List Char)
    (hl : line_ok l = true) (hd : is_dim_line l = false) (hh : st.header = true) :
    pass1_line libc mem st (l ++ ['\n']) =
      if is_blank l then some { st with pos := st.pos + (l.length + 1) }
      else if st.num_header_atts < MAX_HEADER_ATTS then
        some { st with
          pos := st.pos + (l.length + 1)
          hdr := some (header_mem (st.hdr.getD mem.hdr) l)
          header_att := st.header_att ++ [header_text (st.hdr.getD mem.hdr) l]
          num_header_atts := st.num_header_atts + 1 }
      else some { st with pos := st.pos + (l.length + 1) } := by
  have hdim : ¬ ((l ++ ['\n']).take SION_DIMSIZE_STRING.length = SION_DIMSIZE_STRING) := by
    rw [take_dim_raw l hl, hd]; exact Bool.noConfusion
  unfold pass1_line
  simp only [cstr_raw l hl, is_blank_raw, hdim, if_false, hh, if_true, List.length_append,
    List.length_singleton]
  by_cases hb : is_blank l = true
  · simp [hb]
  · have hb2 : is_blank l = false := by simpa using hb
    simp only [hb2, Bool.false_eq_true, if_false]
    by_cases hn : st.num_header_atts < MAX_HEADER_ATTS
    · simp only [hn, if_true]
      have h1 : l.length + 1 - 1 = l.length := by omega
      have h2 : (l ++ ['\n']).take l.length = l := by simp
      rw [h1, h2]
      obtain ⟨ht, hx⟩ := header_text_eq (st.hdr.getD mem.hdr) l hl hb2
      simp only [header_mem]
      rw [ht, hx]
    · simp only [hn, if_false]

theorem unlines_cons (l : List Char) (ls : List (List Char)) :
    unlines (l :: ls) = l ++ '\n' :: unlines ls := by
  simp [unlines]

theorem pass1_cons_some (libc : Libc) (mem : Uninit) (raw : List Char)
    (rest : List (List Char)) (st st2 : Pass1) (h : pass1_line libc mem st raw = some st2) :
    pass1 libc mem (raw :: rest) st = pass1 libc mem rest st2 := by
  simp only [pass1, h]

theorem pass1_headers (libc : Libc) (mem : Uninit) (hs : List (List Char))
    (more : List (List Char)) (hok : ∀ l ∈ hs, line_ok l = true)
    (hnd : ∀ l ∈ hs, is_dim_line l = false) (st : Pass1) (hh : st.header = true) :
    pass1 libc mem ((hs.map fun l => l ++ ['\n']) ++ more) st =
      pass1 libc mem more
        { st with
          pos := st.pos + (unlines hs).length
          hdr := header_hdr mem.hdr st.hdr st.num_header_atts hs
          header_att :=
            st.header_att ++ header_texts (st.hdr.getD mem.hdr) st.num_header_atts hs
          num_header_atts :=
            st.num_header_atts
              + (header_texts (st.hdr.getD mem.hdr) st.num_header_atts hs).length } := by
  induction hs generalizing st with
  | nil => simp [unlines, header_texts, header_hdr]
  | cons l hs ih =>
    have hl := hok l (List.mem_cons_self _ _)
    have hd := hnd l (List.mem_cons_self _ _)
    have hok2 : ∀ x ∈ hs, line_ok x = true := fun x hx => hok x (List.mem_cons_of_mem _ hx)
    have hnd2 : ∀ x ∈ hs, is_dim_line x = false := fun x hx => hnd x (List.mem_cons_of_mem _ hx)
    have hline := pass1_line_header libc mem st l hl hd hh
    rw [List.map_cons, List.cons_append]
    by_cases hb : is_blank l = true
    · simp only [hb, if_true] at hline
      rw [pass1_cons_some libc mem _ _ st _ hline, ih hok2 hnd2]
      · simp only [header_texts, header_hdr, hb, if_true, unlines_cons, List.length_append,
          List.length_cons]
        congr 2
        omega
      · exact hh
    · have hb2 : is_blank l = false := by simpa using hb
      simp only [hb2, Bool.false_eq_true, if_false] at hline
      by_cases hn : st.num_header_atts < MAX_HEADER_ATTS
      · simp only [hn, if_true] at hline
        rw [pass1_cons_some libc mem _ _ st _ hline, ih hok2 hnd2]
        · simp only [header_texts, header_hdr, hb2, Bool.false_eq_true, if_false, hn, if_true,
            unlines_cons, List.length_append, List.length_cons, List.append_assoc,
            List.singleton_append, Option.getD_some]
          congr 2
          · omega
          · omega
        · exact hh
      · simp only [hn, if_false] at hline
        rw [pass1_cons_some libc mem _ _ st _ hline, ih hok2 hnd2]
        · simp only [header_texts, header_hdr, hb2, Bool.false_eq_true, if_false, hn,
            unlines_cons, List.length_append, List.length_cons]
          congr 2
          omega
        · exact hh

theorem is_dim_line_split (l : List Char) (h : is_dim_line l = true) :
    l = SION_DIMSIZE_STRING ++ l.drop SION_DIMSIZE_STRING.length := by
  unfold is_dim_line at h
  rw [beq_iff_eq] at h
  conv_lhs => rw [← List.take_append_drop SION_DIMSIZE_STRING.length l]
  rw [h]

theorem is_blank_of_dim (l : List Char) (h : is_dim_line l = true) : is_blank l = false := by
  rw [is_dim_line_split l h]
  exact is_blank_append_left _ _ (by decide)

theorem pass1_line_dim (libc : Libc) (mem : Uninit) (st : Pass1) (l : List Char)
    (hl : line_ok l = true) (hd : is_dim_line l = true) :
    pass1_line libc mem st (l ++ ['\n']) =
      some { st with
        pos := st.pos + (l.length + 1)
        i_len := sscanf_store libc.scan_d (dim_val mem.i_val ((line_toks l).get? 2)) st.i_len
        j_len := sscanf_store libc.scan_d (dim_val mem.j_val ((line_toks l).get? 3)) st.j_len
        header := false
        time_start_pos :=
          if st.time_start_pos = 0 then st.pos + (l.length + 1) else st.time_start_pos
        t_len := st.t_len + 1 } := by
  have hdim : (l ++ ['\n']).take SION_DIMSIZE_STRING.length = SION_DIMSIZE_STRING :=
    (take_dim_raw l hl).2 hd
  unfold pass1_line
  simp only [cstr_raw l hl, is_blank_raw, is_blank_of_dim l hd, hdim, if_true,
    List.length_append, List.length_singleton, Bool.false_eq_true, if_false, line_toks]

theorem pass1_line_data (libc : Libc) (mem : Uninit) (st : Pass1) (l : List Char)
    (hl : line_ok l = true) (hd : is_dim_line l = false) (hh : st.header = false) :
    pass1_line libc mem st (l ++ ['\n']) =
      if is_blank l then some { st with pos := st.pos + (l.length + 1) }
      else
        some { st with
          pos := st.pos + (l.length + 1)
          time_start_pos :=
            if st.time_start_pos = 0 then st.pos + (l.length + 1) else st.time_start_pos
          t_len := st.t_len + 1 } := by
  have hdim : ¬ ((l ++ ['\n']).take SION_DIMSIZE_STRING.length = SION_DIMSIZE_STRING) := by
    rw [take_dim_raw l hl, hd]; exact Bool.noConfusion
  unfold pass1_line
  simp only [cstr_raw l hl, is_blank_raw, hdim, if_false, hh, List.length_append,
    List.length_singleton, Bool.false_eq_true]

theorem non_blank_cons (l : List Char) (ls : List (List Char)) :
    non_blank (l :: ls) = if is_blank l then non_blank ls else l :: non_blank ls := by
  unfold non_blank
  cases h : is_blank l <;> simp [List.filter_cons, h]

theorem pass1_data (libc : Libc) (mem : Uninit) (ds : List (List Char))
    (hok : ∀ l ∈ ds, line_ok l = true) (hnd : ∀ l ∈ ds, is_dim_line l = false) (st : Pass1)
    (hh : st.header = false) (hp : st.time_start_pos ≠ 0) :
    pass1 libc mem (ds.map fun l => l ++ ['\n']) st =
      some { st with
        pos := st.pos + (unlines ds).length
        t_len := st.t_len + ((non_blank ds).length : Int) } := by
  induction ds generalizing st with
  | nil => simp [unlines, non_blank, pass1]
  | cons l ds ih =>
    have hl := hok l (List.mem_cons_self _ _)
    have hd := hnd l (List.mem_cons_self _ _)
    have hok2 : ∀ x ∈ ds, line_ok x = true := fun x hx => hok x (List.mem_cons_of_mem _ hx)
    have hnd2 : ∀ x ∈ ds, is_dim_line x = false := fun x hx => hnd x (List.mem_cons_of_mem _ hx)
    have hline := pass1_line_data libc mem st l hl hd hh
    rw [List.map_cons]
    by_cases hb : is_blank l = true
    · simp only [hb, if_true] at hline
      rw [pass1_cons_some libc mem _ _ st _ hline, ih hok2 hnd2]
      · simp only [non_blank_cons, hb, if_true, unlines_cons, List.length_append,
          List.length_cons]
        congr 2
        omega
      · exact hh
      · exact hp
    · have hb2 : is_blank l = false := by simpa using hb
      simp only [hb2, Bool.false_eq_true, if_false, hp] at hline
      rw [pass1_cons_some libc mem _ _ st _ hline, ih hok2 hnd2]
      · simp only [non_blank_cons, hb2, Bool.false_eq_true, if_false, unlines_cons,
          List.length_append, List.length_cons, Nat.cast_add, Nat.cast_one]
        congr 2
        · omega
        · omega
      · exact hh
      · exact hp

/-! ## The `.b` parser: the second pass -/

theorem tok_loop_tail (scan_f : List Char → Option F32) (rest : List (List Char)) :
    ∀ (k vn : Nat) (st : Pass2), 7 ≤ k → tok_loop scan_f rest k vn st = some st := by
  induction rest with
  | nil => intro k vn st _; rfl
  | cons tok rest ih =>
    intro k vn st hk
    have hs : tok_step scan_f st k vn tok = some (st, vn) := by
      unfold tok_step
      have h0 : ¬ (k = 0 ∧ vn = 0) := by omega
      have h3 : ¬ k = 3 := by omega
      have h4 : ¬ k = 4 := by omega
      have h5 : ¬ k = 5 := by omega
      have h6 : ¬ k = 6 := by omega
      simp only [h0, h3, h4, h5, h6, if_false]
    simp only [tok_loop, hs]
    exact ih (k + 1) vn st (by omega)

theorem store_f_eq (scan_f : List Char → Option F32) (a : List (Option F32)) (idx : Nat)
    (tok : List Char) (h : idx < a.length) :
    store_f scan_f a idx tok = some (stored scan_f a idx (some tok)) := by
  unfold store_f stored
  cases hs : scan_f tok <;> simp [hs, h]

theorem stored_none (scan_f : List Char → Option F32) (a : List (Option F32)) (idx : Nat) :
    stored scan_f a idx none = a := by
  simp [stored]

theorem stored_length (scan_f : List Char → Option F32) (a : List (Option F32)) (idx : Nat)
    (tok : Option (List Char)) : (stored scan_f a idx tok).length = a.length := by
  unfold stored
  cases tok.bind scan_f <;> simp

theorem tok_loop_line (scan_f : List Char → Option F32) (st : Pass2) (t0 : List Char)
    (ts : List (List Char)) (hc : ':' ∈ t0)
    (h1 : st.time_count < st.time.length) (h2 : st.time_count < st.span.length)
    (h3 : st.time_count < st.min.length) (h4 : st.time_count < st.max.length) :
    ∃ vn, tok_loop scan_f (t0 :: ts) 0 0 st = some
      { st with
        var_name := vn
        time := stored scan_f st.time st.time_count ((t0 :: ts).get? 3)
        span := stored scan_f st.span st.time_count ((t0 :: ts).get? 4)
        min := stored scan_f st.min st.time_count ((t0 :: ts).get? 5)
        max := stored scan_f st.max st.time_count ((t0 :: ts).get? 6) } := by
  refine ⟨t0.take (t0.length - (t0.dropWhile fun c => c != ':').length)
    ++ st.var_name.drop (t0.length - (t0.dropWhile fun c => c != ':').length), ?_⟩
  rcases ts with _ | ⟨t1, _ | ⟨t2, _ | ⟨t3, _ | ⟨t4, _ | ⟨t5, _ | ⟨t6, rest⟩⟩⟩⟩⟩⟩ <;>
    simp [tok_loop, tok_step, hc, store_f_eq, h1, h2, h3, h4, stored_none, tok_loop_tail]

theorem line_toks_ne_nil_of_names (l : List Char) (h : names_var l = true) :
    ∃ t0 ts, line_toks l = t0 :: ts ∧ ':' ∈ t0 := by
  unfold names_var at h
  cases hl : line_toks l with
  | nil => rw [hl] at h; exact Bool.noConfusion h
  | cons t0 ts =>
    rw [hl] at h
    exact ⟨t0, ts, rfl, by simpa using h⟩

theorem pass2_line_data (scan_f : List Char → Option F32) (st : Pass2) (l : List Char)
    (hl : line_ok l = true) (hb : is_blank l = false) (hn : names_var l = true)
    (h1 : st.time_count < st.time.length) (h2 : st.time_count < st.span.length)
    (h3 : st.time_count < st.min.length) (h4 : st.time_count < st.max.length) :
    ∃ vn, pass2_line scan_f st (l ++ ['\n']) = some
      { var_name := vn
        time := stored scan_f st.time st.time_count ((line_toks l).get? 3)
        span := stored scan_f st.span st.time_count ((line_toks l).get? 4)
        min := stored scan_f st.min st.time_count ((line_toks l).get? 5)
        max := stored scan_f st.max st.time_count ((line_toks l).get? 6)
        time_count := st.time_count + 1 } := by
  obtain ⟨t0, ts, hts, hc⟩ := line_toks_ne_nil_of_names l hn
  obtain ⟨vn, hv⟩ := tok_loop_line scan_f st t0 ts hc h1 h2 h3 h4
  refine ⟨vn, ?_⟩
  unfold pass2_line
  have hts2 : strtok_all (l ++ ['\n']) = t0 :: ts := hts
  simp only [cstr_raw l hl, is_blank_raw, hb, Bool.false_eq_true, if_false, hts2, hv, hts]

theorem pass2_line_blank (scan_f : List Char → Option F32) (st : Pass2) (l : List Char)
    (hl : line_ok l = true) (hb : is_blank l = true) :
    pass2_line scan_f st (l ++ ['\n']) = some st := by
  unfold pass2_line
  simp only [cstr_raw l hl, is_blank_raw, hb, if_true]

theorem stored_at_end (scan_f : List Char → Option F32) (a : List (Option F32)) (m : Nat)
    (tok : Option (List Char)) :
    stored scan_f (a ++ List.replicate (m + 1) none) a.length tok
      = (a ++ [tok.bind scan_f]) ++ List.replicate m none := by
  unfold stored
  cases tok.bind scan_f with
  | none => simp [List.replicate_succ]
  | some v =>
    induction a with
    | nil => simp [List.replicate_succ]
    | cons x a ih => simpa using ih

theorem pass2_cons_some (scan_f : List Char → Option F32) (raw : List Char)
    (rest : List (List Char)) (st st2 : Pass2) (h : pass2_line scan_f st raw = some st2) :
    pass2 scan_f (raw :: rest) st = pass2 scan_f rest st2 := by
  simp only [pass2, h]

theorem pass2_data (scan_f : List Char → Option F32) (ds : List (List Char))
    (hok : ∀ l ∈ ds, line_ok l = true)
    (hnv : ∀ l ∈ ds, is_blank l = true ∨ names_var l = true) :
    ∀ (vn : List Char) (T S Mi Ma : List (Option F32)) (m : Nat),
      S.length = T.length → Mi.length = T.length → Ma.length = T.length →
      (non_blank ds).length ≤ m →
      ∃ vn2, pass2 scan_f (ds.map fun l => l ++ ['\n'])
          { var_name := vn
            time := T ++ List.replicate m none
            span := S ++ List.replicate m none
            min := Mi ++ List.replicate m none
            max := Ma ++ List.replicate m none
            time_count := T.length }
        = some
          { var_name := vn2
            time := T ++ (non_blank ds).map (scanned scan_f 3)
                      ++ List.replicate (m - (non_blank ds).length) none
            span := S ++ (non_blank ds).map (scanned scan_f 4)
                      ++ List.replicate (m - (non_blank ds).length) none
            min := Mi ++ (non_blank ds).map (scanned scan_f 5)
                      ++ List.replicate (m - (non_blank ds).length) none
            max := Ma ++ (non_blank ds).map (scanned scan_f 6)
                      ++ List.replicate (m - (non_blank ds).length) none
            time_count := T.length + (non_blank ds).length } := by
  induction ds with
  | nil =>
    intro vn T S Mi Ma m _ _ _ _
    exact ⟨vn, by simp [non_blank, pass2]⟩
  | cons l ds ih =>
    intro vn T S Mi Ma m hS hMi hMa hm
    have hl := hok l (List.mem_cons_self _ _)
    have hok2 : ∀ x ∈ ds, line_ok x = true := fun x hx => hok x (List.mem_cons_of_mem _ hx)
    have hnv2 : ∀ x ∈ ds, is_blank x = true ∨ names_var x = true :=
      fun x hx => hnv x (List.mem_cons_of_mem _ hx)
    rw [List.map_cons]
    by_cases hb : is_blank l = true
    · rw [pass2_cons_some scan_f _ _ _ _ (pass2_line_blank scan_f _ l hl hb)]
      have hnb : non_blank (l :: ds) = non_blank ds := by simp [non_blank_cons, hb]
      rw [hnb] at hm ⊢
      exact ih hok2 hnv2 vn T S Mi Ma m hS hMi hMa hm
    · have hb2 : is_blank l = false := by simpa using hb
      have hn : names_var l = true := by
        rcases hnv l (List.mem_cons_self _ _) with h | h
        · exact absurd h hb
        · exact h
      have hnb : non_blank (l :: ds) = l :: non_blank ds := by simp [non_blank_cons, hb2]
      rw [hnb] at hm ⊢
      simp only [List.length_cons] at hm
      obtain ⟨m2, rfl⟩ : ∃ m2, m = m2 + 1 := ⟨m - 1, by omega⟩
      obtain ⟨vn1, h1⟩ := pass2_line_data scan_f
        { var_name := vn
          time := T ++ List.replicate (m2 + 1) none
          span := S ++ List.replicate (m2 + 1) none
          min := Mi ++ List.replicate (m2 + 1) none
          max := Ma ++ List.replicate (m2 + 1) none
          time_count := T.length } l hl hb2 hn
        (by simp) (by simp; omega) (by simp; omega) (by simp; omega)
      rw [pass2_cons_some scan_f _ _ _ _ h1]
      have e1 := stored_at_end scan_f T m2 ((line_toks l).get? 3)
      have e2 := stored_at_end scan_f S m2 ((line_toks l).get? 4)
      have e3 := stored_at_end scan_f Mi m2 ((line_toks l).get? 5)
      have e4 := stored_at_end scan_f Ma m2 ((line_toks l).get? 6)
      rw [hS] at e2
      rw [hMi] at e3
      rw [hMa] at e4
      simp only [e1, e2, e3, e4]
      obtain ⟨vn2, h2⟩ := ih hok2 hnv2 vn1 (T ++ [((line_toks l).get? 3).bind scan_f])
        (S ++ [((line_toks l).get? 4).bind scan_f]) (Mi ++ [((line_toks l).get? 5).bind scan_f])
        (Ma ++ [((line_toks l).get? 6).bind scan_f]) m2 (by simp [hS]) (by simp [hMi])
        (by simp [hMa]) (by omega)
      refine ⟨vn2, ?_⟩
      have hlen : (T ++ [((line_toks l).get? 3).bind scan_f]).length = T.length + 1 := by simp
      rw [hlen] at h2
      rw [h2]
      simp only [List.map_cons, scanned, List.length_cons, List.append_assoc,
        List.singleton_append, Nat.add_sub_add_right]
      congr 2
      omega

/-! ## The `.b` parser: well-formed texts -/

theorem dim_line_first_token (rest : List Char) :
    ∃ ts, strtok_all (SION_DIMSIZE_STRING ++ rest) = "i/jdm".toList :: ts := by
  refine ⟨strtok_go [] ('=' :: rest), ?_⟩
  simp [strtok_all, strtok_go, SION_DIMSIZE_STRING]

theorem not_dim_of_names (l : List Char) (h : names_var l = true) : is_dim_line l = false := by
  by_contra hd
  have hd2 : is_dim_line l = true := by simpa using hd
  have hs := is_dim_line_split l hd2
  obtain ⟨ts, hts⟩ := dim_line_first_token (l.drop SION_DIMSIZE_STRING.length ++ ['\n'])
  have hl : line_toks l = "i/jdm".toList :: ts := by
    unfold line_toks
    conv_lhs => rw [hs]
    rw [List.append_assoc]
    exact hts
  unfold names_var at h
  rw [hl] at h
  have hc : decide (':' ∈ "i/jdm".toList) = false := by decide
  simp only [hc] at h
  exact Bool.noConfusion h

theorem non_blank_length_le (ds : List (List Char)) : (non_blank ds).length ≤ ds.length := by
  unfold non_blank
  exact List.length_filter_le _ _

theorem parse_b_file_wf (libc : Libc) (mem : Uninit) (hs : List (List Char)) (dim : List Char)
    (ds : List (List Char))
    (hok : ∀ l ∈ hs ++ dim :: ds, line_ok l = true)
    (hnd : ∀ l ∈ hs, is_dim_line l = false)
    (hd : is_dim_line dim = true)
    (hnv : ∀ l ∈ ds, is_blank l = true ∨ names_var l = true)
    (hlen : (unlines (hs ++ dim :: ds)).length < 2 ^ 31)
    (hm : libc.malloc_ok (4 * (non_blank ds).length) = true) :
    ∃ vn, parse_b_file libc mem (unlines (hs ++ dim :: ds)) = some
      { ret := NC_NOERR
        num_header_atts := (header_texts mem.hdr 0 hs).length
        header_att := header_texts mem.hdr 0 hs
        var_name := vn
        t_len := ((non_blank ds).length : Int)
        i_len := sscanf_store libc.scan_d (dim_val mem.i_val ((line_toks dim).get? 2)) none
        j_len := sscanf_store libc.scan_d (dim_val mem.j_val ((line_toks dim).get? 3)) none
        time := (non_blank ds).map (scanned libc.scan_f 3)
        span := (non_blank ds).map (scanned libc.scan_f 4)
        min := (non_blank ds).map (scanned libc.scan_f 5)
        max := (non_blank ds).map (scanned libc.scan_f 6) } := by
  have hokh : ∀ l ∈ hs, line_ok l = true := fun l hl => hok l (List.mem_append_left _ hl)
  have hokd : line_ok dim = true := hok dim (List.mem_append_right _ (List.mem_cons_self _ _))
  have hoks : ∀ l ∈ ds, line_ok l = true :=
    fun l hl => hok l (List.mem_append_right _ (List.mem_cons_of_mem _ hl))
  have hnds : ∀ l ∈ ds, is_dim_line l = false := by
    intro l hl
    rcases hnv l hl with h | h
    · by_contra hc
      have hc2 : is_dim_line l = true := by simpa using hc
      rw [is_blank_of_dim l hc2] at h
      exact Bool.noConfusion h
    · exact not_dim_of_names l h
  -- the lines read by the first loop
  have hlines : fgets_all (unlines (hs ++ dim :: ds)).length (unlines (hs ++ dim :: ds))
      = (hs.map fun l => l ++ ['\n']) ++ (dim ++ ['\n']) :: ds.map fun l => l ++ ['\n'] := by
    rw [fgets_all_unlines _ hok _ (length_le_unlines _)]
    simp
  -- the first loop
  have hp1 : pass1 libc mem
      ((hs.map fun l => l ++ ['\n']) ++ (dim ++ ['\n']) :: ds.map fun l => l ++ ['\n'])
      { hdr := none, header := true, time_start_pos := 0, num_header_atts := 0,
        header_att := [], t_len := 0, i_len := none, j_len := none, pos := 0 }
      = some
        { hdr := header_hdr mem.hdr none 0 hs
          header := false
          time_start_pos := (unlines hs).length + (dim.length + 1)
          num_header_atts := (header_texts mem.hdr 0 hs).length
          header_att := header_texts mem.hdr 0 hs
          t_len := 1 + ((non_blank ds).length : Int)
          i_len := sscanf_store libc.scan_d (dim_val mem.i_val ((line_toks dim).get? 2)) none
          j_len := sscanf_store libc.scan_d (dim_val mem.j_val ((line_toks dim).get? 3)) none
          pos := (unlines hs).length + (dim.length + 1) + (unlines ds).length } := by
    rw [pass1_headers libc mem hs _ hokh hnd _ rfl]
    rw [pass1_cons_some libc mem _ _ _ _ (pass1_line_dim libc mem _ dim hokd hd)]
    rw [pass1_data libc mem ds hoks hnds _ rfl (by simp)]
    simp
  -- sizes
  have hn : (non_blank ds).length < 2 ^ 31 := by
    have h1 := non_blank_length_le ds
    have h2 := length_le_unlines (hs ++ dim :: ds)
    simp only [List.length_append, List.length_cons] at h2
    omega
  have hsize : to_size_t (1 + ((non_blank ds).length : Int) - 1) * sizeof_float % SIZE_MOD
      = 4 * (non_blank ds).length := by
    unfold to_size_t sizeof_float SIZE_MOD
    omega
  -- the stream after the seek
  have hdrop : (unlines (hs ++ dim :: ds)).drop ((unlines hs).length + (dim.length + 1))
      = unlines ds := by
    rw [unlines_append, unlines_cons]
    have e : unlines hs ++ (dim ++ '\n' :: unlines ds)
        = (unlines hs ++ (dim ++ ['\n'])) ++ unlines ds := by simp
    rw [e]
    have e2 : (unlines hs).length + (dim.length + 1) = (unlines hs ++ (dim ++ ['\n'])).length := by
      simp
    rw [e2, List.drop_left]
  have hlines2 : fgets_all (unlines ds).length (unlines ds) = ds.map fun l => l ++ ['\n'] :=
    fgets_all_unlines _ hoks _ (length_le_unlines _)
  obtain ⟨vn, hp2⟩ := pass2_data libc.scan_f ds hoks hnv mem.var_name [] [] [] []
    (non_blank ds).length rfl rfl rfl (le_refl _)
  refine ⟨vn, ?_⟩
  unfold parse_b_file
  simp only [hlines, hp1, hsize, hm, Bool.not_true, Bool.false_eq_true, if_false, hdrop, hlines2]
  have h4 : 4 * (non_blank ds).length / sizeof_float = (non_blank ds).length := by
    unfold sizeof_float; omega
  rw [h4]
  simp only [List.nil_append, List.length_nil] at hp2
  rw [hp2]
  simp

/-! ## Trimming -/

theorem dropWhile_append_of_exists (p : Char → Bool) (u v : List Char)
    (h : ∃ x ∈ u, p x = false) : (u ++ v).dropWhile p = u.dropWhile p ++ v := by
  induction u with
  | nil => obtain ⟨x, hx, _⟩ := h; simp at hx
  | cons a u ih =>
    by_cases ha : p a = true
    · obtain ⟨x, hx, hpx⟩ := h
      rcases List.mem_cons.1 hx with rfl | hx
      · rw [ha] at hpx; exact Bool.noConfusion hpx
      · rw [List.cons_append, List.dropWhile_cons_of_pos ha, List.dropWhile_cons_of_pos ha]
        exact ih ⟨x, hx, hpx⟩
    · rw [List.cons_append, List.dropWhile_cons_of_neg ha, List.dropWhile_cons_of_neg ha]
      rfl

theorem dropWhile_of_all (p : Char → Bool) (a v : List Char) (h : ∀ x ∈ a, p x = true) :
    (a ++ v).dropWhile p = v.dropWhile p := by
  induction a with
  | nil => rfl
  | cons x a ih =>
    rw [List.cons_append, List.dropWhile_cons_of_pos (h x (List.mem_cons_self _ _))]
    exact ih fun y hy => h y (List.mem_cons_of_mem _ hy)

theorem dropWhile_concat_neg (p : Char → Bool) (u : List Char) (c : Char) (hc : p c = false) :
    ∃ y, (u ++ [c]).dropWhile p = y ++ [c] := by
  induction u with
  | nil => exact ⟨[], by simp [List.dropWhile, hc]⟩
  | cons a u ih =>
    by_cases ha : p a = true
    · rw [List.cons_append, List.dropWhile_cons_of_pos ha]; exact ih
    · rw [List.cons_append, List.dropWhile_cons_of_neg ha]; exact ⟨a :: u, rfl⟩

theorem trim_order (p : Char → Bool) (s : List Char) :
    ((s.reverse.dropWhile p).reverse).dropWhile p
      = ((s.dropWhile p).reverse.dropWhile p).reverse := by
  have hs : s = s.takeWhile p ++ s.dropWhile p := (List.takeWhile_append_dropWhile p s).symm
  have ha : ∀ x ∈ s.takeWhile p, p x = true := fun x hx => List.mem_takeWhile_imp hx
  generalize s.takeWhile p = a at hs ha
  cases hr : s.dropWhile p with
  | nil =>
    rw [hr, List.append_nil] at hs
    rw [hs]
    have h1 : a.reverse.dropWhile p = [] := by
      rw [List.dropWhile_eq_nil_iff]
      intro x hx
      exact ha x (List.mem_reverse.1 hx)
    have h2 : a.dropWhile p = [] := by
      rw [List.dropWhile_eq_nil_iff]
      exact ha
    simp [h1, h2]
  | cons c r =>
    have hc : p c = false := by
      have := List.head_dropWhile_not p s (by rw [hr]; simp)
      simpa [hr] using this
    rw [hr] at hs
    have h1 : s.reverse.dropWhile p = (c :: r).reverse.dropWhile p ++ a.reverse := by
      conv_lhs => rw [hs, List.reverse_append]
      apply dropWhile_append_of_exists
      exact ⟨c, by simp, hc⟩
    obtain ⟨y, hy⟩ := dropWhile_concat_neg p r.reverse c hc
    have h2 : (c :: r).reverse.dropWhile p = y ++ [c] := by
      rw [List.reverse_cons]; exact hy
    rw [h1, h2]
    simp only [List.reverse_append, List.reverse_reverse, List.reverse_cons, List.reverse_nil,
      List.nil_append, List.singleton_append, List.append_assoc]
    have h3 : (a ++ c :: y.reverse).dropWhile p = (c :: y.reverse).dropWhile p :=
      dropWhile_of_all p a _ ha
    rw [h3, List.dropWhile_cons_of_neg (by simp [hc])]

theorem cstr_all_nul (g : List Char) (h : ∀ c ∈ g, c = NUL) : cstr g = [] := by
  cases g with
  | nil => rfl
  | cons c g =>
    have : c = NUL := h c (List.mem_cons_self _ _)
    subst this
    simp [cstr, List.takeWhile]

theorem header_text_zero (junk l : List Char) (hj : ∀ c ∈ junk, c = NUL)
    (hl : line_ok l = true) (hb : is_blank l = false) : header_text junk l = strip l := by
  obtain ⟨h1, _, h3⟩ := (line_ok_iff l).1 hl
  rw [(header_text_eq junk l hl hb).2, cstr_append_of_no_nul _ _ h3,
    cstr_all_nul _ (fun c hc => hj c (List.mem_of_mem_drop hc)), List.append_nil, trim_order]
  apply List.take_of_length_le
  have hlen : (((l.dropWhile isspace).reverse.dropWhile isspace).reverse).length ≤ l.length := by
    rw [List.length_reverse]
    calc ((l.dropWhile isspace).reverse.dropWhile isspace).length
        ≤ (l.dropWhile isspace).reverse.length := (List.dropWhile_sublist _).length_le
      _ = (l.dropWhile isspace).length := List.length_reverse _
      _ ≤ l.length := (List.dropWhile_sublist _).length_le
  omega

/-! ## The `.b` parser: the claims -/

/-- C2 (amended): for a well-formed `.b` text (header lines, one dimension line beginning
`i/jdm =`, then data lines; every line at most 79 characters before its newline, every
non-blank data line with a colon in its first token, fewer than 2^31 characters in all)
and a successful allocation, `parse_b_file` returns `NC_NOERR` with `t_len = n`, the
number of non-blank lines after the dimension line (the dimension line is counted by the
first loop and the count is decremented once), and four series of `n` elements. -/
theorem parse_b_file_time_len (libc : Libc) (mem : Uninit) (hs : List (List Char))
    (dim : List Char) (ds : List (List Char))
    (hok : ∀ l ∈ hs ++ dim :: ds, line_ok l = true)
    (hnd : ∀ l ∈ hs, is_dim_line l = false)
    (hd : is_dim_line dim = true)
    (hnv : ∀ l ∈ ds, is_blank l = true ∨ names_var l = true)
    (hlen : (unlines (hs ++ dim :: ds)).length < 2 ^ 31)
    (hm : libc.malloc_ok (4 * (non_blank ds).length) = true) :
    ∃ r, parse_b_file libc mem (unlines (hs ++ dim :: ds)) = some r
      ∧ r.ret = NC_NOERR
      ∧ r.t_len = ((non_blank ds).length : Int)
      ∧ r.time.length = (non_blank ds).length ∧ r.span.length = (non_blank ds).length
      ∧ r.min.length = (non_blank ds).length ∧ r.max.length = (non_blank ds).length := by
  obtain ⟨vn, h⟩ := parse_b_file_wf libc mem hs dim ds hok hnd hd hnv hlen hm
  exact ⟨_, h, rfl, rfl, by simp, by simp, by simp, by simp⟩

set_option maxRecDepth 100000 in
/-- C2 on the sample of the specification: 2 header lines, `i/jdm = 4 3` and 3 `airtmp:`
data lines give `t_len = 3` and series of 3 elements. -/
theorem parse_b_file_time_len_witness :
    ∃ r, parse_b_file demo_libc zero_mem demo_b_file = some r
      ∧ r.ret = NC_NOERR ∧ r.t_len = 3 ∧ r.time.length = 3 := by
  obtain ⟨r, h1, h2, h3, h4, _⟩ := parse_b_file_time_len demo_libc zero_mem demo_headers
    demo_dim demo_data (by decide) (by decide) (by decide) (by decide) (by decide) rfl
  have hn : (non_blank demo_data).length = 3 := by decide
  rw [hn] at h3 h4
  exact ⟨r, h1, h2, by simpa using h3, h4⟩

set_option maxRecDepth 100000 in
/-- C2 as stated fails on its own sample: the text with 2 header lines, the line
`i/jdm = 4 3` and 3 `airtmp:` data lines with time values 0, 1, 2 is parsed to
`t_len = 3` (not 2) and the time series `[0, 1, 2]` (not `[0, 1]`), with `i_len = 4`,
`j_len = 3`. -/
theorem parse_b_file_sample_counterexample :
    (parse_b_file demo_libc zero_mem demo_b_file).map (fun r => r.ret) = some NC_NOERR
    ∧ (parse_b_file demo_libc zero_mem demo_b_file).map (fun r => r.t_len) = some 3
    ∧ (parse_b_file demo_libc zero_mem demo_b_file).map (fun r => r.i_len) = some (some 4)
    ∧ (parse_b_file demo_libc zero_mem demo_b_file).map (fun r => r.j_len) = some (some 3)
    ∧ (parse_b_file demo_libc zero_mem demo_b_file).map (fun r => r.time)
        = some [some (f32_of_nat 0), some (f32_of_nat 1), some (f32_of_nat 2)]
    ∧ (parse_b_file demo_libc zero_mem demo_b_file).map (fun r => r.t_len) ≠ some 2
    ∧ (parse_b_file demo_libc zero_mem demo_b_file).map (fun r => r.time)
        ≠ some [some (f32_of_nat 0), some (f32_of_nat 1)] := by
  decide

/-- C7 (amended): for a well-formed `.b` text (as in C2) and a successful allocation,
`parse_b_file` returns `NC_NOERR` and, for every `k`, the `k`-th non-blank line after the
dimension line has what `sscanf` `%f` reads from its space-delimited tokens 3, 4, 5 and 6
stored as `time[k]`, `span[k]`, `min[k]` and `max[k]` (an element whose token is missing
or does not scan stays unset); blank lines do not advance `k`. -/
theorem parse_b_file_series (libc : Libc) (mem : Uninit) (hs : List (List Char))
    (dim : List Char) (ds : List (List Char))
    (hok : ∀ l ∈ hs ++ dim :: ds, line_ok l = true)
    (hnd : ∀ l ∈ hs, is_dim_line l = false)
    (hd : is_dim_line dim = true)
    (hnv : ∀ l ∈ ds, is_blank l = true ∨ names_var l = true)
    (hlen : (unlines (hs ++ dim :: ds)).length < 2 ^ 31)
    (hm : libc.malloc_ok (4 * (non_blank ds).length) = true) :
    ∃ r, parse_b_file libc mem (unlines (hs ++ dim :: ds)) = some r
      ∧ r.ret = NC_NOERR
      ∧ r.time = (non_blank ds).map (scanned libc.scan_f 3)
      ∧ r.span = (non_blank ds).map (scanned libc.scan_f 4)
      ∧ r.min = (non_blank ds).map (scanned libc.scan_f 5)
      ∧ r.max = (non_blank ds).map (scanned libc.scan_f 6)
      ∧ ∀ (k : Nat) (l : List Char), (non_blank ds).get? k = some l →
          r.time.get? k = some (((line_toks l).get? 3).bind libc.scan_f)
          ∧ r.span.get? k = some (((line_toks l).get? 4).bind libc.scan_f)
          ∧ r.min.get? k = some (((line_toks l).get? 5).bind libc.scan_f)
          ∧ r.max.get? k = some (((line_toks l).get? 6).bind libc.scan_f) := by
  obtain ⟨vn, h⟩ := parse_b_file_wf libc mem hs dim ds hok hnd hd hnv hlen hm
  refine ⟨_, h, rfl, rfl, rfl, rfl, rfl, ?_⟩
  intro k l hk
  simp only [List.get?_eq_getElem?, List.getElem?_map] at hk ⊢
  simp [hk, scanned]

set_option maxRecDepth 100000 in
/-- C7 on the sample: the three data lines give time `[0, 1, 2]`, span `[1, 1, 1]`,
min `[2, 2, 2]` and max `[3, 3, 3]`. -/
theorem parse_b_file_series_witness :
    ∃ r, parse_b_file demo_libc zero_mem demo_b_file = some r
      ∧ r.time = [some (f32_of_nat 0), some (f32_of_nat 1), some (f32_of_nat 2)]
      ∧ r.span = [some (f32_of_nat 1), some (f32_of_nat 1), some (f32_of_nat 1)]
      ∧ r.min = [some (f32_of_nat 2), some (f32_of_nat 2), some (f32_of_nat 2)]
      ∧ r.max = [some (f32_of_nat 3), some (f32_of_nat 3), some (f32_of_nat 3)] := by
  obtain ⟨r, h1, _, h3, h4, h5, h6, _⟩ := parse_b_file_series demo_libc zero_mem demo_headers
    demo_dim demo_data (by decide) (by decide) (by decide) (by decide) (by decide) rfl
  refine ⟨r, h1, ?_, ?_, ?_, ?_⟩
  · rw [h3]; decide
  · rw [h4]; decide
  · rw [h5]; decide
  · rw [h6]; decide

set_option maxRecDepth 100000 in
/-- C7 as stated fails: a data line whose fields are separated by tabs has the
white-space-delimited tokens `0`, `1`, `2`, `3` at positions 3 to 6, but the code cuts
tokens at spaces only, finds one token and stores nothing (`time[0]` stays unset); and
a data line whose first token has no colon gives no result at all (`strlen` is applied
to the NULL that `index` returns). -/
theorem parse_b_file_series_counterexample :
    ((spec_ws_tokens "airtmp:\tdate,span,range\t=\t0\t1\t2\t3\n".toList).get? 3 = some "0".toList
      ∧ demo_scan_f "0".toList = some (f32_of_nat 0)
      ∧ (parse_b_file demo_libc zero_mem tab_data_b_file).map (fun r => r.ret) = some NC_NOERR
      ∧ (parse_b_file demo_libc zero_mem tab_data_b_file).map (fun r => r.t_len) = some 1
      ∧ (parse_b_file demo_libc zero_mem tab_data_b_file).map (fun r => r.time) = some [none]
      ∧ (parse_b_file demo_libc zero_mem tab_data_b_file).map (fun r => r.span) = some [none]
      ∧ (parse_b_file demo_libc zero_mem tab_data_b_file).map (fun r => r.min) = some [none]
      ∧ (parse_b_file demo_libc zero_mem tab_data_b_file).map (fun r => r.max) = some [none])
    ∧ parse_b_file demo_libc zero_mem no_colon_b_file = none := by
  decide

theorem dim_val_short (g tok : List Char) (h : tok.length < 10) : dim_val g (some tok) = tok := by
  have h2 : tok.length < SION_MAX_DIM_DIGITS := h
  simp only [dim_val, h2, if_true]

/-- C8 (amended): for every line that begins with `i/jdm =` (at most 79 characters, no
NUL) whose tokens 2 and 3, delimited by space characters only, are shorter than 10
characters and are converted by `%d` to `i` and `j`, the first loop sets `i_len = i`
and `j_len = j`, ends header mode, counts the line as the first non-header line and
leaves the stored header lines unchanged; for a well-formed text with that dimension
line `parse_b_file` returns `i_len = i`, `j_len = j` and stores header lines from the
lines before it only. -/
theorem dimension_line_sets_extents (libc : Libc) (mem : Uninit) (hs : List (List Char))
    (dim : List Char) (ds : List (List Char)) (tok2 tok3 : List Char) (i j : Int)
    (hok : ∀ l ∈ hs ++ dim :: ds, line_ok l = true)
    (hnd : ∀ l ∈ hs, is_dim_line l = false)
    (hd : is_dim_line dim = true)
    (hnv : ∀ l ∈ ds, is_blank l = true ∨ names_var l = true)
    (hlen : (unlines (hs ++ dim :: ds)).length < 2 ^ 31)
    (hm : libc.malloc_ok (4 * (non_blank ds).length) = true)
    (h2 : (line_toks dim).get? 2 = some tok2) (h3 : (line_toks dim).get? 3 = some tok3)
    (hs2 : tok2.length < 10) (hs3 : tok3.length < 10)
    (hi : libc.scan_d tok2 = some i) (hj : libc.scan_d tok3 = some j) :
    (∀ st : Pass1, pass1_line libc mem st (dim ++ ['\n']) = some
        { st with
          pos := st.pos + (dim.length + 1)
          i_len := some i
          j_len := some j
          header := false
          time_start_pos :=
            if st.time_start_pos = 0 then st.pos + (dim.length + 1) else st.time_start_pos
          t_len := st.t_len + 1 })
    ∧ ∃ r, parse_b_file libc mem (unlines (hs ++ dim :: ds)) = some r
        ∧ r.ret = NC_NOERR ∧ r.i_len = some i ∧ r.j_len = some j
        ∧ r.header_att = header_texts mem.hdr 0 hs
        ∧ r.num_header_atts = (header_texts mem.hdr 0 hs).length := by
  have hokd : line_ok dim = true := hok dim (List.mem_append_right _ (List.mem_cons_self _ _))
  have e2 : ∀ old, sscanf_store libc.scan_d (dim_val mem.i_val ((line_toks dim).get? 2)) old
      = some i := by
    intro old; rw [h2, dim_val_short _ _ hs2]; simp only [sscanf_store, hi]
  have e3 : ∀ old, sscanf_store libc.scan_d (dim_val mem.j_val ((line_toks dim).get? 3)) old
      = some j := by
    intro old; rw [h3, dim_val_short _ _ hs3]; simp only [sscanf_store, hj]
  constructor
  · intro st
    rw [pass1_line_dim libc mem st dim hokd hd, e2, e3]
  · obtain ⟨vn, h⟩ := parse_b_file_wf libc mem hs dim ds hok hnd hd hnv hlen hm
    rw [e2, e3] at h
    exact ⟨_, h, rfl, rfl, rfl, rfl, rfl⟩

set_option maxRecDepth 100000 in
/-- C8 on the sample: the line `i/jdm = 4 3` gives `i_len = 4`, `j_len = 3`, and the two
lines before it are the stored header lines. -/
theorem dimension_line_witness :
    ∃ r, parse_b_file demo_libc zero_mem demo_b_file = some r
      ∧ r.i_len = some 4 ∧ r.j_len = some 3 ∧ r.num_header_atts = 2 := by
  obtain ⟨r, h1, _, h3, h4, h5, h6⟩ := (dimension_line_sets_extents demo_libc zero_mem
    demo_headers demo_dim demo_data "4".toList "3\n".toList 4 3 (by decide) (by decide)
    (by decide) (by decide) (by decide) rfl (by decide) (by decide) (by decide) (by decide)
    (by decide) (by decide)).2
  refine ⟨r, h1, h3, h4, ?_⟩
  rw [h6]; decide

set_option maxRecDepth 100000 in
/-- C8 as stated fails: in `i/jdm = 4<TAB>3 7` the white-space-delimited token 3 is `3`,
but the code cuts tokens at spaces only and sets `j_len = 7`; in
`i/jdm = 00000000042 3` the token 2 is the decimal integer 42, but only 10 characters
are copied and `i_len` becomes 4. -/
theorem dimension_line_counterexample :
    ((spec_ws_tokens "i/jdm = 4\t3 7\n".toList).get? 3 = some "3".toList
      ∧ sscanf_d "3".toList = some 3
      ∧ (parse_b_file demo_libc zero_mem tab_dim_b_file).map (fun r => r.ret) = some NC_NOERR
      ∧ (parse_b_file demo_libc zero_mem tab_dim_b_file).map (fun r => r.j_len)
          = some (some 7))
    ∧ ((spec_ws_tokens "i/jdm = 00000000042 3\n".toList).get? 2 = some "00000000042".toList
      ∧ sscanf_d "00000000042".toList = some 42
      ∧ (parse_b_file demo_libc zero_mem long_dim_b_file).map (fun r => r.ret) = some NC_NOERR
      ∧ (parse_b_file demo_libc zero_mem long_dim_b_file).map (fun r => r.i_len)
          = some (some 4)) := by
  decide

/-! ## Header lines: the array `hdr` is copied into without a terminator -/

theorem dropWhile_append_cons_neg (p : Char → Bool) (u v : List Char) (c : Char)
    (hc : p c = false) : (u ++ c :: v).dropWhile p = u.dropWhile p ++ c :: v := by
  induction u with
  | nil => simp [List.dropWhile, hc]
  | cons x u ih =>
    rw [List.cons_append, List.dropWhile_cons, List.dropWhile_cons, ih]
    by_cases hx : p x = true
    · simp [hx]
    · simp [hx]

theorem rstrip_append_cons (a b : List Char) (c : Char) (hc : isspace c = false) :
    ((a ++ c :: b).reverse.dropWhile isspace).reverse
      = a ++ c :: (b.reverse.dropWhile isspace).reverse := by
  have h : (a ++ c :: b).reverse = b.reverse ++ c :: a.reverse := by simp
  rw [h, dropWhile_append_cons_neg _ _ _ _ hc]
  simp

theorem isspace_ne_nul (ch : Char) (h : isspace ch = true) : ch ≠ NUL := by
  intro e
  rw [e] at h
  revert h
  decide

theorem cstr_core (sp m x : List Char) (f c : Char) (hsp : ∀ ch ∈ sp, isspace ch = true)
    (hn : ∀ ch ∈ f :: (m ++ [c]), ch ≠ NUL) :
    cstr (sp ++ f :: (m ++ c :: x)) = sp ++ f :: (m ++ c :: cstr x) := by
  have e : sp ++ f :: (m ++ c :: x) = (sp ++ f :: (m ++ [c])) ++ x := by simp
  rw [e, cstr_append_of_no_nul]
  · simp
  · intro ch hch
    rcases List.mem_append.1 hch with h | h
    · exact isspace_ne_nul ch (hsp ch h)
    · exact hn ch h

/-- The string that `trim` leaves when the buffer holds white space `sp`, then
a text from `f` to `c` (neither of them white space), then the bytes `x`: the
text runs on into `x` up to its first NUL. -/
theorem trim_cstr_core (sp m x : List Char) (f c : Char) (hsp : ∀ ch ∈ sp, isspace ch = true)
    (hf : isspace f = false) (hc : isspace c = false)
    (hn : ∀ ch ∈ f :: (m ++ [c]), ch ≠ NUL) :
    trim (cstr (sp ++ f :: (m ++ c :: x)))
      = some (f :: (m ++ c :: ((cstr x).reverse.dropWhile isspace).reverse)) := by
  rw [cstr_core sp m x f c hsp hn]
  have e : sp ++ f :: (m ++ c :: cstr x) = (sp ++ f :: m) ++ c :: cstr x := by simp
  unfold trim
  simp only []
  rw [e, rstrip_append_cons _ _ _ hc]
  have e2 : (sp ++ f :: m) ++ c :: ((cstr x).reverse.dropWhile isspace).reverse
      = sp ++ (f :: (m ++ c :: ((cstr x).reverse.dropWhile isspace).reverse)) := by simp
  rw [e2, if_neg (by simp), dropWhile_of_all _ _ _ hsp]
  simp [List.dropWhile, hf]

theorem core_append (f c : Char) (m a b : List Char) :
    ∃ y, (f :: (m ++ c :: a)) ++ b = f :: (m ++ c :: y) := ⟨a ++ b, by simp⟩

/-- The bytes that `trim` leaves in the buffer begin with the trimmed text. -/
theorem trim_mem_core (m x : List Char) (f c : Char)
    (hf : isspace f = false) (hc : isspace c = false)
    (hn : ∀ ch ∈ f :: (m ++ [c]), ch ≠ NUL) :
    ∃ y, trim_mem (f :: (m ++ c :: x)) = f :: (m ++ c :: y) := by
  have h1 := cstr_core [] m x f c (fun _ h => absurd h (List.not_mem_nil _)) hn
  simp only [List.nil_append] at h1
  have e : f :: (m ++ c :: cstr x) = (f :: m) ++ c :: cstr x := by simp
  have hr : ((cstr (f :: (m ++ c :: x))).reverse.dropWhile isspace).reverse.dropWhile isspace
      = f :: (m ++ c :: ((cstr x).reverse.dropWhile isspace).reverse) := by
    rw [h1, e, rstrip_append_cons _ _ _ hc, List.cons_append, List.dropWhile_cons]
    simp [hf]
  unfold trim_mem
  simp only []
  rw [hr]
  exact core_append f c m _ _

/-- The header entries stored for the two header lines of the sample text,
whatever the array `hdr` holds at first: the second entry runs on into the
last four characters of the first. -/
theorem sample_header_texts (junk : List Char) :
    ∃ z1 z2, header_texts junk 0 demo_headers
      = ["ATMOSPHERIC FORCING".toList ++ z1, "sample grid  CING".toList ++ z2] := by
  have hA : "ATMOSPHERIC FORCING".toList = 'A' :: ("TMOSPHERIC FORCIN".toList ++ 'G' :: []) :=
    rfl
  have hnA : ∀ ch ∈ 'A' :: ("TMOSPHERIC FORCIN".toList ++ ['G']), ch ≠ NUL := by decide
  have hnB : ∀ ch ∈ 's' :: ("ample grid  CIN".toList ++ ['G']), ch ≠ NUL := by decide
  have hsp : ∀ ch ∈ "  ".toList, isspace ch = true := by decide
  -- the first header line
  have t1 := trim_cstr_core [] "TMOSPHERIC FORCIN".toList (junk.drop 19) 'A' 'G'
    (fun _ h => absurd h (List.not_mem_nil _)) (by decide) (by decide) hnA
  obtain ⟨y, m1⟩ := trim_mem_core "TMOSPHERIC FORCIN".toList (junk.drop 19) 'A' 'G'
    (by decide) (by decide) hnA
  -- the second header line
  have t2 := trim_cstr_core "  ".toList "ample grid  CIN".toList y 's' 'G' hsp (by decide)
    (by decide) hnB
  have hl1 : "ATMOSPHERIC FORCING".toList.length = 19 := by decide
  have hl2 : "  sample grid  ".toList.length = 15 := by decide
  have e1 : "ATMOSPHERIC FORCING".toList ++ junk.drop 19
      = [] ++ 'A' :: ("TMOSPHERIC FORCIN".toList ++ 'G' :: junk.drop 19) := rfl
  have e1m : "ATMOSPHERIC FORCING".toList ++ junk.drop 19
      = 'A' :: ("TMOSPHERIC FORCIN".toList ++ 'G' :: junk.drop 19) := rfl
  have e2 : "  sample grid  ".toList
        ++ ('A' :: ("TMOSPHERIC FORCIN".toList ++ 'G' :: y)).drop 15
      = "  ".toList ++ 's' :: ("ample grid  CIN".toList ++ 'G' :: y) := rfl
  have ht1 : header_text junk "ATMOSPHERIC FORCING".toList
      = ("ATMOSPHERIC FORCING".toList
          ++ ((cstr (junk.drop 19)).reverse.dropWhile isspace).reverse).take MAX_B_LINE_LEN := by
    unfold header_text
    rw [hl1, e1, t1]
    rfl
  have hm1 : header_mem junk "ATMOSPHERIC FORCING".toList
      = 'A' :: ("TMOSPHERIC FORCIN".toList ++ 'G' :: y) := by
    unfold header_mem
    rw [hl1, e1m, m1]
  have ht2 : header_text ('A' :: ("TMOSPHERIC FORCIN".toList ++ 'G' :: y))
        "  sample grid  ".toList
      = ("sample grid  CING".toList
          ++ ((cstr y).reverse.dropWhile isspace).reverse).take MAX_B_LINE_LEN := by
    unfold header_text
    rw [hl2, e2, t2]
    rfl
  have hx : header_texts junk 0 demo_headers
      = [header_text junk "ATMOSPHERIC FORCING".toList,
          header_text (header_mem junk "ATMOSPHERIC FORCING".toList)
            "  sample grid  ".toList] := by
    have hb1 : is_blank "ATMOSPHERIC FORCING".toList = false := by decide
    have hb2 : is_blank "  sample grid  ".toList = false := by decide
    have hk0 : (0 : Nat) < MAX_HEADER_ATTS := by decide
    have hk1 : (0 + 1 : Nat) < MAX_HEADER_ATTS := by decide
    unfold demo_headers
    simp only [header_texts, hb1, hb2, Bool.false_eq_true, if_false, hk0, hk1, if_true]
  rw [hx, hm1, ht1, ht2, List.take_append_eq_append_take, List.take_append_eq_append_take,
    List.take_of_length_le (by decide : "ATMOSPHERIC FORCING".toList.length ≤ MAX_B_LINE_LEN),
    List.take_of_length_le (by decide : "sample grid  CING".toList.length ≤ MAX_B_LINE_LEN)]
  exact ⟨_, _, rfl⟩

set_option maxRecDepth 100000 in
/-- C9 (code defect): the header lines stored are not the trimmed lines.  On the sample
text, whose header lines are `ATMOSPHERIC FORCING` and `  sample grid  `, read with
zero-filled arrays, `parse_b_file` returns `NC_NOERR` and stores the second header line
as `sample grid  CING` (and the header lines `abcdefgh`, `xy` as `abcdefgh`,
`xycdefgh`); and whatever the arrays hold at first, with the allocation of 12
bytes succeeding, it returns `NC_NOERR` with two header entries of which the second
begins with `sample grid  CING`, never the trimmed line `sample grid`.  The copy
`strncpy(hdr, line, strlen(line) - 1)` writes no terminator, so the string that `trim`
sees runs on into the bytes that the previous header line left in `hdr`. -/
theorem parse_b_file_header_runs_on :
    ((parse_b_file demo_libc zero_mem demo_b_file).map (fun r => r.ret) = some NC_NOERR
      ∧ (parse_b_file demo_libc zero_mem demo_b_file).map (fun r => r.header_att)
          = some ["ATMOSPHERIC FORCING".toList, "sample grid  CING".toList]
      ∧ (parse_b_file demo_libc zero_mem demo_b_file).map (fun r => r.header_att)
          ≠ some (demo_headers.map strip)
      ∧ demo_headers.map strip = ["ATMOSPHERIC FORCING".toList, "sample grid".toList]
      ∧ (parse_b_file demo_libc zero_mem two_header_b_file).map (fun r => r.header_att)
          = some ["abcdefgh".toList, "xycdefgh".toList])
    ∧ ∀ (libc : Libc) (mem : Uninit), libc.malloc_ok 12 = true →
        ∃ r z1 z2, parse_b_file libc mem demo_b_file = some r
          ∧ r.ret = NC_NOERR ∧ r.num_header_atts = 2
          ∧ r.header_att
              = ["ATMOSPHERIC FORCING".toList ++ z1, "sample grid  CING".toList ++ z2]
          ∧ r.header_att ≠ demo_headers.map strip := by
  refine ⟨by decide, ?_⟩
  intro libc mem hm
  have hm2 : libc.malloc_ok (4 * (non_blank demo_data).length) = true := by
    have e : 4 * (non_blank demo_data).length = 12 := by decide
    rw [e]; exact hm
  obtain ⟨vn, h⟩ := parse_b_file_wf libc mem demo_headers demo_dim demo_data (by decide)
    (by decide) (by decide) (by decide) (by decide) hm2
  obtain ⟨z1, z2, hz⟩ := sample_header_texts mem.hdr
  rw [hz] at h
  have hs : demo_headers.map strip = ["ATMOSPHERIC FORCING".toList, "sample grid".toList] := by
    decide
  refine ⟨_, z1, z2, h, rfl, rfl, rfl, ?_⟩
  rw [hs]
  intro hc
  simp only [List.cons.injEq, and_true] at hc
  have h2 := congrArg List.length hc.2
  simp at h2

set_option maxRecDepth 100000 in
/-- C9 on the sample with zero-filled arrays and the sample library: the second header
entry is `sample grid  CING`. -/
theorem parse_b_file_header_runs_on_witness :
    demo_libc.malloc_ok 12 = true
    ∧ ∃ r, parse_b_file demo_libc zero_mem demo_b_file = some r
        ∧ r.ret = NC_NOERR
        ∧ r.header_att.get? 1 = some "sample grid  CING".toList := by
  refine ⟨rfl, ?_⟩
  obtain ⟨r, z1, z2, h1, h2, _, h4, _⟩ :=
    (parse_b_file_header_runs_on).2 demo_libc zero_mem rfl
  refine ⟨r, h1, h2, ?_⟩
  have hd : (parse_b_file demo_libc zero_mem demo_b_file).map (fun r => r.header_att)
      = some ["ATMOSPHERIC FORCING".toList, "sample grid  CING".toList] := by decide
  rw [h1] at hd
  simp only [Option.map_some', Option.some.injEq] at hd
  rw [hd]
  rfl

/-! ## The line loop reads the whole text -/

theorem fgets_aux_append (n : Nat) (rest : List Char) :
    (fgets_aux n rest).1 ++ (fgets_aux n rest).2 = rest := by
  induction n generalizing rest with
  | zero => simp [fgets_aux]
  | succ n ih =>
    cases rest with
    | nil => simp [fgets_aux]
    | cons c rest =>
      by_cases hc : c = '\n'
      · simp [fgets_aux, hc]
      · simp [fgets_aux, hc, ih rest]

theorem fgets_aux_consumes (n : Nat) (c : Char) (rest : List Char) :
    (fgets_aux (n + 1) (c :: rest)).2.length ≤ rest.length := by
  have h := congrArg List.length (fgets_aux_append n rest)
  by_cases hc : c = '\n'
  · simp [fgets_aux, hc]
  · simp only [fgets_aux, hc, if_false]
    simp only [List.length_append] at h
    omega

theorem fgets_all_flatten (fuel : Nat) (rest : List Char) (h : rest.length ≤ fuel) :
    (fgets_all fuel rest).flatten = rest := by
  induction fuel generalizing rest with
  | zero =>
    have : rest = [] := List.length_eq_zero.1 (by omega)
    subst this
    rfl
  | succ fuel ih =>
    cases rest with
    | nil => simp [fgets_all, fgets]
    | cons c rest =>
      have h1 := fgets_aux_consumes (MAX_B_LINE_LEN + 1 - 1 - 1) c rest
      have h2 := fgets_aux_append (MAX_B_LINE_LEN + 1 - 1) (c :: rest)
      have e : MAX_B_LINE_LEN + 1 - 1 - 1 + 1 = MAX_B_LINE_LEN + 1 - 1 := rfl
      rw [e] at h1
      simp only [fgets_all, fgets, List.flatten_cons]
      rw [ih _ (by simp only [List.length_cons] at h; omega)]
      exact h2

/-! ## Opening a file: the extension check -/

theorem rindex_suffix (s : List Char) (c : Char) (d : List Char) (h : rindex s c = some d) :
    d <:+ s := by
  induction s with
  | nil => simp [rindex] at h
  | cons x xs ih =>
    simp only [rindex] at h
    cases hr : rindex xs c with
    | some r =>
      rw [hr] at h
      have : r = d := by simpa using h
      subst this
      exact (ih hr).trans (List.suffix_cons x xs)
    | none =>
      rw [hr] at h
      by_cases hx : x = c
      · simp only [hx, if_true, Option.some.injEq] at h
        subst hx
        rw [← h]
      · simp [hx] at h

theorem rindex_dot_b (pre : List Char) : rindex (pre ++ ".b".toList) '.' = some ".b".toList := by
  induction pre with
  | nil => decide
  | cons x pre ih =>
    have h : rindex (x :: (pre ++ ".b".toList)) '.' = some ".b".toList := by
      unfold rindex
      rw [ih]
    exact h

theorem rindex_dot_b_iff (path : List Char) :
    rindex path '.' = some ".b".toList ↔ ".b".toList <:+ path := by
  constructor
  · exact rindex_suffix path '.' _
  · rintro ⟨pre, rfl⟩
    exact rindex_dot_b pre

theorem set_last_dot_b (pre : List Char) :
    (pre ++ ".b".toList).set ((pre ++ ".b".toList).length - 1) 'a' = pre ++ ".a".toList := by
  induction pre with
  | nil => rfl
  | cons x pre ih =>
    have h1 : (x :: (pre ++ ".b".toList)).length - 1
        = ((pre ++ ".b".toList).length - 1) + 1 := by
      simp
    rw [List.cons_append, h1, List.set_cons_succ, ih]
    rfl

theorem dropLast_dot_b (pre : List Char) :
    (pre ++ ".b".toList).dropLast ++ ['a'] = pre ++ ".a".toList := by
  have : pre ++ ".b".toList = (pre ++ ['.']) ++ ['b'] := by simp
  rw [this, List.dropLast_concat]
  simp

theorem a_path_eq (path : List Char) (h : ".b".toList <:+ path) :
    path.set (path.length - 1) 'a' = path.dropLast ++ ['a'] := by
  obtain ⟨pre, rfl⟩ := h
  rw [set_last_dot_b, dropLast_dot_b]

theorem ab_open_file_a_path (env : OpenEnv) (path : List Char) (h : ".b".toList <:+ path)
    (r : OpenResult) (hr : ab_open_file env path = some r) (ap : List Char)
    (hap : r.a_path = some ap) : ap = path.dropLast ++ ['a'] := by
  have hri := (rindex_dot_b_iff path).2 h
  have hne : ¬ (".b".toList ≠ ".b".toList) := by simp
  unfold ab_open_file at hr
  simp only [hri, hne, if_false, a_path_eq path h] at hr
  revert hr
  split_ifs
  · intro hr; cases hr; simp at hap
  · intro hr; cases hr; simpa using hap.symm
  · intro hr; cases hr; simpa using hap.symm
  · intro hr
    cases ha : env.fopen_a (path.dropLast ++ ['a']) with
    | none => rw [ha] at hr; cases hr; simpa using hap.symm
    | some af =>
      rw [ha] at hr
      simp only at hr
      cases hb : env.fopen_b path with
      | none => rw [hb] at hr; cases hr; simpa using hap.symm
      | some bf =>
        rw [hb] at hr
        simp only at hr
        cases hp : parse_b_file env.libc env.mem bf with
        | none => rw [hp] at hr; cases hr
        | some p =>
          rw [hp] at hr
          simp only at hr
          revert hr
          split_ifs
          · intro hr; cases hr; simpa using hap.symm
          · cases hbd : ab_build env p with
            | none => intro hr; cases hr
            | some b => intro hr; cases hr; simpa using hap.symm

/-- C11: for every path, the extension check of `ab_open_file` (the part of the path
from its last dot on equals `.b`) passes exactly when the path ends in `.b`; when it
does not pass, `ab_open_file` returns `NC_EINVAL` with no file opened and nothing
registered; when it passes, the derived `.a` path, once it exists, is the path with its
last character replaced by `a` (same length, same characters before the last, ending in
`.a`), and that is the path given to the first `fopen`. -/
theorem ab_open_file_extension (env : OpenEnv) (path : List Char) :
    (rindex path '.' = some ".b".toList ↔ ".b".toList <:+ path)
    ∧ (¬ ".b".toList <:+ path →
        ab_open_file env path = some
          { ret := NC_EINVAL, a_path := none, registered := false, opened := [],
            meta := FileMeta.empty })
    ∧ (".b".toList <:+ path → ∀ r, ab_open_file env path = some r → ∀ ap, r.a_path = some ap →
        ap = path.dropLast ++ ['a'] ∧ ap.length = path.length
          ∧ ap.dropLast = path.dropLast ∧ ".a".toList <:+ ap)
    ∧ (".b".toList <:+ path → env.libc.malloc_ok ((path.length + 1) % SIZE_MOD) = true →
        env.list_add = NC_NOERR → env.libc.malloc_ok 16 = true →
        env.fopen_a (path.dropLast ++ ['a']) = none →
        ab_open_file env path = some
          { ret := NC_EIO, a_path := some (path.dropLast ++ ['a']), registered := true,
            opened := [path.dropLast ++ ['a']], meta := FileMeta.empty }) := by
  refine ⟨rindex_dot_b_iff path, ?_, ?_, ?_⟩
  · intro hn
    have hri : ¬ rindex path '.' = some ".b".toList := fun h => hn ((rindex_dot_b_iff path).1 h)
    unfold ab_open_file
    cases hr : rindex path '.' with
    | none => rfl
    | some d =>
      have hd : d ≠ ".b".toList := by
        intro hd; rw [hr, hd] at hri; exact hri rfl
      simp only [hd, ne_eq, not_false_eq_true, if_true]
  · intro h r hr ap hap
    have e := ab_open_file_a_path env path h r hr ap hap
    obtain ⟨pre, rfl⟩ := h
    rw [dropLast_dot_b] at e
    subst e
    refine ⟨(dropLast_dot_b pre).symm, by simp, ?_, ⟨pre, rfl⟩⟩
    have e1 : pre ++ ".a".toList = (pre ++ ['.']) ++ ['a'] := by simp
    have e2 : pre ++ ".b".toList = (pre ++ ['.']) ++ ['b'] := by simp
    rw [e1, e2, List.dropLast_concat, List.dropLast_concat]
  · intro h hm hl hm2 hf
    have hri := (rindex_dot_b_iff path).2 h
    have hne : ¬ (".b".toList ≠ ".b".toList) := by simp
    unfold ab_open_file
    simp only [hri, hne, if_false, a_path_eq path h, hm, hl, hm2, hf, Bool.not_true,
      Bool.false_eq_true, ne_eq, not_true_eq_false]

/-- C11 on the path of the repository's test, `surtmp_100l.b`: the `.a` file is looked
for under `surtmp_100l.a`, and a path without the extension is refused. -/
theorem ab_open_file_extension_witness :
    ab_open_file no_files_env "surtmp_100l.b".toList = some
        { ret := NC_EIO, a_path := some "surtmp_100l.a".toList, registered := true,
          opened := ["surtmp_100l.a".toList], meta := FileMeta.empty }
    ∧ ab_open_file no_files_env "surtmp_100l.a".toList = some
        { ret := NC_EINVAL, a_path := none, registered := false, opened := [],
          meta := FileMeta.empty } := by
  have h := ab_open_file_extension no_files_env "surtmp_100l.b".toList
  have h2 := ab_open_file_extension no_files_env "surtmp_100l.a".toList
  refine ⟨?_, h2.2.1 (by decide)⟩
  have h3 := h.2.2.2 (by decide) rfl rfl rfl rfl
  rw [h3]
  decide

/-! ## Global attributes -/

theorem att_name_short : ∀ k, k < 10 → (att_name k).length ≤ NC_MAX_NAME := by decide

theorem header_row_cstr (e : List Char) (rest : List Char) (h1 : e.length < MAX_B_LINE_LEN)
    (h2 : ∀ c ∈ e, c ≠ NUL) : cstr (header_row e ++ rest) = e := by
  unfold header_row
  rw [List.take_of_length_le (le_of_lt h1), List.append_assoc, cstr_append_of_no_nul _ _ h2]
  obtain ⟨m, hm⟩ : ∃ m, MAX_B_LINE_LEN - e.length = m + 1 :=
    ⟨MAX_B_LINE_LEN - e.length - 1, by omega⟩
  rw [hm, List.replicate_succ]
  simp [cstr, List.takeWhile]

theorem header_string_eq (hs : List (List Char)) (hlen : ∀ l ∈ hs, l.length < MAX_B_LINE_LEN)
    (hnul : ∀ l ∈ hs, ∀ c ∈ l, c ≠ NUL) (a : Nat) (ha : a < hs.length) :
    header_string hs a = hs.getD a [] := by
  induction hs generalizing a with
  | nil => simp at ha
  | cons l hs ih =>
    cases a with
    | zero =>
      simp only [header_string, List.drop_zero, List.map_cons, List.flatten_cons,
        List.getD_cons_zero]
      exact header_row_cstr l _ (hlen l (List.mem_cons_self _ _)) (hnul l (List.mem_cons_self _ _))
    | succ a =>
      have := ih (fun x hx => hlen x (List.mem_cons_of_mem _ hx))
        (fun x hx => hnul x (List.mem_cons_of_mem _ hx)) a (by simpa using ha)
      simpa [header_string] using this

theorem add_ab_global_atts_loop_eq (malloc_ok : Nat → Bool) (hm : ∀ n, malloc_ok n = true)
    (hs : List (List Char)) (hlen : ∀ l ∈ hs, l.length < MAX_B_LINE_LEN)
    (hnul : ∀ l ∈ hs, ∀ c ∈ l, c ≠ NUL) :
    ∀ (m a : Nat) (tgt : AttList), a + m ≤ hs.length → a + m ≤ 10 →
      add_ab_global_atts_loop malloc_ok hs m a tgt
        = (NC_NOERR,
            { att := tgt.att ++ (List.range m).map
                (fun i => header_global_att (tgt.natts - a) hs (a + i)),
              natts := tgt.natts + m }) := by
  intro m
  induction m with
  | zero => intro a tgt _ _; simp [add_ab_global_atts_loop]
  | succ m ih =>
    intro a tgt h1 h2
    have hn := att_name_short a (by omega)
    have hn2 : ¬ (att_name a).length > NC_MAX_NAME := by omega
    have hstr := header_string_eq hs hlen hnul a (by omega)
    have hput : nc4_put_att malloc_ok tgt (att_name a) NC_CHAR (header_string hs a).length
        (.chars (header_string hs a))
        = (NC_NOERR, { att := tgt.att ++ [header_global_att (tgt.natts - a) hs a],
                       natts := tgt.natts + 1 }) := by
      simp [nc4_put_att, hn2, nc4_get_typelen_mem, NC_CHAR, hm, AttData.take,
        List.take_of_length_le hn, hstr, header_global_att]
    simp only [add_ab_global_atts_loop, hput, ne_eq, not_true_eq_false, if_false]
    rw [ih (a + 1) _ (by omega) (by omega)]
    simp only [List.range_succ_eq_map, List.map_cons, List.map_map, List.append_assoc,
      List.singleton_append, Nat.add_zero]
    have hf : (fun i => header_global_att (tgt.natts + 1 - ((a + 1 : Nat) : Int)) hs (a + 1 + i))
        = (fun i => header_global_att (tgt.natts - (a : Int)) hs (a + i)) ∘ Nat.succ := by
      funext i
      have e1 : tgt.natts + 1 - ((a + 1 : Nat) : Int) = tgt.natts - (a : Int) := by
        push_cast; omega
      have e2 : a + 1 + i = a + i.succ := by omega
      simp only [Function.comp, e1, e2]
    rw [hf]
    congr 2
    push_cast; omega

/-- C15: for every list of `n ≤ 10` header lines (C strings that fit a row of the header
array: fewer than 80 characters, no NUL) and successful allocations,
`add_ab_global_atts` returns `NC_NOERR` and appends exactly `n + 1` attributes: for each
`k < n` the attribute `att_k` of type `NC_CHAR` whose value is header line `k` and whose
length is the length of that line, then `Conventions` with the value `CF-1.0` of length
6; on a fresh file they are numbered `0..n` in this order. -/
theorem add_ab_global_atts_registers (malloc_ok : Nat → Bool) (hm : ∀ n, malloc_ok n = true)
    (tgt : AttList) (hs : List (List Char)) (hn : hs.length ≤ 10)
    (hlen : ∀ l ∈ hs, l.length < MAX_B_LINE_LEN) (hnul : ∀ l ∈ hs, ∀ c ∈ l, c ≠ NUL) :
    add_ab_global_atts malloc_ok tgt hs.length hs
      = (NC_NOERR,
          { att := tgt.att ++ (List.range hs.length).map (header_global_att tgt.natts hs)
                    ++ [conventions_att (tgt.natts + hs.length)],
            natts := tgt.natts + hs.length + 1 })
    ∧ (add_ab_global_atts malloc_ok { att := [], natts := 0 } hs.length hs).2.att.length
        = hs.length + 1
    ∧ (add_ab_global_atts malloc_ok { att := [], natts := 0 } hs.length hs).2.att.map
          (fun att => att.attnum)
        = (List.range (hs.length + 1)).map (fun (k : Nat) => (k : Int))
    ∧ (∀ k, k < hs.length →
        (add_ab_global_atts malloc_ok { att := [], natts := 0 } hs.length hs).2.att.get? k
          = some { name := "att_".toList ++ (Nat.repr k).toList, attnum := k,
                   nc_typeid := NC_CHAR, len := (hs.getD k []).length,
                   data := .chars (hs.getD k []) })
    ∧ (add_ab_global_atts malloc_ok { att := [], natts := 0 } hs.length hs).2.att.get? hs.length
        = some { name := "Conventions".toList, attnum := hs.length, nc_typeid := NC_CHAR,
                 len := 6, data := .chars "CF-1.0".toList } := by
  have key : ∀ tgt : AttList, add_ab_global_atts malloc_ok tgt hs.length hs
      = (NC_NOERR,
          { att := tgt.att ++ (List.range hs.length).map (header_global_att tgt.natts hs)
                    ++ [conventions_att (tgt.natts + hs.length)],
            natts := tgt.natts + hs.length + 1 }) := by
    intro tgt
    have hl := add_ab_global_atts_loop_eq malloc_ok hm hs hlen hnul hs.length 0 tgt
      (by omega) (by omega)
    have hc : ¬ CONVENTIONS.length > NC_MAX_NAME := by decide
    simp only [Nat.cast_zero, sub_zero, Nat.zero_add] at hl
    unfold add_ab_global_atts
    simp only [hl, ne_eq, not_true_eq_false, if_false]
    simp [nc4_put_att, hc, nc4_get_typelen_mem, NC_CHAR, hm, AttData.take, conventions_att,
      CF_VERSION, CONVENTIONS, NC_MAX_NAME, NC_NOERR]
  refine ⟨key tgt, ?_, ?_, ?_, ?_⟩
  · rw [key]; simp
  · rw [key]
    rw [List.range_succ, List.map_append]
    simp only [List.nil_append, List.map_append, List.map_map, List.map_cons, List.map_nil,
      zero_add]
    congr 1
    · apply List.map_congr_left
      intro k _
      simp [header_global_att]
  · intro k hk
    rw [key]
    simp only [List.nil_append, zero_add]
    rw [List.get?_eq_getElem?, List.getElem?_append_left (by simpa using hk)]
    simp [hk, header_global_att, att_name]
  · rw [key]
    simp only [List.nil_append, zero_add]
    rw [List.get?_eq_getElem?, List.getElem?_append_right (by simp)]
    simp [conventions_att, CONVENTIONS, CF_VERSION]

/-- C15 on the sample: the header lines `ATMOSPHERIC FORCING` and `sample grid` give
`att_0`, `att_1` and `Conventions`, numbered 0, 1, 2. -/
theorem add_ab_global_atts_witness :
    add_ab_global_atts malloc_always { att := [], natts := 0 } 2
        ["ATMOSPHERIC FORCING".toList, "sample grid".toList]
      = (NC_NOERR,
          { att := [ ⟨"att_0".toList, 0, NC_CHAR, 19, .chars "ATMOSPHERIC FORCING".toList⟩,
                     ⟨"att_1".toList, 1, NC_CHAR, 11, .chars "sample grid".toList⟩,
                     ⟨"Conventions".toList, 2, NC_CHAR, 6, .chars "CF-1.0".toList⟩ ],
            natts := 3 }) := by
  have h := (add_ab_global_atts_registers malloc_always (fun _ => rfl) { att := [], natts := 0 }
    ["ATMOSPHERIC FORCING".toList, "sample grid".toList] (by decide) (by decide)
    (by decide)).1
  simp only [List.length_cons, List.length_nil] at h
  rw [h]
  decide

/-! ## The region read makes no range check -/

theorem reverse_floats_length (bufr : List F32) (n : Nat) (h : bufr.length = n) :
    (reverse_floats bufr n).length = n := by
  rw [reverse_floats_eq_map]
  simp [h]

theorem get_vara_rows_result (malloc_ok : Nat → Bool) (a_file : AFile) (i_len : Int)
    (startp countp : Fin 3 → Nat) :
    ∀ (n j rec_pos : Nat) (st : VaraResult),
      ((get_vara_rows malloc_ok a_file i_len startp countp n j rec_pos st).ret = NC_NOERR
        ∨ (get_vara_rows malloc_ok a_file i_len startp countp n j rec_pos st).ret = NC_ENOMEM
        ∨ (get_vara_rows malloc_ok a_file i_len startp countp n j rec_pos st).ret = NC_EIO)
      ∧ ((get_vara_rows malloc_ok a_file i_len startp countp n j rec_pos st).ret = NC_NOERR →
          (get_vara_rows malloc_ok a_file i_len startp countp n j rec_pos st).data.length
            = st.data.length + n * countp 2) := by
  intro n
  induction n with
  | zero => intro j rec_pos st; simp [get_vara_rows]
  | succ n ih =>
    intro j rec_pos st
    simp only [get_vara_rows]
    split_ifs with h1 h2 h3
    · simp [NC_ENOMEM, NC_NOERR]
    · simp [ NC_EIO, NC_NOERR]
    · simp [ NC_EIO, NC_NOERR]
    · have h4 : (fread a_file ((rec_pos + to_size_t i_len * ((startp 1 + j) % SIZE_MOD)
          % SIZE_MOD * sizeof_float) % SIZE_MOD) (countp 2)).length = countp 2 := by
        simpa using h3
      obtain ⟨hc, hl⟩ := ih (j + 1) ((rec_pos + to_size_t i_len * ((startp 1 + j) % SIZE_MOD)
          % SIZE_MOD * sizeof_float) % SIZE_MOD)
        { ret := st.ret
          data := st.data ++ reverse_floats (fread a_file ((rec_pos + to_size_t i_len
            * ((startp 1 + j) % SIZE_MOD) % SIZE_MOD * sizeof_float) % SIZE_MOD) (countp 2))
              (countp 2)
          seeks := st.seeks ++ [to_long ((rec_pos + to_size_t i_len
            * ((startp 1 + j) % SIZE_MOD) % SIZE_MOD * sizeof_float) % SIZE_MOD)] }
      refine ⟨hc, fun h => ?_⟩
      rw [hl h]
      simp only [List.length_append, reverse_floats_length _ _ h4]
      ring

theorem get_vara_recs_result (malloc_ok : Nat → Bool) (a_file : AFile) (i_len : Int)
    (rl : Nat) (startp countp : Fin 3 → Nat) :
    ∀ (n : Nat) (st : VaraResult),
      ((get_vara_recs malloc_ok a_file i_len rl startp countp n st).ret = NC_NOERR
        ∨ (get_vara_recs malloc_ok a_file i_len rl startp countp n st).ret = NC_ENOMEM
        ∨ (get_vara_recs malloc_ok a_file i_len rl startp countp n st).ret = NC_EIO)
      ∧ ((get_vara_recs malloc_ok a_file i_len rl startp countp n st).ret = NC_NOERR →
          (get_vara_recs malloc_ok a_file i_len rl startp countp n st).data.length
            = st.data.length + n * (countp 1 * countp 2)) := by
  intro n
  induction n with
  | zero => intro st; simp [get_vara_recs]
  | succ n ih =>
    intro st
    obtain ⟨hc, hl⟩ := get_vara_rows_result malloc_ok a_file i_len startp countp (countp 1) 0
      (startp 0 * rl % SIZE_MOD) st
    simp only [get_vara_recs]
    split_ifs with h1
    · refine ⟨hc, fun h => absurd h h1⟩
    · have h2 : (get_vara_rows malloc_ok a_file i_len startp countp (countp 1) 0
          (startp 0 * rl % SIZE_MOD) st).ret = NC_NOERR := by simpa using h1
      obtain ⟨hc2, hl2⟩ := ih (get_vara_rows malloc_ok a_file i_len startp countp (countp 1) 0
          (startp 0 * rl % SIZE_MOD) st)
      refine ⟨hc2, fun h => ?_⟩
      rw [hl2 h, hl h2]
      ring

theorem row_ok_iff (a_file : AFile) (n p : Nat) :
    row_ok a_file n p = true ↔ 0 ≤ to_long p ∧ n ≤ (a_file.size - p) / sizeof_float := by
  unfold row_ok fread
  simp only [Bool.and_eq_true, decide_eq_true_eq, List.length_map, List.length_range]
  constructor
  · rintro ⟨h1, h2⟩
    exact ⟨h1, by omega⟩
  · rintro ⟨h1, h2⟩
    exact ⟨h1, by omega⟩

theorem row_data_eq (a_file : AFile) (n p : Nat) (h : (fread a_file p n).length = n) :
    reverse_floats (fread a_file p n) n = row_data a_file n p := by
  rw [reverse_floats_eq_map, List.take_of_length_le (by omega)]
  unfold fread row_data
  unfold fread at h
  simp only [List.length_map, List.length_range] at h
  rw [h, List.map_map]
  rfl

/-- One turn of the row loop of `SION_get_vara`. -/
theorem get_vara_rows_succ (malloc_ok : Nat → Bool) (a_file : AFile) (i_len : Int)
    (startp countp : Fin 3 → Nat) (n j p : Nat) (st : VaraResult) :
    get_vara_rows malloc_ok a_file i_len startp countp (n + 1) j p st =
      if malloc_ok (countp 2 * sizeof_float % SIZE_MOD) = false then { st with ret := NC_ENOMEM }
      else if row_ok a_file (countp 2) (row_step i_len startp p j) = true then
        get_vara_rows malloc_ok a_file i_len startp countp n (j + 1) (row_step i_len startp p j)
          { st with
            seeks := st.seeks ++ [to_long (row_step i_len startp p j)]
            data := st.data ++ row_data a_file (countp 2) (row_step i_len startp p j) }
      else
        { st with seeks := st.seeks ++ [to_long (row_step i_len startp p j)], ret := NC_EIO } := by
  have hs : (p + to_size_t i_len * ((startp 1 + j) % SIZE_MOD) % SIZE_MOD * sizeof_float)
      % SIZE_MOD = row_step i_len startp p j := rfl
  simp only [get_vara_rows, hs]
  cases hm : malloc_ok (countp 2 * sizeof_float % SIZE_MOD)
  · simp
  · simp only [Bool.not_true, Bool.false_eq_true, if_false]
    by_cases h1 : to_long (row_step i_len startp p j) < 0
    · have hr : row_ok a_file (countp 2) (row_step i_len startp p j) = false := by
        unfold row_ok
        simp [h1]
      simp [h1, hr]
    · simp only [h1, if_false]
      by_cases h2 : (fread a_file (row_step i_len startp p j) (countp 2)).length = countp 2
      · have hr : row_ok a_file (countp 2) (row_step i_len startp p j) = true := by
          unfold row_ok
          simp only [Bool.and_eq_true, decide_eq_true_eq]
          exact ⟨by omega, h2⟩
        simp only [h2, ne_eq, not_true_eq_false, if_false, hr, if_true,
          row_data_eq a_file (countp 2) _ h2]
        simp
      · have hr : row_ok a_file (countp 2) (row_step i_len startp p j) = false := by
          unfold row_ok
          simp [h2]
        simp [h2, hr]

/-- The row loop when every row goes through. -/
theorem get_vara_rows_ok (malloc_ok : Nat → Bool) (a_file : AFile) (i_len : Int)
    (startp countp : Fin 3 → Nat)
    (hm : malloc_ok (countp 2 * sizeof_float % SIZE_MOD) = true) :
    ∀ (n j p : Nat) (st : VaraResult),
      (∀ k, k < n → row_ok a_file (countp 2) (row_seek i_len startp p j k) = true) →
      get_vara_rows malloc_ok a_file i_len startp countp n j p st =
        { ret := NC_NOERR
          data := st.data ++ (List.range n).flatMap fun k =>
            row_data a_file (countp 2) (row_seek i_len startp p j k)
          seeks := st.seeks ++ (List.range n).map fun k =>
            to_long (row_seek i_len startp p j k) } := by
  intro n
  induction n with
  | zero => intro j p st _; simp [get_vara_rows]
  | succ n ih =>
    intro j p st hok
    have h0 : row_ok a_file (countp 2) (row_step i_len startp p j) = true := hok 0 (by omega)
    rw [get_vara_rows_succ, hm, if_neg (by simp), h0, if_pos rfl,
      ih (j + 1) (row_step i_len startp p j) _ (fun k hk => hok (k + 1) (by omega))]
    simp only [List.range_succ_eq_map, List.flatMap_cons, List.map_cons, List.flatMap_map,
      List.map_map, List.append_assoc, List.singleton_append]
    rfl

/-- The row loop when row `k0` is the first that does not go through. -/
theorem get_vara_rows_fail (malloc_ok : Nat → Bool) (a_file : AFile) (i_len : Int)
    (startp countp : Fin 3 → Nat)
    (hm : malloc_ok (countp 2 * sizeof_float % SIZE_MOD) = true) :
    ∀ (k0 n j p : Nat) (st : VaraResult), k0 < n →
      (∀ k, k < k0 → row_ok a_file (countp 2) (row_seek i_len startp p j k) = true) →
      row_ok a_file (countp 2) (row_seek i_len startp p j k0) = false →
      get_vara_rows malloc_ok a_file i_len startp countp n j p st =
        { ret := NC_EIO
          data := st.data ++ (List.range k0).flatMap fun k =>
            row_data a_file (countp 2) (row_seek i_len startp p j k)
          seeks := st.seeks ++ (List.range (k0 + 1)).map fun k =>
            to_long (row_seek i_len startp p j k) } := by
  intro k0
  induction k0 with
  | zero =>
    intro n j p st hn _ hbad
    obtain ⟨m, rfl⟩ : ∃ m, n = m + 1 := ⟨n - 1, by omega⟩
    have h0 : row_ok a_file (countp 2) (row_step i_len startp p j) = false := hbad
    rw [get_vara_rows_succ, hm, if_neg (by simp), h0, if_neg (by simp)]
    simp [row_seek, List.range_succ]
  | succ k0 ih =>
    intro n j p st hn hok hbad
    obtain ⟨m, rfl⟩ : ∃ m, n = m + 1 := ⟨n - 1, by omega⟩
    have h0 : row_ok a_file (countp 2) (row_step i_len startp p j) = true := hok 0 (by omega)
    rw [get_vara_rows_succ, hm, if_neg (by simp), h0, if_pos rfl,
      ih m (j + 1) (row_step i_len startp p j) _ (by omega)
        (fun k hk => hok (k + 1) (by omega)) hbad]
    simp only [List.range_succ_eq_map (k0 + 1), List.range_succ_eq_map k0, List.flatMap_cons,
      List.map_cons, List.flatMap_map, List.map_map, List.append_assoc, List.singleton_append]
    rfl

/-- The record loop when every row goes through: every record repeats the
seeks and reads of the first. -/
theorem get_vara_recs_ok (malloc_ok : Nat → Bool) (a_file : AFile) (i_len : Int) (rl : Nat)
    (startp countp : Fin 3 → Nat)
    (hm : malloc_ok (countp 2 * sizeof_float % SIZE_MOD) = true)
    (hok : ∀ k, k < countp 1 → row_ok a_file (countp 2)
      (row_seek i_len startp (startp 0 * rl % SIZE_MOD) 0 k) = true) :
    ∀ (n : Nat) (st : VaraResult),
      get_vara_recs malloc_ok a_file i_len rl startp countp n st =
        { ret := NC_NOERR
          data := st.data ++ (List.replicate n ((List.range (countp 1)).flatMap fun k =>
            row_data a_file (countp 2)
              (row_seek i_len startp (startp 0 * rl % SIZE_MOD) 0 k))).flatten
          seeks := st.seeks ++ (List.replicate n ((List.range (countp 1)).map fun k =>
            to_long (row_seek i_len startp (startp 0 * rl % SIZE_MOD) 0 k))).flatten } := by
  intro n
  induction n with
  | zero => intro st; simp [get_vara_recs]
  | succ n ih =>
    intro st
    simp only [get_vara_recs]
    rw [get_vara_rows_ok malloc_ok a_file i_len startp countp hm (countp 1) 0 _ st hok]
    simp only [ne_eq, not_true_eq_false, if_false]
    rw [ih]
    simp [List.replicate_succ]

/-- C12 (amended): `SION_get_vara` makes no range check; its result is fixed by the
allocation, the offsets of its seeks and the size of the `.a` file alone.  For every
request, in range or not: the return code is `NC_NOERR`, `NC_ENOMEM` or `NC_EIO`, never an
out-of-range code such as `NC_EEDGE` or `NC_EINVALCOORDS`; with `count[0] = 0` or
`count[1] = 0` it returns `NC_NOERR` and reads nothing; else, if the allocation of the
row buffer fails, it returns `NC_ENOMEM`; else, if every row goes through (its offset is
not negative as a `long` and the `count[2]` floats from that offset on lie inside the
file), it returns `NC_NOERR` and delivers, for every record and row, the `count[2]`
byte-reversed floats stored from the offset of its seek on, wherever in the file that
is; else it returns `NC_EIO` at the first row that does not go through, having delivered
the rows before it.  The offset of the first row is
`start[0] * rec_len + i_len * start[1] * 4` when that fits a `long`. -/
theorem SION_get_vara_no_range_check (malloc_ok : Nat → Bool) (a_file : AFile)
    (j_len i_len : Int) (startp countp : Fin 3 → Nat) :
    ((SION_get_vara malloc_ok a_file j_len i_len startp countp).ret = NC_NOERR
      ∨ (SION_get_vara malloc_ok a_file j_len i_len startp countp).ret = NC_ENOMEM
      ∨ (SION_get_vara malloc_ok a_file j_len i_len startp countp).ret = NC_EIO)
    ∧ (SION_get_vara malloc_ok a_file j_len i_len startp countp).ret ≠ NC_EEDGE
    ∧ (SION_get_vara malloc_ok a_file j_len i_len startp countp).ret ≠ NC_EINVALCOORDS
    ∧ (countp 0 = 0 ∨ countp 1 = 0 →
        SION_get_vara malloc_ok a_file j_len i_len startp countp
          = { ret := NC_NOERR, data := [], seeks := [] })
    ∧ (0 < countp 0 → 0 < countp 1 →
        malloc_ok (countp 2 * sizeof_float % SIZE_MOD) = false →
        SION_get_vara malloc_ok a_file j_len i_len startp countp
          = { ret := NC_ENOMEM, data := [], seeks := [] })
    ∧ (malloc_ok (countp 2 * sizeof_float % SIZE_MOD) = true →
        (∀ k, k < countp 1 →
          row_ok a_file (countp 2) (seek_pos j_len i_len startp k) = true) →
        SION_get_vara malloc_ok a_file j_len i_len startp countp
          = { ret := NC_NOERR
              data := (List.replicate (countp 0) ((List.range (countp 1)).flatMap fun k =>
                row_data a_file (countp 2) (seek_pos j_len i_len startp k))).flatten
              seeks := (List.replicate (countp 0) ((List.range (countp 1)).map fun k =>
                to_long (seek_pos j_len i_len startp k))).flatten })
    ∧ (malloc_ok (countp 2 * sizeof_float % SIZE_MOD) = true → 0 < countp 0 →
        ∀ k0, k0 < countp 1 →
          (∀ k, k < k0 → row_ok a_file (countp 2) (seek_pos j_len i_len startp k) = true) →
          row_ok a_file (countp 2) (seek_pos j_len i_len startp k0) = false →
          SION_get_vara malloc_ok a_file j_len i_len startp countp
            = { ret := NC_EIO
                data := (List.range k0).flatMap fun k =>
                  row_data a_file (countp 2) (seek_pos j_len i_len startp k)
                seeks := (List.range (k0 + 1)).map fun k =>
                  to_long (seek_pos j_len i_len startp k) })
    ∧ (∀ n p, row_ok a_file n p = true
        ↔ 0 ≤ to_long p ∧ n ≤ (a_file.size - p) / sizeof_float)
    ∧ (∀ n p, row_data a_file n p
        = (List.range n).map fun m => reverse_float (a_file.float_at (p + 4 * m)))
    ∧ (0 ≤ i_len → i_len < 2 ^ 31 →
        ((startp 0 * rec_len j_len i_len : Nat) : Int) + i_len * (startp 1 : Int) * 4 < 2 ^ 63 →
        to_long (seek_pos j_len i_len startp 0)
          = ((startp 0 * rec_len j_len i_len : Nat) : Int) + i_len * (startp 1 : Int) * 4) := by
  obtain ⟨hc, _⟩ := get_vara_recs_result malloc_ok a_file i_len (rec_len j_len i_len) startp
    countp (countp 0) { ret := NC_NOERR, data := [], seeks := [] }
  have hc2 : (SION_get_vara malloc_ok a_file j_len i_len startp countp).ret = NC_NOERR
      ∨ (SION_get_vara malloc_ok a_file j_len i_len startp countp).ret = NC_ENOMEM
      ∨ (SION_get_vara malloc_ok a_file j_len i_len startp countp).ret = NC_EIO := hc
  refine ⟨hc2, ?_, ?_, ?_, ?_, ?_, ?_, row_ok_iff a_file, fun _ _ => rfl, ?_⟩
  · intro h
    rcases hc2 with h1 | h1 | h1 <;> rw [h1] at h <;> revert h <;> decide
  · intro h
    rcases hc2 with h1 | h1 | h1 <;> rw [h1] at h <;> revert h <;> decide
  · intro h
    unfold SION_get_vara
    rcases h with h | h
    · rw [h]; rfl
    · have key : ∀ (n : Nat) (st : VaraResult), st.ret = NC_NOERR →
          get_vara_recs malloc_ok a_file i_len (rec_len j_len i_len) startp countp n st
            = st := by
        intro n
        induction n with
        | zero => intro st hst; cases st; simp only [get_vara_recs] ; simp at hst; simp [hst]
        | succ n ih =>
          intro st hst
          simp only [get_vara_recs, h, get_vara_rows]
          have e : ({ st with ret := NC_NOERR } : VaraResult) = st := by
            cases st; simp at hst; simp [hst]
          rw [e]
          simp only [hst, ne_eq, not_true_eq_false, if_false]
          exact ih st hst
      exact key (countp 0) _ rfl
  · intro h0 h1 hm
    unfold SION_get_vara
    obtain ⟨m, hm0⟩ : ∃ m, countp 0 = m + 1 := ⟨countp 0 - 1, by omega⟩
    obtain ⟨m1, hm1⟩ : ∃ m, countp 1 = m + 1 := ⟨countp 1 - 1, by omega⟩
    rw [hm0]
    simp only [get_vara_recs]
    rw [hm1, get_vara_rows_succ, hm, if_pos rfl]
    simp [NC_ENOMEM, NC_NOERR]
  · intro hm hok
    unfold SION_get_vara
    rw [get_vara_recs_ok malloc_ok a_file i_len (rec_len j_len i_len) startp countp hm hok]
    simp only [List.nil_append]
    rfl
  · intro hm h0 k0 hk hok hbad
    unfold SION_get_vara
    obtain ⟨m, hm0⟩ : ∃ m, countp 0 = m + 1 := ⟨countp 0 - 1, by omega⟩
    rw [hm0]
    simp only [get_vara_recs]
    rw [get_vara_rows_fail malloc_ok a_file i_len startp countp hm k0 (countp 1) 0 _ _ hk
      hok hbad]
    simp only [List.nil_append]
    rw [if_pos (by decide)]
    rfl
  · intro hi0 hi1 hlt
    have hto : to_size_t i_len = i_len.toNat := by
      unfold to_size_t
      congr 1
      omega
    have hcast : ((i_len.toNat : Nat) : Int) = i_len := Int.toNat_of_nonneg hi0
    have hlt2 : startp 0 * rec_len j_len i_len + i_len.toNat * startp 1 * 4 < 2 ^ 63 := by
      have : ((startp 0 * rec_len j_len i_len + i_len.toNat * startp 1 * 4 : Nat) : Int)
          < 2 ^ 63 := by
        push_cast
        rw [hcast]
        exact hlt
      exact_mod_cast this
    have hval : seek_pos j_len i_len startp 0
        = startp 0 * rec_len j_len i_len + i_len.toNat * startp 1 * 4 := by
      unfold seek_pos row_seek row_step
      rw [hto]
      simp only [Nat.add_zero]
      by_cases ha : i_len.toNat = 0
      · rw [ha] at hlt2 ⊢
        simp only [Nat.zero_mul, Nat.zero_mod, Nat.add_zero] at hlt2 ⊢
        unfold SIZE_MOD
        omega
      · have hs1 : startp 1 ≤ i_len.toNat * startp 1 :=
          Nat.le_mul_of_pos_left _ (Nat.pos_of_ne_zero ha)
        have e1 : startp 1 % SIZE_MOD = startp 1 :=
          Nat.mod_eq_of_lt (by unfold SIZE_MOD; omega)
        rw [e1]
        generalize i_len.toNat * startp 1 = q at hlt2 hs1 ⊢
        unfold SIZE_MOD sizeof_float
        omega
    rw [hval, to_long_of_lt _ hlt2]
    push_cast
    rw [hcast]

/-- C12 on the sample grid (3 x 2): the request `start = (0,0,0)`, `count = (1,1,3)` is
out of range along `i`; its row goes through (offset 0, three floats inside the file),
so it returns `NC_NOERR` with the floats at bytes 0, 4 and 8, the third being element
`(0,1,0)` of the next row. -/
theorem SION_get_vara_no_range_check_witness :
    malloc_always (3 * sizeof_float % SIZE_MOD) = true
    ∧ row_ok demo_a_file 3 (seek_pos 3 2 ![0, 0, 0] 0) = true
    ∧ SION_get_vara malloc_always demo_a_file 3 2 ![0, 0, 0] ![1, 1, 3]
        = { ret := NC_NOERR
            data := [reverse_float (demo_a_file.float_at 0),
              reverse_float (demo_a_file.float_at 4),
              reverse_float (demo_a_file.float_at (spec_offset 3 2 0 1 0))]
            seeks := [0] } := by
  have hok : ∀ k, k < 1 → row_ok demo_a_file 3 (seek_pos 3 2 ![0, 0, 0] k) = true := by
    intro k hk
    obtain rfl : k = 0 := by omega
    decide
  have h := (SION_get_vara_no_range_check malloc_always demo_a_file 3 2 ![0, 0, 0]
    ![1, 1, 3]).2.2.2.2.2.1 rfl hok
  refine ⟨rfl, hok 0 (by decide), ?_⟩
  rw [h]
  decide

/-- C12 as stated fails on the sample file (grid 3 x 2, two timesteps): the request
`count = (1,1,3)` from `(0,0,0)` exceeds the `i` extent, yet returns `NC_NOERR` and
delivers three floats, the third being the first element of the next row; the request
for row 3 exceeds the `j` extent, yet returns `NC_NOERR` with two floats read from the
padding at byte 24; the request for timestep 2 exceeds the time extent and fails with
the I/O error `NC_EIO`, not an out-of-range error. -/
theorem SION_get_vara_out_of_range_counterexample :
    ((2 : Nat) < 0 + 3
      ∧ (SION_get_vara malloc_always demo_a_file 3 2 ![0, 0, 0] ![1, 1, 3]).ret = NC_NOERR
      ∧ (SION_get_vara malloc_always demo_a_file 3 2 ![0, 0, 0] ![1, 1, 3]).seeks = [0]
      ∧ (SION_get_vara malloc_always demo_a_file 3 2 ![0, 0, 0] ![1, 1, 3]).data
          = [reverse_float (demo_a_file.float_at 0), reverse_float (demo_a_file.float_at 4),
              reverse_float (demo_a_file.float_at (spec_offset 3 2 0 1 0))])
    ∧ ((3 : Nat) < 3 + 1
      ∧ (SION_get_vara malloc_always demo_a_file 3 2 ![0, 3, 0] ![1, 1, 2]).ret = NC_NOERR
      ∧ (SION_get_vara malloc_always demo_a_file 3 2 ![0, 3, 0] ![1, 1, 2]).seeks = [24]
      ∧ (SION_get_vara malloc_always demo_a_file 3 2 ![0, 3, 0] ![1, 1, 2]).data
          = [⟨0, 0, 0, 0⟩, ⟨0, 0, 0, 0⟩])
    ∧ ((2 : Nat) < 2 + 1
      ∧ (SION_get_vara malloc_always demo_a_file 3 2 ![2, 0, 0] ![1, 1, 1]).ret = NC_EIO
      ∧ (SION_get_vara malloc_always demo_a_file 3 2 ![2, 0, 0] ![1, 1, 1]).ret ≠ NC_EEDGE) := by
  decide

/-! ## Texts without a dimension line or without data lines; the variable name -/

theorem pass1_nil (libc : Libc) (mem : Uninit) (st : Pass1) : pass1 libc mem [] st = some st := rfl

/-- C13 (amended): `parse_b_file` has no format error.  For every `.b` text made of lines
of at most 79 characters (each closed by a newline, without NUL) none of which begins
with `i/jdm =`, the first loop leaves `t_len` at 0, the decrement makes it -1, and the
function returns the out-of-memory error `NC_ENOMEM` when the allocator refuses the
resulting request of `2^64 - 4` bytes; the extents stay unassigned and no series is
returned. -/
theorem parse_b_file_no_dimension_line (libc : Libc) (mem : Uninit) (hs : List (List Char))
    (hok : ∀ l ∈ hs, line_ok l = true) (hnd : ∀ l ∈ hs, is_dim_line l = false)
    (hm : libc.malloc_ok (2 ^ 64 - 4) = false) :
    ∃ r, parse_b_file libc mem (unlines hs) = some r
      ∧ r.ret = NC_ENOMEM ∧ r.ret ≠ NC_NOERR ∧ r.t_len = -1
      ∧ r.i_len = none ∧ r.j_len = none
      ∧ r.time = [] ∧ r.span = [] ∧ r.min = [] ∧ r.max = [] := by
  have hlines : fgets_all (unlines hs).length (unlines hs) = hs.map fun l => l ++ ['\n'] :=
    fgets_all_unlines _ hok _ (length_le_unlines _)
  have hp1 := pass1_headers libc mem hs [] hok hnd
    { hdr := none, header := true, time_start_pos := 0, num_header_atts := 0, header_att := [],
      t_len := 0, i_len := none, j_len := none, pos := 0 } rfl
  rw [List.append_nil, pass1_nil] at hp1
  have hsize : to_size_t ((0 : Int) - 1) * sizeof_float % SIZE_MOD = 2 ^ 64 - 4 := by decide
  unfold parse_b_file
  simp only [hlines, hp1, hsize, hm, Bool.not_false, if_true]
  have hne : NC_ENOMEM ≠ NC_NOERR := by decide
  exact ⟨_, rfl, rfl, hne, by simp, rfl, rfl, rfl, rfl, rfl, rfl⟩

set_option maxRecDepth 100000 in
/-- C13 on a sample: a text of two lines without dimension line is answered with
`NC_ENOMEM` and `t_len = -1` by an allocator that refuses huge requests. -/
theorem parse_b_file_no_dimension_line_witness :
    ∃ r, parse_b_file bounded_libc zero_mem no_dim_b_file = some r
      ∧ r.ret = NC_ENOMEM ∧ r.t_len = -1 := by
  obtain ⟨r, h1, h2, _, h4, _⟩ := parse_b_file_no_dimension_line bounded_libc zero_mem
    ["ATMOSPHERIC FORCING".toList, "airtmp: date,span,range = 0 1 2 3".toList]
    (by decide) (by decide) (by decide)
  exact ⟨r, h1, h2, h4⟩

set_option maxRecDepth 100000 in
/-- C13 as stated fails: a text without a dimension line is answered with the
out-of-memory code `NC_ENOMEM` (the request is for `2^64 - 4` bytes), there being no
format error in the function; and a text in which `i/jdm = 4 3` follows 80 other
characters on the same line has no line beginning with `i/jdm =`, yet is answered with
`NC_NOERR`, the extents 4 and 3 and a series of one element. -/
theorem parse_b_file_no_dimension_line_counterexample :
    (spec_has_dim_line no_dim_b_file = false
      ∧ (parse_b_file bounded_libc zero_mem no_dim_b_file).map (fun r => r.ret)
          = some NC_ENOMEM
      ∧ (parse_b_file bounded_libc zero_mem no_dim_b_file).map (fun r => r.t_len)
          = some (-1))
    ∧ (spec_has_dim_line split_dim_b_file = false
      ∧ (parse_b_file bounded_libc zero_mem split_dim_b_file).map (fun r => r.ret)
          = some NC_NOERR
      ∧ (parse_b_file bounded_libc zero_mem split_dim_b_file).map (fun r => r.i_len)
          = some (some 4)
      ∧ (parse_b_file bounded_libc zero_mem split_dim_b_file).map (fun r => r.j_len)
          = some (some 3)
      ∧ (parse_b_file bounded_libc zero_mem split_dim_b_file).map (fun r => r.time)
          = some [some (f32_of_nat 0)]) := by
  decide

set_option maxRecDepth 100000 in
/-- C14 (code defect): for the text of a header line and the line `i/jdm = 4 3` with no
data line, with an allocator that returns a block for `malloc(0)`, `parse_b_file`
returns `NC_NOERR` with `t_len = 0` and empty series; `add_ab_var_atts`, called next by
`ab_open_file`, asserts `t_len > 0` and has no result, and so has `ab_open_file`. -/
theorem parse_b_file_zero_data_lines :
    (parse_b_file demo_libc zero_mem no_data_b_file).map (fun r => r.ret) = some NC_NOERR
    ∧ (parse_b_file demo_libc zero_mem no_data_b_file).map (fun r => r.t_len) = some 0
    ∧ (parse_b_file demo_libc zero_mem no_data_b_file).map (fun r => r.i_len) = some (some 4)
    ∧ (parse_b_file demo_libc zero_mem no_data_b_file).map (fun r => r.j_len) = some (some 3)
    ∧ (parse_b_file demo_libc zero_mem no_data_b_file).map (fun r => r.time) = some []
    ∧ add_ab_var_atts malloc_always { att := [], natts := 0 } [] 0 [] [] [] [] = none
    ∧ ab_open_file no_data_env "x.b".toList = none := by
  decide

set_option maxRecDepth 100000 in
/-- C16 (code defect): for the text with the dimension line and the data lines
`airtmp: ...` and `ab: ...`, read into a zero-filled `var_name`, the name returned is
`abrtmp`: the flag `var_named` is reset for every line, so the second data line
overwrites the first two characters of the name captured from the first. -/
theorem parse_b_file_var_name_overwritten :
    (parse_b_file demo_libc zero_mem two_names_b_file).map (fun r => r.ret) = some NC_NOERR
    ∧ (parse_b_file demo_libc zero_mem two_names_b_file).map (fun r => cstr r.var_name)
        = some "abrtmp".toList
    ∧ (parse_b_file demo_libc zero_mem two_names_b_file).map (fun r => cstr r.var_name)
        ≠ some "airtmp".toList
    ∧ (line_toks "airtmp: date,span,range = 0 1 2 3".toList).head? = some "airtmp:".toList := by
  decide

/-! ## The two passes on arbitrary texts -/

theorem pass1_line_general (libc : Libc) (mem : Uninit) (st st2 : Pass1) (raw : List Char)
    (h : pass1_line libc mem st raw = some st2) :
    st2.pos = st.pos + raw.length
    ∧ (is_blank (cstr raw) = true →
        st2.header = st.header ∧ st2.t_len = st.t_len
          ∧ st2.time_start_pos = st.time_start_pos)
    ∧ (is_blank (cstr raw) = false →
        ((is_dim_line (cstr raw) = true ∨ st.header = false) →
          st2.header = false ∧ st2.t_len = st.t_len + 1
            ∧ st2.time_start_pos
                = if st.time_start_pos = 0 then st.pos + raw.length else st.time_start_pos)
        ∧ (is_dim_line (cstr raw) = false → st.header = true →
          st2.header = true ∧ st2.t_len = st.t_len
            ∧ st2.time_start_pos = st.time_start_pos)) := by
  unfold pass1_line at h
  by_cases hb : is_blank (cstr raw) = true
  · simp only [hb, if_true, Option.some.injEq] at h
    subst h
    simp [hb]
  · have hb2 : is_blank (cstr raw) = false := by simpa using hb
    simp only [hb2, Bool.false_eq_true, if_false] at h
    by_cases hd : (cstr raw).take SION_DIMSIZE_STRING.length = SION_DIMSIZE_STRING
    · have hd2 : is_dim_line (cstr raw) = true := by simp [is_dim_line, hd]
      simp only [hd, if_true, Bool.false_eq_true, if_false, Option.some.injEq] at h
      subst h
      simp [hb2, hd2]
    · have hd2 : is_dim_line (cstr raw) = false := by simp [is_dim_line, hd]
      simp only [hd, if_false] at h
      by_cases hh : st.header = true
      · simp only [hh, if_true] at h
        by_cases hn : st.num_header_atts < MAX_HEADER_ATTS
        · simp only [hn, if_true] at h
          cases ht : trim (cstr (List.take ((cstr raw).length - 1) (cstr raw)
              ++ List.drop ((cstr raw).length - 1) (st.hdr.getD mem.hdr))) with
          | none => rw [ht] at h; cases h
          | some hdr =>
            rw [ht] at h
            simp only [Option.some.injEq] at h
            subst h
            simp [hb2, hd2, hh]
        · simp only [hn, if_false, Option.some.injEq] at h
          subst h
          simp [hb2, hd2, hh]
      · have hh2 : st.header = false := by simpa using hh
        simp only [hh2, Bool.false_eq_true, if_false, Option.some.injEq] at h
        subst h
        simp [hb2, hd2, hh2]

theorem raw_non_blank_cons (raw : List Char) (cs : List (List Char)) :
    raw_non_blank (raw :: cs)
      = if is_blank (cstr raw) then raw_non_blank cs else raw :: raw_non_blank cs := by
  unfold raw_non_blank
  cases h : is_blank (cstr raw) <;> simp [List.filter_cons, h]

theorem pass1_cons_inv (libc : Libc) (mem : Uninit) (raw : List Char) (cs : List (List Char))
    (st p1 : Pass1) (h : pass1 libc mem (raw :: cs) st = some p1) :
    ∃ st2, pass1_line libc mem st raw = some st2 ∧ pass1 libc mem cs st2 = some p1 := by
  simp only [pass1] at h
  cases hl : pass1_line libc mem st raw with
  | none => rw [hl] at h; cases h
  | some st2 => rw [hl] at h; exact ⟨st2, rfl, h⟩

theorem pass1_data_general (libc : Libc) (mem : Uninit) (cs : List (List Char)) :
    ∀ (st p1 : Pass1), st.header = false → st.time_start_pos ≠ 0 →
      pass1 libc mem cs st = some p1 →
      p1.header = false ∧ p1.t_len = st.t_len + ((raw_non_blank cs).length : Int)
        ∧ p1.time_start_pos = st.time_start_pos := by
  induction cs with
  | nil =>
    intro st p1 hh _ h
    have : st = p1 := by simpa [pass1] using h
    subst this
    simp [raw_non_blank, hh]
  | cons raw cs ih =>
    intro st p1 hh hp h
    obtain ⟨st2, hl, hr⟩ := pass1_cons_inv libc mem raw cs st p1 h
    obtain ⟨_, g2, g3⟩ := pass1_line_general libc mem st st2 raw hl
    rw [raw_non_blank_cons]
    by_cases hb : is_blank (cstr raw) = true
    · obtain ⟨e1, e2, e3⟩ := g2 hb
      obtain ⟨f1, f2, f3⟩ := ih st2 p1 (by rw [e1, hh]) (by rw [e3]; exact hp) hr
      simp only [hb, if_true]
      exact ⟨f1, by rw [f2, e2], by rw [f3, e3]⟩
    · have hb2 : is_blank (cstr raw) = false := by simpa using hb
      obtain ⟨e1, e2, e3⟩ := (g3 hb2).1 (Or.inr hh)
      simp only [hp, if_false] at e3
      obtain ⟨f1, f2, f3⟩ := ih st2 p1 e1 (by rw [e3]; exact hp) hr
      simp only [hb2, Bool.false_eq_true, if_false, List.length_cons, Nat.cast_add, Nat.cast_one]
      exact ⟨f1, by rw [f2, e2]; ring, by rw [f3, e3]⟩

theorem cstr_length_le (raw : List Char) : (cstr raw).length ≤ raw.length := by
  unfold cstr
  exact (List.takeWhile_sublist _).length_le

theorem raw_pos_of_dim (raw : List Char) (h : is_dim_line (cstr raw) = true) :
    0 < raw.length := by
  have h1 := is_dim_line_split (cstr raw) h
  have h2 : 0 < (cstr raw).length := by
    rw [h1]; simp [SION_DIMSIZE_STRING]
  have := cstr_length_le raw
  omega

theorem pass1_header_general (libc : Libc) (mem : Uninit) (cs : List (List Char)) :
    ∀ (st p1 : Pass1), st.header = true → st.t_len = 0 → st.time_start_pos = 0 →
      pass1 libc mem cs st = some p1 →
      (p1.header = true ∧ ∀ raw ∈ cs, is_dim_line (cstr raw) = false)
      ∨ ∃ a d b, cs = a ++ d :: b ∧ p1.header = false
          ∧ p1.time_start_pos = st.pos + (a ++ [d]).flatten.length
          ∧ p1.t_len = 1 + ((raw_non_blank b).length : Int) := by
  induction cs with
  | nil =>
    intro st p1 hh _ _ h
    have : st = p1 := by simpa [pass1] using h
    subst this
    exact Or.inl ⟨hh, by simp⟩
  | cons raw cs ih =>
    intro st p1 hh ht hp h
    obtain ⟨st2, hl, hr⟩ := pass1_cons_inv libc mem raw cs st p1 h
    obtain ⟨g1, g2, g3⟩ := pass1_line_general libc mem st st2 raw hl
    by_cases hd : is_dim_line (cstr raw) = true
    · -- the first dimension line
      have hb2 : is_blank (cstr raw) = false := is_blank_of_dim _ hd
      obtain ⟨e1, e2, e3⟩ := (g3 hb2).1 (Or.inl hd)
      simp only [hp, if_true] at e3
      have hpos := raw_pos_of_dim raw hd
      obtain ⟨f1, f2, f3⟩ := pass1_data_general libc mem cs st2 p1 e1 (by rw [e3]; omega) hr
      refine Or.inr ⟨[], raw, cs, rfl, f1, ?_, ?_⟩
      · rw [f3, e3]; simp
      · rw [f2, e2, ht]; ring
    · have hd2 : is_dim_line (cstr raw) = false := by simpa using hd
      have hkeep : st2.header = true ∧ st2.t_len = st.t_len
          ∧ st2.time_start_pos = st.time_start_pos := by
        by_cases hb : is_blank (cstr raw) = true
        · obtain ⟨e1, e2, e3⟩ := g2 hb
          exact ⟨by rw [e1, hh], e2, e3⟩
        · have hb2 : is_blank (cstr raw) = false := by simpa using hb
          exact (g3 hb2).2 hd2 hh
      obtain ⟨e1, e2, e3⟩ := hkeep
      rcases ih st2 p1 e1 (by rw [e2, ht]) (by rw [e3, hp]) hr with ⟨f1, f2⟩ | ⟨a, d, b, f1, f2, f3, f4⟩
      · refine Or.inl ⟨f1, ?_⟩
        intro x hx
        rcases List.mem_cons.1 hx with rfl | hx
        · exact hd2
        · exact f2 x hx
      · refine Or.inr ⟨raw :: a, d, b, by rw [f1]; rfl, f2, ?_, f4⟩
        rw [f3, g1]
        simp only [List.cons_append, List.flatten_cons, List.length_append]
        omega

theorem fgets_all_succ_cons (fuel : Nat) (x : Char) (xs : List Char) :
    fgets_all (fuel + 1) (x :: xs)
      = (fgets_aux MAX_B_LINE_LEN (x :: xs)).1
          :: fgets_all fuel (fgets_aux MAX_B_LINE_LEN (x :: xs)).2 := by
  simp only [fgets_all, fgets]
  rfl

theorem fgets_aux_rest_length (x : Char) (xs : List Char) :
    (fgets_aux MAX_B_LINE_LEN (x :: xs)).2.length ≤ xs.length :=
  fgets_aux_consumes (MAX_B_LINE_LEN - 1) x xs

theorem fgets_all_fuel (f1 : Nat) :
    ∀ (f2 : Nat) (text : List Char), text.length ≤ f1 → text.length ≤ f2 →
      fgets_all f1 text = fgets_all f2 text := by
  induction f1 with
  | zero =>
    intro f2 text h1 _
    have : text = [] := List.length_eq_zero.1 (by omega)
    subst this
    cases f2 <;> simp [fgets_all, fgets]
  | succ f1 ih =>
    intro f2 text h1 h2
    cases text with
    | nil => cases f2 <;> simp [fgets_all, fgets]
    | cons x xs =>
      cases f2 with
      | zero => simp at h2
      | succ f2 =>
        have hr := fgets_aux_rest_length x xs
        simp only [List.length_cons] at h1 h2
        rw [fgets_all_succ_cons, fgets_all_succ_cons, ih f2 _ (by omega) (by omega)]

theorem fgets_all_length_le (fuel : Nat) : ∀ text : List Char, (fgets_all fuel text).length ≤ fuel := by
  induction fuel with
  | zero => intro text; simp [fgets_all]
  | succ fuel ih =>
    intro text
    cases text with
    | nil => simp [fgets_all, fgets]
    | cons x xs =>
      rw [fgets_all_succ_cons]
      simp only [List.length_cons]
      have := ih (fgets_aux MAX_B_LINE_LEN (x :: xs)).2
      omega

theorem fgets_all_split (a : List (List Char)) :
    ∀ (fuel : Nat) (text : List Char) (b : List (List Char)), text.length ≤ fuel →
      fgets_all fuel text = a ++ b →
      text.drop a.flatten.length = b.flatten
        ∧ fgets_all b.flatten.length b.flatten = b := by
  induction a with
  | nil =>
    intro fuel text b hf h
    have hflat := fgets_all_flatten fuel text hf
    rw [h] at hflat
    simp only [List.nil_append] at hflat h
    refine ⟨by simpa using hflat.symm, ?_⟩
    rw [hflat, ← h]
    exact fgets_all_fuel _ _ _ (le_refl _) hf
  | cons c a ih =>
    intro fuel text b hf h
    cases text with
    | nil =>
      cases fuel <;> simp [fgets_all, fgets] at h
    | cons x xs =>
      cases fuel with
      | zero => simp at hf
      | succ fuel =>
        rw [fgets_all_succ_cons, List.cons_append] at h
        obtain ⟨hc, hrest⟩ := List.cons.inj h
        have hr := fgets_aux_rest_length x xs
        simp only [List.length_cons] at hf
        obtain ⟨i1, i2⟩ := ih fuel _ b (by omega) hrest
        have happ := fgets_aux_append MAX_B_LINE_LEN (x :: xs)
        rw [hc] at happ
        refine ⟨?_, i2⟩
        rw [← happ, List.flatten_cons, List.length_append, List.drop_append]
        exact i1

theorem fgets_aux_pre (n : Nat) :
    ∀ (pre rest : List Char), pre ≠ [] → pre.getLast? = some '\n' →
      fgets_aux n (pre ++ rest) = ((fgets_aux n pre).1, (fgets_aux n pre).2 ++ rest) := by
  induction n with
  | zero => intro pre rest _ _; simp [fgets_aux]
  | succ n ih =>
    intro pre rest hne hl
    cases pre with
    | nil => exact absurd rfl hne
    | cons c p =>
      by_cases hc : c = '\n'
      · simp [fgets_aux, hc]
      · have hp : p ≠ [] := by
          intro h0
          subst h0
          simp at hl
          exact hc hl
        have hl2 : p.getLast? = some '\n' := by
          have := List.getLast?_append_of_ne_nil [c] hp
          rw [← this]
          exact hl
        simp [fgets_aux, hc, ih p rest hp hl2]

theorem fgets_aux_dim (post : List Char) :
    ∃ u v, fgets_aux MAX_B_LINE_LEN (SION_DIMSIZE_STRING ++ post)
      = (SION_DIMSIZE_STRING ++ u, v) := by
  refine ⟨(fgets_aux 73 post).1, (fgets_aux 73 post).2, ?_⟩
  simp [fgets_aux, SION_DIMSIZE_STRING, MAX_B_LINE_LEN]

theorem is_dim_line_cstr_append (u : List Char) :
    is_dim_line (cstr (SION_DIMSIZE_STRING ++ u)) = true := by
  rw [cstr_append_of_no_nul _ _ (by decide)]
  simp [is_dim_line]

theorem fgets_all_has_dim (fuel : Nat) :
    ∀ (pre post : List Char), (pre = [] ∨ pre.getLast? = some '\n') →
      (pre ++ SION_DIMSIZE_STRING ++ post).length ≤ fuel →
      ∃ raw ∈ fgets_all fuel (pre ++ SION_DIMSIZE_STRING ++ post),
        is_dim_line (cstr raw) = true := by
  induction fuel with
  | zero =>
    intro pre post _ hf
    simp [SION_DIMSIZE_STRING] at hf
  | succ fuel ih =>
    intro pre post hpre hf
    cases pre with
    | nil =>
      obtain ⟨u, v, huv⟩ := fgets_aux_dim post
      have hne : ∃ x xs, SION_DIMSIZE_STRING ++ post = x :: xs := ⟨_, _, rfl⟩
      obtain ⟨x, xs, hx⟩ := hne
      rw [List.nil_append, hx, fgets_all_succ_cons, ← hx, huv]
      exact ⟨_, List.mem_cons_self _ _, is_dim_line_cstr_append u⟩
    | cons x p =>
      have hl : (x :: p).getLast? = some '\n' := by
        rcases hpre with h | h
        · cases h
        · exact h
      have hsplit := fgets_aux_pre MAX_B_LINE_LEN (x :: p) (SION_DIMSIZE_STRING ++ post)
        (by simp) hl
      have happ := fgets_aux_append MAX_B_LINE_LEN (x :: p)
      have hr := fgets_aux_rest_length x p
      have hpre2 : (fgets_aux MAX_B_LINE_LEN (x :: p)).2 = []
          ∨ (fgets_aux MAX_B_LINE_LEN (x :: p)).2.getLast? = some '\n' := by
        by_cases h0 : (fgets_aux MAX_B_LINE_LEN (x :: p)).2 = []
        · exact Or.inl h0
        · right
          have := List.getLast?_append_of_ne_nil (fgets_aux MAX_B_LINE_LEN (x :: p)).1 h0
          rw [happ] at this
          rw [← this]; exact hl
      have e : x :: p ++ SION_DIMSIZE_STRING ++ post
          = x :: (p ++ (SION_DIMSIZE_STRING ++ post)) := by simp
      have e2 : x :: (p ++ (SION_DIMSIZE_STRING ++ post))
          = (x :: p) ++ (SION_DIMSIZE_STRING ++ post) := rfl
      rw [e, fgets_all_succ_cons, e2, hsplit]
      simp only
      have hlen : ((fgets_aux MAX_B_LINE_LEN (x :: p)).2 ++ SION_DIMSIZE_STRING ++ post).length
          ≤ fuel := by
        rw [e] at hf
        simp only [List.length_cons, List.length_append] at hf ⊢
        omega
      obtain ⟨raw, hmem, hd⟩ := ih _ post hpre2 hlen
      rw [List.append_assoc] at hmem
      exact ⟨raw, List.mem_cons_of_mem _ hmem, hd⟩

theorem pass2_line_general (scan_f : List Char → Option F32) (st : Pass2) (raw : List Char)
    (hb : is_blank (cstr raw) = false) (hn : raw_names raw = true)
    (h1 : st.time_count < st.time.length) (h2 : st.time_count < st.span.length)
    (h3 : st.time_count < st.min.length) (h4 : st.time_count < st.max.length) :
    ∃ st2, pass2_line scan_f st raw = some st2 ∧ st2.time_count = st.time_count + 1
      ∧ st2.time.length = st.time.length ∧ st2.span.length = st.span.length
      ∧ st2.min.length = st.min.length ∧ st2.max.length = st.max.length := by
  unfold raw_names at hn
  cases hts : strtok_all (cstr raw) with
  | nil => rw [hts] at hn; exact Bool.noConfusion hn
  | cons t0 ts =>
    rw [hts] at hn
    have hc : ':' ∈ t0 := by simpa using hn
    obtain ⟨vn, hv⟩ := tok_loop_line scan_f st t0 ts hc h1 h2 h3 h4
    have hl : pass2_line scan_f st raw = some
        { var_name := vn
          time := stored scan_f st.time st.time_count ((t0 :: ts).get? 3)
          span := stored scan_f st.span st.time_count ((t0 :: ts).get? 4)
          min := stored scan_f st.min st.time_count ((t0 :: ts).get? 5)
          max := stored scan_f st.max st.time_count ((t0 :: ts).get? 6)
          time_count := st.time_count + 1 } := by
      unfold pass2_line
      simp only [hb, Bool.false_eq_true, if_false, hts, hv]
    exact ⟨_, hl, rfl, stored_length _ _ _ _, stored_length _ _ _ _, stored_length _ _ _ _,
      stored_length _ _ _ _⟩

theorem pass2_general (scan_f : List Char → Option F32) (n : Nat) (ls : List (List Char))
    (hnv : ∀ raw ∈ ls, is_blank (cstr raw) = true ∨ raw_names raw = true) :
    ∀ st : Pass2, st.time.length = n → st.span.length = n → st.min.length = n →
      st.max.length = n → st.time_count + (raw_non_blank ls).length ≤ n →
      ∃ p2, pass2 scan_f ls st = some p2
        ∧ p2.time_count = st.time_count + (raw_non_blank ls).length
        ∧ p2.time.length = n ∧ p2.span.length = n ∧ p2.min.length = n
        ∧ p2.max.length = n := by
  induction ls with
  | nil =>
    intro st h1 h2 h3 h4 _
    exact ⟨st, rfl, by simp [raw_non_blank], h1, h2, h3, h4⟩
  | cons raw ls ih =>
    intro st h1 h2 h3 h4 hc
    have hnv2 : ∀ x ∈ ls, is_blank (cstr x) = true ∨ raw_names x = true :=
      fun x hx => hnv x (List.mem_cons_of_mem _ hx)
    rw [raw_non_blank_cons] at hc ⊢
    by_cases hb : is_blank (cstr raw) = true
    · simp only [hb, if_true] at hc ⊢
      have hl : pass2_line scan_f st raw = some st := by
        unfold pass2_line; simp only [hb, if_true]
      rw [pass2_cons_some scan_f _ _ _ _ hl]
      exact ih hnv2 st h1 h2 h3 h4 hc
    · have hb2 : is_blank (cstr raw) = false := by simpa using hb
      simp only [hb2, Bool.false_eq_true, if_false, List.length_cons] at hc ⊢
      have hn : raw_names raw = true := by
        rcases hnv raw (List.mem_cons_self _ _) with h | h
        · exact absurd h hb
        · exact h
      obtain ⟨st2, hl, e0, e1, e2, e3, e4⟩ := pass2_line_general scan_f st raw hb2 hn
        (by omega) (by omega) (by omega) (by omega)
      rw [pass2_cons_some scan_f _ _ _ _ hl]
      obtain ⟨p2, g0, g1, g2⟩ := ih hnv2 st2 (by omega) (by omega) (by omega) (by omega)
        (by omega)
      exact ⟨p2, g0, by omega, g2⟩

theorem raw_non_blank_append (a b : List (List Char)) :
    raw_non_blank (a ++ b) = raw_non_blank a ++ raw_non_blank b := by
  simp [raw_non_blank]

/-- C17: for every `.b` text (shorter than 2^31 characters) that has a line beginning with
`i/jdm =` and on which the first loop completes, the value `t_len` returned (the count of
the first loop, which includes the dimension line, decremented once) is non-negative and
equals the number of non-blank lines that the second loop reads from the remembered
offset to the end of the text; the arrays are allocated with that many elements; and
whenever the second loop has processed lines (each non-blank one naming its variable, so
that the loop goes on), it has done so with every store inside its array: `time_count`
is then the number of non-blank lines processed, at most `t_len`, and it is below
`t_len` at every further non-blank line. -/
theorem second_pass_within_t_len (libc : Libc) (mem : Uninit) (b_file pre post : List Char)
    (htext : b_file = pre ++ SION_DIMSIZE_STRING ++ post)
    (hpre : pre = [] ∨ pre.getLast? = some '\n')
    (hlen : b_file.length < 2 ^ 31)
    (p1 : Pass1)
    (hp1 : pass1 libc mem (fgets_all b_file.length b_file) pass1_init = some p1) :
    0 ≤ p1.t_len - 1
    ∧ ((raw_non_blank (fgets_all (b_file.drop p1.time_start_pos).length
          (b_file.drop p1.time_start_pos))).length : Int) = p1.t_len - 1
    ∧ to_size_t (p1.t_len - 1) * sizeof_float % SIZE_MOD / sizeof_float
        = (raw_non_blank (fgets_all (b_file.drop p1.time_start_pos).length
            (b_file.drop p1.time_start_pos))).length
    ∧ ∀ ls more, fgets_all (b_file.drop p1.time_start_pos).length
          (b_file.drop p1.time_start_pos) = ls ++ more →
        (∀ raw ∈ ls, is_blank (cstr raw) = true ∨ raw_names raw = true) →
        ∃ p2, pass2 libc.scan_f ls (pass2_init mem.var_name
              (to_size_t (p1.t_len - 1) * sizeof_float % SIZE_MOD / sizeof_float)) = some p2
          ∧ p2.time_count = (raw_non_blank ls).length
          ∧ (p2.time_count : Int) ≤ p1.t_len - 1
          ∧ (p2.time.length : Int) = p1.t_len - 1 ∧ (p2.span.length : Int) = p1.t_len - 1
          ∧ (p2.min.length : Int) = p1.t_len - 1 ∧ (p2.max.length : Int) = p1.t_len - 1
          ∧ ∀ raw rest, more = raw :: rest → is_blank (cstr raw) = false →
              (p2.time_count : Int) < p1.t_len - 1 := by
  -- the first loop meets a dimension line
  obtain ⟨rawd, hmem, hdim⟩ := fgets_all_has_dim b_file.length pre post hpre
    (by rw [← htext])
  rw [← htext] at hmem
  have hcases := pass1_header_general libc mem _ pass1_init p1 rfl rfl rfl hp1
  rcases hcases with ⟨_, hno⟩ | ⟨a, d, b, hsplit, _, htsp, htl⟩
  · rw [hno rawd hmem] at hdim
    exact Bool.noConfusion hdim
  · -- the lines read by the second loop
    have hsplit2 : fgets_all b_file.length b_file = (a ++ [d]) ++ b := by
      rw [hsplit]; simp
    obtain ⟨hdrop, hlines⟩ := fgets_all_split (a ++ [d]) b_file.length b_file b (le_refl _)
      hsplit2
    have htsp2 : p1.time_start_pos = (a ++ [d]).flatten.length := by
      rw [htsp]; simp [pass1_init]
    rw [htsp2, hdrop, hlines]
    -- sizes
    have hcount : (raw_non_blank b).length < 2 ^ 31 := by
      have h1 : (raw_non_blank b).length ≤ b.length := List.length_filter_le _ _
      have h2 := fgets_all_length_le b_file.length b_file
      rw [hsplit] at h2
      simp only [List.length_append, List.length_cons] at h2
      omega
    have hsize : to_size_t (p1.t_len - 1) * sizeof_float % SIZE_MOD / sizeof_float
        = (raw_non_blank b).length := by
      rw [htl]
      unfold to_size_t sizeof_float SIZE_MOD
      omega
    refine ⟨by rw [htl]; omega, by rw [htl]; ring, hsize, ?_⟩
    intro ls more hb hnv
    have hnb : (raw_non_blank b).length = (raw_non_blank ls).length + (raw_non_blank more).length := by
      rw [hb, raw_non_blank_append, List.length_append]
    obtain ⟨p2, g0, g1, g2, g3, g4, g5⟩ := pass2_general libc.scan_f (raw_non_blank b).length ls
      hnv (pass2_init mem.var_name (raw_non_blank b).length) (by simp [pass2_init])
      (by simp [pass2_init]) (by simp [pass2_init]) (by simp [pass2_init])
      (by simp only [pass2_init]; omega)
    have g1b : p2.time_count = (raw_non_blank ls).length := by
      rw [g1]; simp [pass2_init]
    rw [hsize]
    refine ⟨p2, g0, g1b, ?_, ?_, ?_, ?_, ?_, ?_⟩
    · rw [htl, g1b]; omega
    · rw [htl, g2]; ring
    · rw [htl, g3]; ring
    · rw [htl, g4]; ring
    · rw [htl, g5]; ring
    · intro raw rest hm hbl
      rw [hm, raw_non_blank_cons] at hnb
      simp only [hbl, Bool.false_eq_true, if_false, List.length_cons] at hnb
      rw [htl, g1b]
      omega

set_option maxRecDepth 100000 in
/-- C17 on the sample: the first loop counts 4 lines (the dimension line and 3 data
lines), `t_len` is 3, the second loop reads 3 non-blank lines from offset 48, and after
all of them `time_count` is 3 with arrays of 3 elements. -/
theorem second_pass_within_t_len_witness :
    ((raw_non_blank (fgets_all (demo_b_file.drop 48).length (demo_b_file.drop 48))).length : Int)
        = 4 - 1
    ∧ ∃ p2, pass2 demo_scan_f (fgets_all (demo_b_file.drop 48).length (demo_b_file.drop 48))
          (pass2_init zero_mem.var_name 3) = some p2
        ∧ p2.time_count = 3 ∧ p2.time.length = 3 := by
  have h := second_pass_within_t_len demo_libc zero_mem demo_b_file
    "ATMOSPHERIC FORCING\n  sample grid  \n".toList
    " 4 3\nairtmp: date,span,range = 0 1 2 3\nairtmp: date,span,range = 1 1 2 3\nairtmp: date,span,range = 2 1 2 3\n".toList
    (by decide) (Or.inr (by decide)) (by decide) demo_pass1 (by decide)
  obtain ⟨_, h2, h3, h4⟩ := h
  refine ⟨h2, ?_⟩
  obtain ⟨p2, g0, g1, _, g3, _⟩ := h4
    (fgets_all (demo_b_file.drop 48).length (demo_b_file.drop 48)) []
    (List.append_nil _).symm (by decide)
  have e3 : to_size_t (demo_pass1.t_len - 1) * sizeof_float % SIZE_MOD / sizeof_float = 3 := by
    decide
  rw [e3] at g0
  have hc : (raw_non_blank (fgets_all (demo_b_file.drop 48).length
      (demo_b_file.drop 48))).length = 3 := by decide
  refine ⟨p2, g0, by rw [g1]; exact hc, ?_⟩
  have : (p2.time.length : Int) = 3 := by rw [g3]; decide
  exact_mod_cast this

end SION
